import Mathlib

/-!
Verification development for the `TileLayout` grid engine
(`tile_layout.py`): a fixed R×C grid of unit cells partitioned into
rectangular tiles, with placement (`addWidget`), removal
(`removeWidget`), forced re-splitting (`hardSplitTiles`) and
directional resizing (`resizeTile`).

The Python class is embedded shallowly: the mutable object state
(`tile_map`, `widget_tile_couple`, the `Tile` objects) becomes the
record `LayoutState`, Python `int` becomes `Int`, and each method
becomes a pure function on `LayoutState`.  Tile object identity is
modelled by natural-number tile ids allocated from a counter
(`next_id`); the `tiles` field maps each id to the current attribute
record of that `Tile` object.  Qt-specific side effects (palette
changes, `super().addWidget`/`removeWidget` calls that only touch the
rendering layer, mouse tracking) carry no grid-logical state and are
omitted.
-/

namespace TileLayout

/-- Modelled from the spec (§3 "Tile"): the `Tile` class lives in
`tile.py`, which is not part of the sources here; only its interface
(`getFromRow`, `getFromColumn`, `getRowSpan`, `getColumnSpan`,
`isFilled`, `updateSize`, `addWidget`) is visible from
`tile_layout.py`.  Per the spec a Tile is a rectangular region record:
origin `(from_row, from_column)`, spans, and an occupancy flag
`filled` that becomes true when a widget is put on the tile. -/
structure Tile where
  from_row : Int
  from_column : Int
  row_span : Int
  column_span : Int
  filled : Bool
deriving DecidableEq, Repr

/-- The grid-logical state of a `TileLayout` object: grid dimensions,
the `Tile` objects (id → attribute record, ids below `next_id` are
live), the cell-to-tile index `tile_map`, and the two parallel lists
`widget_tile_couple['widget']` / `widget_tile_couple['tile']` (widgets
are opaque handles modelled as naturals, tiles by their ids). -/
structure LayoutState where
  row_number : Nat
  column_number : Nat
  tiles : Nat → Tile
  tile_map : Nat → Nat → Nat
  widget_w : List Nat
  widget_t : List Nat
  next_id : Nat

/-- Modelled from the spec (§7): the error kinds of the engine.  The
Python code signals them with bare `assert` statements
(`DuplicateItem`, `AreaOccupied`, `UnknownItem` in `addWidget` /
`removeWidget`, `AssertionFailed` for the `hardSplitTiles` assert) and
with the `ValueError` raised by `list.index` in `resizeTile`. -/
inductive LayoutError where
  | DuplicateItem
  | AreaOccupied
  | UnknownItem
  | AssertionFailed
deriving DecidableEq, Repr

/-- Python arithmetic on booleans: `True` is `1`, `False` is `0`
(used as `(dir_x == 1)`, `(dir_y != 0)` etc. in `tile_layout.py`). -/
def bi (p : Prop) [Decidable p] : Int :=
  if p then 1 else 0

/-- The row-major list of unit cells of a rectangle, as built by the
comprehensions `[(from_row + row, from_column + column) for row in
range(row_span) for column in range(column_span)]` in `addWidget`,
`removeWidget` and `__createTile`. -/
def rectCells (from_row from_column row_span column_span : Int) : List (Int × Int) :=
  (List.range row_span.toNat).flatMap fun (row : Nat) =>
    (List.range column_span.toNat).map fun (column : Nat) =>
      (from_row + (row : Int), from_column + (column : Int))

/-- `TileLayout.__createTile`: allocates a fresh unfilled tile with
the given geometry and, when `update_tile_map` is set, points every
covered cell of `tile_map` at it.  Returns the new tile's id together
with the updated state.  (The Python loop assigns
`self.tile_map[row][column] = tile` for each cell of the rectangle;
here the same update is expressed as a pointwise redefinition of the
cell map on that rectangle.) -/
def createTile (s : LayoutState) (from_row from_column row_span column_span : Int)
    (update_tile_map : Bool) : Nat × LayoutState :=
  let tid := s.next_id
  let t : Tile :=
    { from_row := from_row, from_column := from_column,
      row_span := row_span, column_span := column_span, filled := false }
  (tid,
    { s with
      next_id := tid + 1
      tiles := fun i => if i = tid then t else s.tiles i
      tile_map :=
        if update_tile_map then
          fun r c =>
            if from_row ≤ (r : Int) ∧ (r : Int) < from_row + row_span ∧
               from_column ≤ (c : Int) ∧ (c : Int) < from_column + column_span
            then tid else s.tile_map r c
        else s.tile_map })

/-- The freshly constructed layout (`__init__` + `__createTileMap`):
one unfilled unit tile per cell, allocated row-major, so the cell
`(r, c)` holds tile id `r * column_number + c` and tile id `i` sits at
`(i / column_number, i % column_number)`. -/
def initState (row_number column_number : Nat) : LayoutState where
  row_number := row_number
  column_number := column_number
  tiles := fun i =>
    { from_row := ((i / column_number : Nat) : Int),
      from_column := ((i % column_number : Nat) : Int),
      row_span := 1, column_span := 1, filled := false }
  tile_map := fun r c => r * column_number + c
  widget_w := []
  widget_t := []
  next_id := row_number * column_number

/-- `TileLayout.isAreaEmpty`: bounds check first, then every covered
cell's owning tile must be unfilled. -/
def isAreaEmpty (s : LayoutState) (from_row from_column row_span column_span : Int) : Bool :=
  if from_row + row_span > (s.row_number : Int) ∨
     from_column + column_span > (s.column_number : Int) ∨
     from_row < 0 ∨ from_column < 0 then
    false
  else
    (List.range row_span.toNat).all fun (row : Nat) =>
      (List.range column_span.toNat).all fun (column : Nat) =>
        !(s.tiles (s.tile_map (from_row.toNat + row) (from_column.toNat + column))).filled

/-- `TileLayout.__mergeTiles`: repoints every cell of `tiles_to_merge`
at `tile`, then `tile.updateSize(from_row, from_column, row_span,
column_span)`.  (The Qt `removeWidget`/`addWidget` calls only move the
rendered widget and are dropped.) -/
def mergeTiles (s : LayoutState) (tid : Nat) (from_row from_column row_span column_span : Int)
    (tiles_to_merge : List (Int × Int)) : LayoutState :=
  { s with
    tile_map := fun r c =>
      if ((r : Int), (c : Int)) ∈ tiles_to_merge then tid else s.tile_map r c
    tiles := fun i =>
      if i = tid then
        { s.tiles i with from_row := from_row, from_column := from_column,
                         row_span := row_span, column_span := column_span }
      else s.tiles i }

/-- The per-cell loop shared by `__splitTiles`, `hardSplitTiles` and
`removeWidget`: `self.__createTile(row, column, update_tile_map=True)`
for each listed cell, i.e. each listed cell receives a fresh unfilled
unit tile. -/
def splitCells (s : LayoutState) (cells : List (Int × Int)) : LayoutState :=
  cells.foldl (fun st p => (createTile st p.1 p.2 1 1 true).2) s

/-- `TileLayout.__splitTiles`: gives each cell of `tiles_to_split` a
fresh unit tile, then `tile.updateSize(...)` shrinks the anchor tile
to the remaining rectangle. -/
def splitTiles (s : LayoutState) (tid : Nat) (from_row from_column row_span column_span : Int)
    (tiles_to_split : List (Int × Int)) : LayoutState :=
  let s1 := splitCells s tiles_to_split
  { s1 with
    tiles := fun i =>
      if i = tid then
        { s1.tiles i with from_row := from_row, from_column := from_column,
                          row_span := row_span, column_span := column_span }
      else s1.tiles i }

/-- `TileLayout.hardSplitTiles`: asserts `(from_row, from_column) in
tiles_to_split` (`none` models the assertion failure), unit-splits
every listed cell and returns the new tile now at
`(from_row, from_column)`. -/
def hardSplitTiles (s : LayoutState) (from_row from_column : Int)
    (tiles_to_split : List (Int × Int)) : Option (Nat × LayoutState) :=
  if (from_row, from_column) ∈ tiles_to_split then
    let s1 := splitCells s tiles_to_split
    some (s1.tile_map from_row.toNat from_column.toNat, s1)
  else
    none

/-- `TileLayout.addWidget`: rejects an already-registered widget
(`DuplicateItem`) and a non-empty target area (`AreaOccupied`) — the
two asserts sit before any mutation, so an error leaves the state
untouched.  On success the widget/tile pair is appended to
`widget_tile_couple`, the covered tiles are merged when the span
exceeds one cell (`tiles_to_merge[1:]` drops the anchor cell itself),
and `tile.addWidget(widget)` marks the anchor tile filled. -/
def addWidget (s : LayoutState) (widget : Nat)
    (from_row from_column row_span column_span : Int) : Except LayoutError LayoutState :=
  if widget ∈ s.widget_w then
    .error .DuplicateItem
  else if !(isAreaEmpty s from_row from_column row_span column_span) then
    .error .AreaOccupied
  else
    let tid := s.tile_map from_row.toNat from_column.toNat
    let s1 := { s with widget_w := s.widget_w ++ [widget], widget_t := s.widget_t ++ [tid] }
    let s2 :=
      if 1 < row_span ∨ 1 < column_span then
        mergeTiles s1 tid from_row from_column row_span column_span
          ((rectCells from_row from_column row_span column_span).drop 1)
      else s1
    .ok { s2 with
          tiles := fun i => if i = tid then { s2.tiles i with filled := true } else s2.tiles i }

/-- `TileLayout.removeWidget`: rejects an unregistered widget
(`UnknownItem`), otherwise hard-splits the full rectangle of the
widget's tile into fresh unit tiles and pops the widget/tile pair.
(`AssertionFailed` propagates the `hardSplitTiles` assert, which a
registered tile of positive spans always satisfies.) -/
def removeWidget (s : LayoutState) (widget : Nat) : Except LayoutError LayoutState :=
  if widget ∈ s.widget_w then
    let index := List.indexOf widget s.widget_w
    let tid := s.widget_t.getD index 0
    let t := s.tiles tid
    match hardSplitTiles s t.from_row t.from_column
        (rectCells t.from_row t.from_column t.row_span t.column_span) with
    | some (_, s1) =>
        .ok { s1 with
              widget_w := s1.widget_w.eraseIdx index
              widget_t := s1.widget_t.eraseIdx index }
    | none => .error .AssertionFailed
  else
    .error .UnknownItem

/-- The inner check of `__getTilesToMerge`: a strip of cells is free
when no cell's owning tile is filled (the Python loop returns early at
the first filled cell; the cells appended before that early return are
discarded with it, so only fully free strips contribute). -/
def stripFree (s : LayoutState) (cells : List (Int × Int)) : Bool :=
  cells.all fun p => !(s.tiles (s.tile_map p.1.toNat p.2.toNat)).filled

/-- `TileLayout.__getTilesToMerge`: clamps the requested unit count at
the grid boundary, then scans strip by strip beyond the tile's far
edge in the travel direction, stopping at the first strip that
contains a filled cell.  Returns the signed number of fully free
strips consumed together with their cells. -/
def getTilesToMerge (s : LayoutState) (dir_x dir_y from_row from_column tile_number : Int) :
    Int × List (Int × Int) :=
  let t := s.tiles (s.tile_map from_row.toNat from_column.toNat)
  let row_span := t.row_span
  let column_span := t.column_span
  let tn :=
    if dir_x + dir_y = -1 then
      max tile_number (-from_column * bi (dir_x ≠ 0) - from_row * bi (dir_y ≠ 0))
    else
      min tile_number
        (((s.column_number : Int) - from_column - column_span) * bi (dir_x ≠ 0) +
         ((s.row_number : Int) - from_row - row_span) * bi (dir_y ≠ 0))
  let strips : List (List (Int × Int)) :=
    if dir_x ≠ 0 then
      (List.range (tn * dir_x).toNat).map fun (column : Nat) =>
        let column_delta :=
          (column_span + (column : Int)) * bi (dir_x = 1) + (-(column : Int) - 1) * bi (dir_x = -1)
        (List.range row_span.toNat).map fun (row : Nat) =>
          (from_row + (row : Int), from_column + column_delta)
    else
      (List.range (tn * dir_y).toNat).map fun (row : Nat) =>
        let row_delta :=
          (row_span + (row : Int)) * bi (dir_y = 1) + (-(row : Int) - 1) * bi (dir_y = -1)
        (List.range column_span.toNat).map fun (column : Nat) =>
          (from_row + row_delta, from_column + (column : Int))
  let free := strips.takeWhile (stripFree s)
  ((free.length : Int) * (if dir_x ≠ 0 then dir_x else dir_y), free.flatten)

/-- `TileLayout.__getTilesToSplit`: clamps the requested shrink so the
remaining span stays at least 1, and lists the cells to shed — the
strips adjacent to the moving edge named by the direction. -/
def getTilesToSplit (s : LayoutState) (dir_x dir_y from_row from_column tile_number : Int) :
    Int × List (Int × Int) :=
  let t := s.tiles (s.tile_map from_row.toNat from_column.toNat)
  let row_span := t.row_span
  let column_span := t.column_span
  let tn :=
    if -tile_number * (dir_x + dir_y) < column_span * bi (dir_x ≠ 0) + row_span * bi (dir_y ≠ 0)
    then tile_number
    else (1 - column_span) * dir_x + (1 - row_span) * dir_y
  let cells :=
    (List.range (-tn * dir_y + row_span * bi (dir_x ≠ 0)).toNat).flatMap fun (row : Nat) =>
      (List.range (-tn * dir_x + column_span * bi (dir_y ≠ 0)).toNat).map fun (column : Nat) =>
        (from_row + (row : Int) + (row_span - 2 * (row : Int) - 1) * bi (dir_y = 1),
         from_column + (column : Int) + (column_span - 2 * (column : Int) - 1) * bi (dir_x = 1))
  (tn, cells)

/-- The payload of the `tileResized` signal: the widget handle and the
tile's resulting `(from_row, from_column, row_span, column_span)`. -/
def ResizeEvent : Type := Nat × Int × Int × Int × Int

/-- `TileLayout.resizeTile`: growth requests go through
`__getTilesToMerge`, shrink requests through `__getTilesToSplit`; the
granted amount updates span and (for west/north) origin; a zero grant
(`tiles_to_merge` empty) changes nothing and emits nothing.  A nonzero
grant applies the merge/split and then looks the tile up in
`widget_tile_couple` to emit `tileResized`; `none` models the
`ValueError` that `list.index` raises when the tile carries no widget
(note the lookup happens after the structural change in the Python
code).  The result pairs the final state with the emitted event, if
any. -/
def resizeTile (s : LayoutState) (dir_x dir_y from_row from_column tile_number : Int) :
    Option (LayoutState × Option ResizeEvent) :=
  let tid := s.tile_map from_row.toNat from_column.toNat
  let t := s.tiles tid
  let increase := tile_number * (dir_x + dir_y) > 0
  let res :=
    if increase then getTilesToMerge s dir_x dir_y from_row from_column tile_number
    else getTilesToSplit s dir_x dir_y from_row from_column tile_number
  let tn := res.1
  let tiles_to_merge := res.2
  let column_span := t.column_span + tn * dir_x
  let from_column2 := from_column + tn * bi (dir_x = -1)
  let row_span := t.row_span + tn * dir_y
  let from_row2 := from_row + tn * bi (dir_y = -1)
  if tiles_to_merge.isEmpty then
    some (s, none)
  else
    let s1 :=
      if increase then
        mergeTiles s tid from_row2 from_column2 row_span column_span tiles_to_merge
      else
        splitTiles s tid from_row2 from_column2 row_span column_span tiles_to_merge
    if tid ∈ s1.widget_t then
      let index := List.indexOf tid s1.widget_t
      let widget := s1.widget_w.getD index 0
      some (s1, some (widget, from_row2, from_column2, row_span, column_span))
    else
      none

/-! ### Spec-side definitions

These follow the wording of the specification (growth path of §4.3),
for comparison against `getTilesToMerge`. -/

/-- Spec wording (§4.3 growth, step 2): "each strip is the full row or
full column immediately beyond the current far edge, one step further
per iteration" in the travel direction.  `specStrip` lists the cells
of the `i`-th such strip for a tile of geometry
`(from_row, from_column, row_span, column_span)`. -/
def specStrip (dir_x dir_y from_row from_column row_span column_span : Int) (i : Nat) :
    List (Int × Int) :=
  if dir_x = 1 then
    (List.range row_span.toNat).map fun (row : Nat) =>
      (from_row + (row : Int), from_column + column_span + (i : Int))
  else if dir_x = -1 then
    (List.range row_span.toNat).map fun (row : Nat) =>
      (from_row + (row : Int), from_column - 1 - (i : Int))
  else if dir_y = 1 then
    (List.range column_span.toNat).map fun (column : Nat) =>
      (from_row + row_span + (i : Int), from_column + (column : Int))
  else
    (List.range column_span.toNat).map fun (column : Nat) =>
      (from_row - 1 - (i : Int), from_column + (column : Int))

/-- Spec wording (§4.3 growth, step 1): the requested unit count
clamped against the grid boundary in the travel direction (given here
as a magnitude: the request `tile_number` is signed, negative for west
and north). -/
def specClamp (s : LayoutState) (dir_x dir_y from_row from_column row_span column_span
    tile_number : Int) : Int :=
  if dir_x = 1 then min tile_number ((s.column_number : Int) - from_column - column_span)
  else if dir_x = -1 then min (-tile_number) from_column
  else if dir_y = 1 then min tile_number ((s.row_number : Int) - from_row - row_span)
  else min (-tile_number) from_row

/-- Spec wording (§4.3 growth, step 2): the number of consecutive
fully free strips, scanning strip by strip up to the clamped request
and stopping at the first strip that contains a filled cell. -/
def specFreeRun (s : LayoutState) (strip : Nat → List (Int × Int)) (bound : Nat) : Nat :=
  ((List.range bound).takeWhile fun i => stripFree s (strip i)).length

/-! ### The partition invariant and valid operation sequences -/

/-- The tile covers the grid cell `(r, c)`. -/
def Covers (t : Tile) (r c : Nat) : Prop :=
  t.from_row ≤ (r : Int) ∧ (r : Int) < t.from_row + t.row_span ∧
  t.from_column ≤ (c : Int) ∧ (c : Int) < t.from_column + t.column_span

/-- The tile's rectangle lies inside the grid (§3 Tile invariant). -/
def InBoundsTile (s : LayoutState) (t : Tile) : Prop :=
  0 ≤ t.from_row ∧ 0 ≤ t.from_column ∧
  t.from_row + t.row_span ≤ (s.row_number : Int) ∧
  t.from_column + t.column_span ≤ (s.column_number : Int)

/-- The tile owning the cell `(r, c)`. -/
def owner (s : LayoutState) (r c : Nat) : Tile :=
  s.tiles (s.tile_map r c)

/-- The partition property (§3 Grid invariant, §8 first bullet): every
cell's owning tile covers that cell with an in-bounds rectangle, and
whenever the tile referenced by some cell covers a cell, that cell
references the same tile — so each cell is covered by exactly one
referenced tile, distinct referenced tiles have disjoint rectangles,
and the rectangles of the referenced tiles tile the grid exactly. -/
def Partition (s : LayoutState) : Prop :=
  ∀ r, r < s.row_number → ∀ c, c < s.column_number →
    Covers (owner s r c) r c ∧ InBoundsTile s (owner s r c) ∧
    ∀ r', r' < s.row_number → ∀ c', c' < s.column_number →
      Covers (owner s r' c') r c → s.tile_map r c = s.tile_map r' c'

/-- The full inductive invariant: the partition property, plus the
bookkeeping facts the operations rely on — referenced ids are live
(below `next_id`), unfilled referenced tiles are unit tiles sitting at
their own cell, and the widget registry is a duplicate-free pairing
whose tiles are live, filled, in bounds and referenced at their own
origin cell. -/
def Inv (s : LayoutState) : Prop :=
  Partition s ∧
  (∀ r, r < s.row_number → ∀ c, c < s.column_number → s.tile_map r c < s.next_id) ∧
  (∀ r, r < s.row_number → ∀ c, c < s.column_number →
    (owner s r c).filled = false → owner s r c = ⟨(r : Int), (c : Int), 1, 1, false⟩) ∧
  s.widget_w.length = s.widget_t.length ∧
  s.widget_w.Nodup ∧
  s.widget_t.Nodup ∧
  ∀ tid ∈ s.widget_t,
    tid < s.next_id ∧ (s.tiles tid).filled = true ∧
    InBoundsTile s (s.tiles tid) ∧
    1 ≤ (s.tiles tid).row_span ∧ 1 ≤ (s.tiles tid).column_span ∧
    s.tile_map (s.tiles tid).from_row.toNat (s.tiles tid).from_column.toNat = tid

instance (t : Tile) (r c : Nat) : Decidable (Covers t r c) := by
  unfold Covers; exact inferInstance

instance (s : LayoutState) (t : Tile) : Decidable (InBoundsTile s t) := by
  unfold InBoundsTile; exact inferInstance

instance (s : LayoutState) : Decidable (Partition s) := by
  unfold Partition; exact inferInstance

instance (s : LayoutState) : Decidable (Inv s) := by
  unfold Inv; exact inferInstance

/-- One request to the engine (the four mutating operations of the
claim). -/
inductive Op where
  | add (widget : Nat) (from_row from_column row_span column_span : Int)
  | remove (widget : Nat)
  | resize (dir_x dir_y from_row from_column tile_number : Int)
  | hardSplit (from_row from_column : Int) (cells : List (Int × Int))

/-- Validity of a resize request, from the resolver's input contract
(§4.3): the direction is one of the four unit directions, and the
request addresses "the tile currently anchored at `(row, col)`" — an
in-range cell that is the origin of its owning tile. -/
def ValidResize (s : LayoutState) (dir_x dir_y from_row from_column : Int) : Prop :=
  ((dir_x, dir_y) = (1, 0) ∨ (dir_x, dir_y) = (-1, 0) ∨
   (dir_x, dir_y) = (0, 1) ∨ (dir_x, dir_y) = (0, -1)) ∧
  0 ≤ from_row ∧ from_row < (s.row_number : Int) ∧
  0 ≤ from_column ∧ from_column < (s.column_number : Int) ∧
  (s.tiles (s.tile_map from_row.toNat from_column.toNat)).from_row = from_row ∧
  (s.tiles (s.tile_map from_row.toNat from_column.toNat)).from_column = from_column

/-- Validity of a direct `hardSplitTiles` request (§4.1 `splitOut` /
§4.2): the listed cells are in-range cells of unfilled (hence unit)
tiles — the utility re-splits free regions; splitting cells out of a
tile that still hosts a widget is outside its contract. -/
def ValidHardSplit (s : LayoutState) (cells : List (Int × Int)) : Prop :=
  ∀ p ∈ cells,
    0 ≤ p.1 ∧ p.1 < (s.row_number : Int) ∧ 0 ≤ p.2 ∧ p.2 < (s.column_number : Int) ∧
    (s.tiles (s.tile_map p.1.toNat p.2.toNat)).filled = false

instance (s : LayoutState) (dir_x dir_y from_row from_column : Int) :
    Decidable (ValidResize s dir_x dir_y from_row from_column) := by
  unfold ValidResize; exact inferInstance

instance (s : LayoutState) (cells : List (Int × Int)) :
    Decidable (ValidHardSplit s cells) := by
  unfold ValidHardSplit; exact List.decidableBAll _ cells

/-- Runs one operation when it is valid: placements place a rectangle
of at least one cell (§1, §3: spans are ≥ 1) and must pass the
`addWidget` asserts; removals must pass the `removeWidget` assert;
resize requests must satisfy the resolver's input contract and
complete without the registry `ValueError`; direct hard splits must
satisfy `ValidHardSplit` and the `hardSplitTiles` assert.  An
operation that fails its preconditions (or raises) yields `none`. -/
def applyOp (s : LayoutState) : Op → Option LayoutState
  | .add w fr fc rs cs =>
      if 1 ≤ rs ∧ 1 ≤ cs then (addWidget s w fr fc rs cs).toOption else none
  | .remove w => (removeWidget s w).toOption
  | .resize dx dy fr fc tn =>
      if ValidResize s dx dy fr fc then (resizeTile s dx dy fr fc tn).map Prod.fst else none
  | .hardSplit fr fc cells =>
      if ValidHardSplit s cells then (hardSplitTiles s fr fc cells).map Prod.snd else none

/-- Runs a sequence of operations, failing if any one fails. -/
def applyOps (s : LayoutState) : List Op → Option LayoutState
  | [] => some s
  | op :: ops => (applyOp s op).bind fun s' => applyOps s' ops

/-- States reachable from a freshly constructed `R × C` grid by a
finite sequence of valid operations. -/
def Reachable (rows columns : Nat) (s : LayoutState) : Prop :=
  ∃ ops : List Op, applyOps (initState rows columns) ops = some s

/-- A 2×2 grid with widget 5 placed over the left column: the anchor
tile at `(0, 0)` spans 2×1.  Used to exercise the shrink path on a
concrete multi-cell tile. -/
def shrinkDemo : LayoutState :=
  ((addWidget (initState 2 2) 5 0 0 2 1).toOption).getD (initState 2 2)

/-- A 2×2 grid with widget 9 placed over the left column (the state
after the placement of the round-trip example). -/
def c7DemoAdd : LayoutState :=
  ((addWidget (initState 2 2) 9 0 0 2 1).toOption).getD (initState 2 2)

/-- `c7DemoAdd` after removing widget 9 again (the state after the
round trip). -/
def c7DemoRemove : LayoutState :=
  ((removeWidget c7DemoAdd 9).toOption).getD c7DemoAdd

/-! ### Helper lemmas -/

theorem flatMap_range_succ {α : Type} (f : Nat → List α) (n : Nat) :
    (List.range (n + 1)).flatMap f = f 0 ++ (List.range n).flatMap fun i => f (i + 1) := by
  rw [List.range_succ_eq_map]
  simp [List.flatMap_cons, List.flatMap_map, Nat.succ_eq_add_one]

theorem map_range_succ {α : Type} (f : Nat → α) (n : Nat) :
    (List.range (n + 1)).map f = f 0 :: ((List.range n).map fun i => f (i + 1)) := by
  rw [List.range_succ_eq_map]
  simp [Function.comp, Nat.succ_eq_add_one]

theorem mem_rectCells {fr fc rs cs : Int} {p : Int × Int} :
    p ∈ rectCells fr fc rs cs ↔
      fr ≤ p.1 ∧ p.1 < fr + rs ∧ fc ≤ p.2 ∧ p.2 < fc + cs := by
  obtain ⟨x, y⟩ := p
  simp only [rectCells, List.mem_flatMap, List.mem_map, List.mem_range]
  constructor
  · rintro ⟨row, hrow, column, hcol, h⟩
    rw [Prod.mk.injEq] at h
    obtain ⟨h1, h2⟩ := h
    omega
  · rintro ⟨h1, h2, h3, h4⟩
    refine ⟨(x - fr).toNat, by omega, (y - fc).toNat, by omega, ?_⟩
    have hx : fr + ((x - fr).toNat : Int) = x := by omega
    have hy : fc + ((y - fc).toNat : Int) = y := by omega
    rw [hx, hy]

theorem head_rectCells {fr fc rs cs : Int} (h1 : 1 ≤ rs) (h2 : 1 ≤ cs) :
    (rectCells fr fc rs cs).head? = some (fr, fc) := by
  obtain ⟨m, hm⟩ : ∃ m, rs.toNat = m + 1 := ⟨rs.toNat - 1, by omega⟩
  obtain ⟨n, hn⟩ : ∃ n, cs.toNat = n + 1 := ⟨cs.toNat - 1, by omega⟩
  unfold rectCells
  rw [hm, flatMap_range_succ, hn, map_range_succ, List.cons_append, List.head?_cons]
  norm_num

theorem mem_drop_one_rectCells {fr fc rs cs : Int} {p : Int × Int}
    (hmem : p ∈ rectCells fr fc rs cs) (hne : p ≠ (fr, fc)) :
    p ∈ (rectCells fr fc rs cs).drop 1 := by
  have h1 : 1 ≤ rs := by
    rcases mem_rectCells.mp hmem with ⟨a, b, _, _⟩; omega
  have h2 : 1 ≤ cs := by
    rcases mem_rectCells.mp hmem with ⟨_, _, a, b⟩; omega
  have hl := List.cons_head?_tail (@head_rectCells fr fc rs cs h1 h2)
  rw [← hl] at hmem ⊢
  simp only [List.drop_one, List.tail_cons]
  rcases List.mem_cons.mp hmem with h | h
  · exact absurd h hne
  · exact h

theorem drop_one_subset_rectCells {fr fc rs cs : Int} {p : Int × Int}
    (h : p ∈ (rectCells fr fc rs cs).drop 1) : p ∈ rectCells fr fc rs cs :=
  List.drop_subset 1 _ h

/-- Unfolds one step of `splitCells`. -/
theorem splitCells_cons (s : LayoutState) (p : Int × Int) (rest : List (Int × Int)) :
    splitCells s (p :: rest) = splitCells (createTile s p.1 p.2 1 1 true).2 rest := rfl

theorem splitCells_misc (cells : List (Int × Int)) (s : LayoutState) :
    (splitCells s cells).row_number = s.row_number ∧
    (splitCells s cells).column_number = s.column_number ∧
    (splitCells s cells).widget_w = s.widget_w ∧
    (splitCells s cells).widget_t = s.widget_t ∧
    (splitCells s cells).next_id = s.next_id + cells.length := by
  induction cells generalizing s with
  | nil => simp [splitCells]
  | cons p rest ih =>
    rw [splitCells_cons]
    obtain ⟨a, b, c, d, e⟩ := ih (createTile s p.1 p.2 1 1 true).2
    refine ⟨a, b, c, d, ?_⟩
    rw [e]
    simp [createTile, List.length_cons]
    omega

theorem splitCells_tiles_old (cells : List (Int × Int)) (s : LayoutState) (i : Nat)
    (h : i < s.next_id) : (splitCells s cells).tiles i = s.tiles i := by
  induction cells generalizing s with
  | nil => rfl
  | cons p rest ih =>
    rw [splitCells_cons]
    have h' : i < (createTile s p.1 p.2 1 1 true).2.next_id := by
      simp [createTile]; omega
    rw [ih _ h']
    simp [createTile]
    omega

theorem splitCells_tile_map_not_mem (cells : List (Int × Int)) (s : LayoutState) (r c : Nat)
    (h : ((r : Int), (c : Int)) ∉ cells) :
    (splitCells s cells).tile_map r c = s.tile_map r c := by
  induction cells generalizing s with
  | nil => rfl
  | cons p rest ih =>
    rw [splitCells_cons]
    rw [ih _ (fun hmem => h (List.mem_cons_of_mem _ hmem))]
    have hne : ((r : Int), (c : Int)) ≠ p := fun he => h (he ▸ List.mem_cons_self _ _)
    have hcond : ¬(p.1 ≤ (r : Int) ∧ (r : Int) < p.1 + 1 ∧
        p.2 ≤ (c : Int) ∧ (c : Int) < p.2 + 1) := by
      rintro ⟨a1, a2, a3, a4⟩
      refine hne ?_
      rw [Prod.ext_iff]
      constructor
      · show (r : Int) = p.1
        omega
      · show (c : Int) = p.2
        omega
    simp [createTile, hcond]

theorem splitCells_tile_map_mem (cells : List (Int × Int)) (s : LayoutState) (r c : Nat)
    (h : ((r : Int), (c : Int)) ∈ cells) :
    s.next_id ≤ (splitCells s cells).tile_map r c ∧
    (splitCells s cells).tile_map r c < (splitCells s cells).next_id ∧
    (splitCells s cells).tiles ((splitCells s cells).tile_map r c) =
      ⟨(r : Int), (c : Int), 1, 1, false⟩ := by
  induction cells generalizing s with
  | nil => exact absurd h (List.not_mem_nil _)
  | cons p rest ih =>
    rw [splitCells_cons]
    by_cases hrest : ((r : Int), (c : Int)) ∈ rest
    · obtain ⟨a, b, d⟩ := ih (createTile s p.1 p.2 1 1 true).2 hrest
      refine ⟨?_, b, d⟩
      have : s.next_id ≤ (createTile s p.1 p.2 1 1 true).2.next_id := Nat.le_succ _
      omega
    · have hp : ((r : Int), (c : Int)) = p := by
        rcases List.mem_cons.mp h with he | he
        · exact he
        · exact absurd he hrest
      obtain ⟨hp1, hp2⟩ := Prod.ext_iff.mp hp
      simp only at hp1 hp2
      have hmap : (splitCells (createTile s p.1 p.2 1 1 true).2 rest).tile_map r c =
          (createTile s p.1 p.2 1 1 true).2.tile_map r c :=
        splitCells_tile_map_not_mem rest _ r c hrest
      have hcond : p.1 ≤ (r : Int) ∧ (r : Int) < p.1 + 1 ∧
          p.2 ≤ (c : Int) ∧ (c : Int) < p.2 + 1 := by
        omega
      have hmap2 : (createTile s p.1 p.2 1 1 true).2.tile_map r c = s.next_id := by
        simp [createTile, hcond]
      have hv : (splitCells (createTile s p.1 p.2 1 1 true).2 rest).tile_map r c = s.next_id :=
        hmap.trans hmap2
      obtain ⟨_, _, _, _, hnext⟩ := splitCells_misc rest (createTile s p.1 p.2 1 1 true).2
      have hnext1 : (createTile s p.1 p.2 1 1 true).2.next_id = s.next_id + 1 := by
        simp [createTile]
      have htiles : (splitCells (createTile s p.1 p.2 1 1 true).2 rest).tiles s.next_id =
          (createTile s p.1 p.2 1 1 true).2.tiles s.next_id :=
        splitCells_tiles_old rest _ s.next_id (by omega)
      refine ⟨by omega, by omega, ?_⟩
      rw [hv, htiles]
      simp [createTile, hp1, hp2]

/-- Characterization of `isAreaEmpty`: true exactly when the rectangle
is in bounds with a non-negative origin and every covered cell's owner
is unfilled. -/
theorem isAreaEmpty_iff (s : LayoutState) (fr fc rs cs : Int) :
    isAreaEmpty s fr fc rs cs = true ↔
      0 ≤ fr ∧ 0 ≤ fc ∧ fr + rs ≤ (s.row_number : Int) ∧ fc + cs ≤ (s.column_number : Int) ∧
      ∀ r c : Int, fr ≤ r → r < fr + rs → fc ≤ c → c < fc + cs →
        (s.tiles (s.tile_map r.toNat c.toNat)).filled = false := by
  unfold isAreaEmpty
  by_cases hb : fr + rs > (s.row_number : Int) ∨ fc + cs > (s.column_number : Int) ∨
      fr < 0 ∨ fc < 0
  · rw [if_pos hb]
    simp only [Bool.false_eq_true, false_iff]
    rintro ⟨h1, h2, h3, h4, _⟩
    omega
  · rw [if_neg hb]
    push_neg at hb
    obtain ⟨h1, h2, h3, h4⟩ := hb
    simp only [List.all_eq_true, List.mem_range, Bool.not_eq_eq_eq_not, Bool.not_true]
    constructor
    · intro hall
      refine ⟨by omega, by omega, by omega, by omega, ?_⟩
      intro r c hr1 hr2 hc1 hc2
      have er : r.toNat = fr.toNat + (r - fr).toNat := by omega
      have ec : c.toNat = fc.toNat + (c - fc).toNat := by omega
      rw [er, ec]
      exact hall _ (by omega) _ (by omega)
    · rintro ⟨_, _, _, _, hcells⟩ row hrow column hcol
      have h := hcells (fr + (row : Int)) (fc + (column : Int))
        (by omega) (by omega) (by omega) (by omega)
      have er : (fr + (row : Int)).toNat = fr.toNat + row := by omega
      have ec : (fc + (column : Int)).toNat = fc.toNat + column := by omega
      rw [er, ec] at h
      exact h

/-- Claim C3: `isAreaEmpty` returns `false` when the rectangle exits
the grid bounds (`from_row + row_span > rowCount` or `from_column +
column_span > columnCount`) or has a negative origin; otherwise it
returns `true` iff every cell covered by the rectangle is owned by an
unfilled tile.  (Stated as a single equivalence: the bounds conditions
are conjoined with the per-cell condition, which is exactly the
claimed case split.) -/
theorem c3_isAreaEmpty_characterization (s : LayoutState) (fr fc rs cs : Int) :
    isAreaEmpty s fr fc rs cs = true ↔
      0 ≤ fr ∧ 0 ≤ fc ∧ fr + rs ≤ (s.row_number : Int) ∧ fc + cs ≤ (s.column_number : Int) ∧
      ∀ r c : Int, fr ≤ r → r < fr + rs → fc ≤ c → c < fc + cs →
        (s.tiles (s.tile_map r.toNat c.toNat)).filled = false :=
  isAreaEmpty_iff s fr fc rs cs

/-- Claim C10: a rectangle with `row_span = 0` or `column_span = 0`
passes `isAreaEmpty` whenever the origin is non-negative and the
degenerate rectangle stays inside the grid (including an origin on the
grid's far edge), because the emptiness check ranges over an empty set
of cells — so the sole admission check for placement accepts zero-area
rectangles. -/
theorem c10_isAreaEmpty_zero_span (s : LayoutState) (fr fc rs cs : Int)
    (hz : rs = 0 ∨ cs = 0) (h1 : 0 ≤ fr) (h2 : 0 ≤ fc)
    (h3 : fr + rs ≤ (s.row_number : Int)) (h4 : fc + cs ≤ (s.column_number : Int)) :
    isAreaEmpty s fr fc rs cs = true := by
  rw [isAreaEmpty_iff]
  refine ⟨h1, h2, h3, h4, ?_⟩
  intro r c hr1 hr2 hc1 hc2
  rcases hz with hz | hz <;> omega

/-- Witness for C10: on a fresh 2×2 grid, the degenerate rectangle at
`(2, 0)` with `row_span = 0` (origin on the far edge) is accepted. -/
theorem c10_isAreaEmpty_zero_span_witness :
    isAreaEmpty (initState 2 2) 2 0 0 1 = true :=
  c10_isAreaEmpty_zero_span (initState 2 2) 2 0 0 1 (Or.inl rfl)
    (by decide) (by decide) (by decide) (by decide)

/-- Claim C4: `addWidget` fails with `DuplicateItem` when the widget
is already bound, fails with `AreaOccupied` when `isAreaEmpty` is
false for the requested rectangle (both checks precede any mutation —
the embedding returns the error without a state, matching the Python
asserts that sit before all assignments), and on success appends the
widget/anchor pair to the registry; when the span exceeds one cell,
all covered cells are merged into the single anchor tile, whose record
becomes the requested rectangle, marked filled. -/
theorem c4_addWidget_contract (s : LayoutState) (w : Nat) (fr fc rs cs : Int) :
    (w ∈ s.widget_w → addWidget s w fr fc rs cs = .error .DuplicateItem) ∧
    (w ∉ s.widget_w → isAreaEmpty s fr fc rs cs = false →
      addWidget s w fr fc rs cs = .error .AreaOccupied) ∧
    ∀ s', addWidget s w fr fc rs cs = .ok s' →
      s'.widget_w = s.widget_w ++ [w] ∧
      s'.widget_t = s.widget_t ++ [s.tile_map fr.toNat fc.toNat] ∧
      (s'.tiles (s.tile_map fr.toNat fc.toNat)).filled = true ∧
      ((1 < rs ∨ 1 < cs) →
        s'.tiles (s.tile_map fr.toNat fc.toNat) = ⟨fr, fc, rs, cs, true⟩ ∧
        ∀ r c : Int, fr ≤ r → r < fr + rs → fc ≤ c → c < fc + cs →
          s'.tile_map r.toNat c.toNat = s.tile_map fr.toNat fc.toNat) := by
  refine ⟨?_, ?_, ?_⟩
  · intro hw
    simp [addWidget, hw]
  · intro hw hempty
    simp [addWidget, hw, hempty]
  · intro s' hok
    unfold addWidget at hok
    by_cases hw : w ∈ s.widget_w
    · simp [hw] at hok
    by_cases hempty : isAreaEmpty s fr fc rs cs = true
    · rw [if_neg hw, hempty] at hok
      simp only [Bool.not_true, Bool.false_eq_true, if_false] at hok
      obtain ⟨hb1, hb2, hb3, hb4, hcells⟩ := (isAreaEmpty_iff s fr fc rs cs).mp hempty
      rw [Except.ok.injEq] at hok
      subst hok
      by_cases hspan : 1 < rs ∨ 1 < cs
      · rw [if_pos hspan]
        refine ⟨by simp [mergeTiles], by simp [mergeTiles], ?_, ?_⟩
        · simp [mergeTiles]
        intro _
        constructor
        · simp [mergeTiles]
        · intro r c hr1 hr2 hc1 hc2
          show (if _ then _ else _) = _
          by_cases hanchor : (r, c) = ((fr : Int), (fc : Int))
          · rw [Prod.mk.injEq] at hanchor
            obtain ⟨e1, e2⟩ := hanchor
            subst e1; subst e2
            by_cases hmem : ((((r.toNat : Nat)) : Int), ((c.toNat : Nat) : Int)) ∈
                (rectCells r c rs cs).drop 1
            · rw [if_pos hmem]
            · rw [if_neg hmem]
          · have hcast : (((r.toNat : Nat) : Int), ((c.toNat : Nat) : Int)) = (r, c) := by
              rw [Prod.mk.injEq]
              omega
            rw [hcast]
            rw [if_pos (mem_drop_one_rectCells
              (mem_rectCells.mpr ⟨hr1, hr2, hc1, hc2⟩) hanchor)]
      · rw [if_neg hspan]
        refine ⟨rfl, rfl, by simp, ?_⟩
        intro h
        exact absurd h hspan
    · rw [if_neg hw] at hok
      rw [Bool.not_eq_true] at hempty
      rw [hempty] at hok
      simp at hok

/-- Witness for C4: on a fresh 2×2 grid, placing at a negative origin
is rejected with `AreaOccupied` (the second conjunct of the contract,
with both of its hypotheses discharged concretely). -/
theorem c4_addWidget_contract_witness :
    addWidget (initState 2 2) 7 (-1) 0 1 1 = .error .AreaOccupied :=
  (c4_addWidget_contract (initState 2 2) 7 (-1) 0 1 1).2.1 (by decide) (by decide)

/-- Claim C5: `removeWidget` fails with `UnknownItem` when the widget
is not bound; on success every unit cell covered by the widget's tile
rectangle is reassigned to a fresh (id at least the old `next_id`)
unfilled 1×1 tile sitting at that very cell — unconditionally, by the
hard split — and the widget/tile pair is removed from the registry.
(The origin non-negativity hypotheses discharge the `Int.toNat` cell
addressing; they hold for every tile a reachable state registers.) -/
theorem c5_removeWidget_contract (s : LayoutState) (w : Nat) :
    (w ∉ s.widget_w → removeWidget s w = .error .UnknownItem) ∧
    ∀ t, t = s.tiles (s.widget_t.getD (List.indexOf w s.widget_w) 0) →
    ∀ s', removeWidget s w = .ok s' →
      0 ≤ t.from_row → 0 ≤ t.from_column →
      (∀ r c : Int, t.from_row ≤ r → r < t.from_row + t.row_span →
        t.from_column ≤ c → c < t.from_column + t.column_span →
        s'.tiles (s'.tile_map r.toNat c.toNat) = ⟨r, c, 1, 1, false⟩ ∧
        s.next_id ≤ s'.tile_map r.toNat c.toNat) ∧
      s'.widget_w = s.widget_w.eraseIdx (List.indexOf w s.widget_w) ∧
      s'.widget_t = s.widget_t.eraseIdx (List.indexOf w s.widget_w) ∧
      (s.widget_w.Nodup → w ∉ s'.widget_w) := by
  constructor
  · intro hw
    simp [removeWidget, hw]
  · intro t ht s' hok hr0 hc0
    unfold removeWidget at hok
    by_cases hw : w ∈ s.widget_w
    swap
    · simp [hw] at hok
    rw [if_pos hw] at hok
    simp only [] at hok
    rw [← ht] at hok
    by_cases hassert : ((t.from_row, t.from_column) : Int × Int) ∈
        rectCells t.from_row t.from_column t.row_span t.column_span
    swap
    · rw [hardSplitTiles, if_neg hassert] at hok
      simp at hok
    rw [hardSplitTiles, if_pos hassert] at hok
    simp only [Except.ok.injEq] at hok
    subst hok
    obtain ⟨hm1, hm2, hm3, hm4, hm5⟩ :=
      splitCells_misc (rectCells t.from_row t.from_column t.row_span t.column_span) s
    refine ⟨?_, by rw [hm3], by rw [hm4], ?_⟩
    · intro r c h1 h2 h3 h4
      have hcast : (((r.toNat : Nat) : Int), ((c.toNat : Nat) : Int)) = (r, c) := by
        rw [Prod.mk.injEq]
        omega
      have hmem : (((r.toNat : Nat) : Int), ((c.toNat : Nat) : Int)) ∈
          rectCells t.from_row t.from_column t.row_span t.column_span := by
        rw [hcast]
        exact mem_rectCells.mpr ⟨h1, h2, h3, h4⟩
      obtain ⟨ha, hb, hc⟩ := splitCells_tile_map_mem _ s r.toNat c.toNat hmem
      refine ⟨?_, ha⟩
      rw [hc]
      rw [Prod.mk.injEq] at hcast
      rw [hcast.1, hcast.2]
    · intro hnodup
      rw [hm3, List.eraseIdx_indexOf_eq_erase]
      exact hnodup.not_mem_erase

/-- Witness for C5: on a 2×2 grid with widget 5 placed over the left
column (a 2×1 tile), removing widget 5 makes both covered cells fresh
unfilled unit tiles and empties the registry. -/
theorem c5_removeWidget_contract_witness :
    ∀ s', removeWidget (((addWidget (initState 2 2) 5 0 0 2 1).toOption).getD (initState 2 2)) 5
        = .ok s' →
      (∀ r c : Int, 0 ≤ r → r < 0 + 2 → 0 ≤ c → c < 0 + 1 →
        s'.tiles (s'.tile_map r.toNat c.toNat) = ⟨r, c, 1, 1, false⟩ ∧
        (((addWidget (initState 2 2) 5 0 0 2 1).toOption).getD (initState 2 2)).next_id ≤
          s'.tile_map r.toNat c.toNat) ∧
      s'.widget_w = [] ∧ s'.widget_t = [] ∧
      (([5] : List Nat).Nodup → 5 ∉ s'.widget_w) := by
  intro s' hok
  have h := (c5_removeWidget_contract
      (((addWidget (initState 2 2) 5 0 0 2 1).toOption).getD (initState 2 2)) 5).2
      _ rfl s' hok (by decide) (by decide)
  exact h

theorem takeWhile_eq_take {α : Type} (p : α → Bool) (l : List α) :
    l.takeWhile p = l.take (l.takeWhile p).length := by
  induction l with
  | nil => rfl
  | cons a l ih =>
    by_cases h : p a
    · simp [List.takeWhile_cons, h, List.take_succ_cons, ← ih]
    · simp [List.takeWhile_cons, h]

theorem takeWhile_length_le {α : Type} (p : α → Bool) (l : List α) :
    (l.takeWhile p).length ≤ l.length := by
  induction l with
  | nil => simp
  | cons a l ih =>
    by_cases h : p a
    · simp [List.takeWhile_cons, h]
      omega
    · simp [List.takeWhile_cons, h]

/-- `takeWhile` over `List.range` is again a range, of the prefix
length. -/
theorem range_takeWhile (q : Nat → Bool) (m : Nat) :
    (List.range m).takeWhile q = List.range ((List.range m).takeWhile q).length := by
  conv_lhs => rw [takeWhile_eq_take]
  rw [List.take_range]
  congr 1
  have h := takeWhile_length_le q (List.range m)
  rw [List.length_range] at h
  omega

/-- The strips inside the free prefix are free. -/
theorem freeRun_free (q : Nat → Bool) (m i : Nat)
    (h : i < ((List.range m).takeWhile q).length) : q i = true := by
  have hm : i ∈ (List.range m).takeWhile q := by
    rw [range_takeWhile]
    exact List.mem_range.mpr h
  exact List.mem_takeWhile_imp hm

theorem takeWhile_stop {α : Type} (p : α → Bool) (d : α) (l : List α)
    (h : (l.takeWhile p).length < l.length) :
    p (l.getD (l.takeWhile p).length d) = false := by
  induction l with
  | nil => simp at h
  | cons a l ih =>
    by_cases hp : p a
    · rw [List.takeWhile_cons, if_pos hp] at h ⊢
      simp only [List.length_cons] at h
      have := ih (by omega)
      simpa using this
    · rw [List.takeWhile_cons, if_neg hp]
      simpa using hp

/-- The strip right after the free prefix (when it exists) is not
free. -/
theorem freeRun_stop (q : Nat → Bool) (m : Nat)
    (h : ((List.range m).takeWhile q).length < m) :
    q ((List.range m).takeWhile q).length = false := by
  have hlen : ((List.range m).takeWhile q).length < (List.range m).length := by
    rw [List.length_range]; exact h
  have := takeWhile_stop q 0 (List.range m) hlen
  rwa [List.getD_eq_getElem _ _ hlen, List.getElem_range] at this

/-- The free run never exceeds the scanned bound. -/
theorem freeRun_le (q : Nat → Bool) (m : Nat) :
    ((List.range m).takeWhile q).length ≤ m := by
  have h := takeWhile_length_le q (List.range m)
  rwa [List.length_range] at h

/-- `__getTilesToMerge` for direction east `(1, 0)`: the granted count
is the spec-side free-strip run, and the returned cells are exactly
the rectangle of the granted strips beyond the tile's east edge. -/
theorem getTilesToMerge_east (s : LayoutState) (fr fc n rs cs : Int) (g : Nat)
    (hrs : rs = (s.tiles (s.tile_map fr.toNat fc.toNat)).row_span)
    (hcs : cs = (s.tiles (s.tile_map fr.toNat fc.toNat)).column_span)
    (hg : g = specFreeRun s (specStrip 1 0 fr fc rs cs) (specClamp s 1 0 fr fc rs cs n).toNat) :
    (getTilesToMerge s 1 0 fr fc n).1 = (g : Int) ∧
    ∀ p : Int × Int, p ∈ (getTilesToMerge s 1 0 fr fc n).2 ↔
      fr ≤ p.1 ∧ p.1 < fr + rs ∧ fc + cs ≤ p.2 ∧ p.2 < fc + cs + (g : Int) := by
  have key : getTilesToMerge s 1 0 fr fc n =
      (let tn := min n (((s.column_number : Int) - fc -
          (s.tiles (s.tile_map fr.toNat fc.toNat)).column_span) * 1 +
          ((s.row_number : Int) - fr -
          (s.tiles (s.tile_map fr.toNat fc.toNat)).row_span) * 0)
       let strips := (List.range (tn * 1).toNat).map fun (column : Nat) =>
         (List.range (s.tiles (s.tile_map fr.toNat fc.toNat)).row_span.toNat).map
           fun (row : Nat) =>
             (fr + (row : Int),
              fc + (((s.tiles (s.tile_map fr.toNat fc.toNat)).column_span + (column : Int)) * 1 +
                (-(column : Int) - 1) * 0))
       let free := strips.takeWhile (stripFree s)
       ((free.length : Int) * 1, free.flatten)) := rfl
  rw [key]
  simp only [mul_one, mul_zero, add_zero, sub_zero]
  rw [← hrs, ← hcs]
  have hm : specClamp s 1 0 fr fc rs cs n = min n ((s.column_number : Int) - fc - cs) := rfl
  have hss : specStrip 1 0 fr fc rs cs = fun (i : Nat) =>
      (List.range rs.toNat).map fun (row : Nat) => (fr + (row : Int), fc + cs + (i : Int)) := rfl
  rw [hm, hss, specFreeRun] at hg
  have hstrips :
      ((List.range (min n ((s.column_number : Int) - fc - cs)).toNat).map fun (column : Nat) =>
        (List.range rs.toNat).map fun (row : Nat) =>
          (fr + (row : Int), fc + (cs + (column : Int)))) =
      (List.range (min n ((s.column_number : Int) - fc - cs)).toNat).map fun (column : Nat) =>
        (List.range rs.toNat).map fun (row : Nat) =>
          (fr + (row : Int), fc + cs + (column : Int)) := by
    apply List.map_congr_left
    intro a _
    apply List.map_congr_left
    intro b _
    rw [Prod.mk.injEq]
    exact ⟨rfl, by ring⟩
  rw [hstrips, List.takeWhile_map]
  have hcomp : (stripFree s ∘ fun (i : Nat) =>
      (List.range rs.toNat).map fun (row : Nat) => (fr + (row : Int), fc + cs + (i : Int))) =
      fun (i : Nat) => stripFree s
        ((List.range rs.toNat).map fun (row : Nat) => (fr + (row : Int), fc + cs + (i : Int))) :=
    rfl
  rw [hcomp]
  rw [range_takeWhile, ← hg]
  constructor
  · simp
  · intro p
    simp only [List.mem_flatten, List.mem_map, List.mem_range]
    constructor
    · rintro ⟨l, ⟨i, hi, rfl⟩, hp⟩
      simp only [List.mem_map, List.mem_range] at hp
      obtain ⟨row, hrow, rfl⟩ := hp
      refine ⟨by omega, by omega, by omega, by omega⟩
    · rintro ⟨h1, h2, h3, h4⟩
      refine ⟨_, ⟨(p.2 - fc - cs).toNat, by omega, rfl⟩, ?_⟩
      simp only [List.mem_map, List.mem_range]
      refine ⟨(p.1 - fr).toNat, by omega, ?_⟩
      rw [Prod.ext_iff]
      constructor
      · show fr + ((p.1 - fr).toNat : Int) = p.1
        omega
      · show fc + cs + ((p.2 - fc - cs).toNat : Int) = p.2
        omega

/-- `__getTilesToMerge` for direction west `(-1, 0)`: grant is minus
the free-strip run; the cells are the granted strips beyond the west
edge. -/
theorem getTilesToMerge_west (s : LayoutState) (fr fc n rs cs : Int) (g : Nat)
    (hrs : rs = (s.tiles (s.tile_map fr.toNat fc.toNat)).row_span)
    (hcs : cs = (s.tiles (s.tile_map fr.toNat fc.toNat)).column_span)
    (hg : g = specFreeRun s (specStrip (-1) 0 fr fc rs cs)
      (specClamp s (-1) 0 fr fc rs cs n).toNat) :
    (getTilesToMerge s (-1) 0 fr fc n).1 = -(g : Int) ∧
    ∀ p : Int × Int, p ∈ (getTilesToMerge s (-1) 0 fr fc n).2 ↔
      fr ≤ p.1 ∧ p.1 < fr + rs ∧ fc - (g : Int) ≤ p.2 ∧ p.2 < fc := by
  have key : getTilesToMerge s (-1) 0 fr fc n =
      (let tn := max n (-fc * 1 - fr * 0)
       let strips := (List.range (tn * -1).toNat).map fun (column : Nat) =>
         (List.range (s.tiles (s.tile_map fr.toNat fc.toNat)).row_span.toNat).map
           fun (row : Nat) =>
             (fr + (row : Int),
              fc + (((s.tiles (s.tile_map fr.toNat fc.toNat)).column_span + (column : Int)) * 0 +
                (-(column : Int) - 1) * 1))
       let free := strips.takeWhile (stripFree s)
       ((free.length : Int) * -1, free.flatten)) := rfl
  rw [key]
  simp only [mul_one, mul_zero, zero_add, sub_zero]
  rw [← hrs]
  have harg : max n (-fc) * -1 = min (-n) fc := by omega
  rw [harg]
  have hm : specClamp s (-1) 0 fr fc rs cs n = min (-n) fc := rfl
  have hss : specStrip (-1) 0 fr fc rs cs = fun (i : Nat) =>
      (List.range rs.toNat).map fun (row : Nat) => (fr + (row : Int), fc - 1 - (i : Int)) := rfl
  rw [hm, hss, specFreeRun] at hg
  have hstrips :
      ((List.range (min (-n) fc).toNat).map fun (column : Nat) =>
        (List.range rs.toNat).map fun (row : Nat) =>
          (fr + (row : Int), fc + (-(column : Int) - 1))) =
      (List.range (min (-n) fc).toNat).map fun (column : Nat) =>
        (List.range rs.toNat).map fun (row : Nat) =>
          (fr + (row : Int), fc - 1 - (column : Int)) := by
    apply List.map_congr_left
    intro a _
    apply List.map_congr_left
    intro b _
    rw [Prod.mk.injEq]
    exact ⟨rfl, by ring⟩
  rw [hstrips, List.takeWhile_map]
  have hcomp : (stripFree s ∘ fun (i : Nat) =>
      (List.range rs.toNat).map fun (row : Nat) => (fr + (row : Int), fc - 1 - (i : Int))) =
      fun (i : Nat) => stripFree s
        ((List.range rs.toNat).map fun (row : Nat) => (fr + (row : Int), fc - 1 - (i : Int))) :=
    rfl
  rw [hcomp]
  rw [range_takeWhile, ← hg]
  constructor
  · simp
  · intro p
    simp only [List.mem_flatten, List.mem_map, List.mem_range]
    constructor
    · rintro ⟨l, ⟨i, hi, rfl⟩, hp⟩
      simp only [List.mem_map, List.mem_range] at hp
      obtain ⟨row, hrow, rfl⟩ := hp
      refine ⟨by omega, by omega, by omega, by omega⟩
    · rintro ⟨h1, h2, h3, h4⟩
      refine ⟨_, ⟨(fc - 1 - p.2).toNat, by omega, rfl⟩, ?_⟩
      simp only [List.mem_map, List.mem_range]
      refine ⟨(p.1 - fr).toNat, by omega, ?_⟩
      rw [Prod.ext_iff]
      constructor
      · show fr + ((p.1 - fr).toNat : Int) = p.1
        omega
      · show fc - 1 - ((fc - 1 - p.2).toNat : Int) = p.2
        omega

/-- `__getTilesToMerge` for direction north `(0, -1)`: grant is minus
the free-strip run; the cells are the granted strips beyond the north
edge. -/
theorem getTilesToMerge_north (s : LayoutState) (fr fc n rs cs : Int) (g : Nat)
    (hrs : rs = (s.tiles (s.tile_map fr.toNat fc.toNat)).row_span)
    (hcs : cs = (s.tiles (s.tile_map fr.toNat fc.toNat)).column_span)
    (hg : g = specFreeRun s (specStrip 0 (-1) fr fc rs cs)
      (specClamp s 0 (-1) fr fc rs cs n).toNat) :
    (getTilesToMerge s 0 (-1) fr fc n).1 = -(g : Int) ∧
    ∀ p : Int × Int, p ∈ (getTilesToMerge s 0 (-1) fr fc n).2 ↔
      fr - (g : Int) ≤ p.1 ∧ p.1 < fr ∧ fc ≤ p.2 ∧ p.2 < fc + cs := by
  have key : getTilesToMerge s 0 (-1) fr fc n =
      (let tn := max n (-fc * 0 - fr * 1)
       let strips := (List.range (tn * -1).toNat).map fun (row : Nat) =>
         (List.range (s.tiles (s.tile_map fr.toNat fc.toNat)).column_span.toNat).map
           fun (column : Nat) =>
             (fr + (((s.tiles (s.tile_map fr.toNat fc.toNat)).row_span + (row : Int)) * 0 +
                (-(row : Int) - 1) * 1),
              fc + (column : Int))
       let free := strips.takeWhile (stripFree s)
       ((free.length : Int) * -1, free.flatten)) := rfl
  rw [key]
  simp only [mul_one, mul_zero, zero_add, zero_sub]
  rw [← hcs]
  have harg : max n (-fr) * -1 = min (-n) fr := by omega
  rw [harg]
  have hm : specClamp s 0 (-1) fr fc rs cs n = min (-n) fr := rfl
  have hss : specStrip 0 (-1) fr fc rs cs = fun (i : Nat) =>
      (List.range cs.toNat).map fun (column : Nat) => (fr - 1 - (i : Int), fc + (column : Int)) :=
    rfl
  rw [hm, hss, specFreeRun] at hg
  have hstrips :
      ((List.range (min (-n) fr).toNat).map fun (row : Nat) =>
        (List.range cs.toNat).map fun (column : Nat) =>
          (fr + (-(row : Int) - 1), fc + (column : Int))) =
      (List.range (min (-n) fr).toNat).map fun (row : Nat) =>
        (List.range cs.toNat).map fun (column : Nat) =>
          (fr - 1 - (row : Int), fc + (column : Int)) := by
    apply List.map_congr_left
    intro a _
    apply List.map_congr_left
    intro b _
    rw [Prod.mk.injEq]
    exact ⟨by ring, rfl⟩
  rw [hstrips, List.takeWhile_map]
  have hcomp : (stripFree s ∘ fun (i : Nat) =>
      (List.range cs.toNat).map fun (column : Nat) => (fr - 1 - (i : Int), fc + (column : Int))) =
      fun (i : Nat) => stripFree s
        ((List.range cs.toNat).map fun (column : Nat) =>
          (fr - 1 - (i : Int), fc + (column : Int))) :=
    rfl
  rw [hcomp]
  rw [range_takeWhile, ← hg]
  constructor
  · simp
  · intro p
    simp only [List.mem_flatten, List.mem_map, List.mem_range]
    constructor
    · rintro ⟨l, ⟨i, hi, rfl⟩, hp⟩
      simp only [List.mem_map, List.mem_range] at hp
      obtain ⟨column, hcol, rfl⟩ := hp
      refine ⟨by omega, by omega, by omega, by omega⟩
    · rintro ⟨h1, h2, h3, h4⟩
      refine ⟨_, ⟨(fr - 1 - p.1).toNat, by omega, rfl⟩, ?_⟩
      simp only [List.mem_map, List.mem_range]
      refine ⟨(p.2 - fc).toNat, by omega, ?_⟩
      rw [Prod.ext_iff]
      constructor
      · show fr - 1 - ((fr - 1 - p.1).toNat : Int) = p.1
        omega
      · show fc + ((p.2 - fc).toNat : Int) = p.2
        omega

/-- `__getTilesToMerge` for direction south `(0, 1)`: grant is the
free-strip run; the cells are the granted strips beyond the south
edge. -/
theorem getTilesToMerge_south (s : LayoutState) (fr fc n rs cs : Int) (g : Nat)
    (hrs : rs = (s.tiles (s.tile_map fr.toNat fc.toNat)).row_span)
    (hcs : cs = (s.tiles (s.tile_map fr.toNat fc.toNat)).column_span)
    (hg : g = specFreeRun s (specStrip 0 1 fr fc rs cs)
      (specClamp s 0 1 fr fc rs cs n).toNat) :
    (getTilesToMerge s 0 1 fr fc n).1 = (g : Int) ∧
    ∀ p : Int × Int, p ∈ (getTilesToMerge s 0 1 fr fc n).2 ↔
      fr + rs ≤ p.1 ∧ p.1 < fr + rs + (g : Int) ∧ fc ≤ p.2 ∧ p.2 < fc + cs := by
  have key : getTilesToMerge s 0 1 fr fc n =
      (let tn := min n (((s.column_number : Int) - fc -
          (s.tiles (s.tile_map fr.toNat fc.toNat)).column_span) * 0 +
          ((s.row_number : Int) - fr -
          (s.tiles (s.tile_map fr.toNat fc.toNat)).row_span) * 1)
       let strips := (List.range (tn * 1).toNat).map fun (row : Nat) =>
         (List.range (s.tiles (s.tile_map fr.toNat fc.toNat)).column_span.toNat).map
           fun (column : Nat) =>
             (fr + (((s.tiles (s.tile_map fr.toNat fc.toNat)).row_span + (row : Int)) * 1 +
                (-(row : Int) - 1) * 0),
              fc + (column : Int))
       let free := strips.takeWhile (stripFree s)
       ((free.length : Int) * 1, free.flatten)) := rfl
  rw [key]
  simp only [mul_one, mul_zero, add_zero, zero_add]
  rw [← hrs, ← hcs]
  have hm : specClamp s 0 1 fr fc rs cs n = min n ((s.row_number : Int) - fr - rs) := rfl
  have hss : specStrip 0 1 fr fc rs cs = fun (i : Nat) =>
      (List.range cs.toNat).map fun (column : Nat) => (fr + rs + (i : Int), fc + (column : Int)) :=
    rfl
  rw [hm, hss, specFreeRun] at hg
  have hstrips :
      ((List.range (min n ((s.row_number : Int) - fr - rs)).toNat).map fun (row : Nat) =>
        (List.range cs.toNat).map fun (column : Nat) =>
          (fr + (rs + (row : Int)), fc + (column : Int))) =
      (List.range (min n ((s.row_number : Int) - fr - rs)).toNat).map fun (row : Nat) =>
        (List.range cs.toNat).map fun (column : Nat) =>
          (fr + rs + (row : Int), fc + (column : Int)) := by
    apply List.map_congr_left
    intro a _
    apply List.map_congr_left
    intro b _
    rw [Prod.mk.injEq]
    exact ⟨by ring, rfl⟩
  rw [hstrips, List.takeWhile_map]
  have hcomp : (stripFree s ∘ fun (i : Nat) =>
      (List.range cs.toNat).map fun (column : Nat) =>
        (fr + rs + (i : Int), fc + (column : Int))) =
      fun (i : Nat) => stripFree s
        ((List.range cs.toNat).map fun (column : Nat) =>
          (fr + rs + (i : Int), fc + (column : Int))) :=
    rfl
  rw [hcomp]
  rw [range_takeWhile, ← hg]
  constructor
  · simp
  · intro p
    simp only [List.mem_flatten, List.mem_map, List.mem_range]
    constructor
    · rintro ⟨l, ⟨i, hi, rfl⟩, hp⟩
      simp only [List.mem_map, List.mem_range] at hp
      obtain ⟨column, hcol, rfl⟩ := hp
      refine ⟨by omega, by omega, by omega, by omega⟩
    · rintro ⟨h1, h2, h3, h4⟩
      refine ⟨_, ⟨(p.1 - fr - rs).toNat, by omega, rfl⟩, ?_⟩
      simp only [List.mem_map, List.mem_range]
      refine ⟨(p.2 - fc).toNat, by omega, ?_⟩
      rw [Prod.ext_iff]
      constructor
      · show fr + rs + ((p.1 - fr - rs).toNat : Int) = p.1
        omega
      · show fc + ((p.2 - fc).toNat : Int) = p.2
        omega

/-- `__getTilesToSplit` for direction east `(1, 0)` on a shrink
request: the shed count is clamped so the remaining column span stays
at least 1, and the shed cells are the easternmost strips (the strips
adjacent to the east edge, the moving edge named by the direction). -/
theorem getTilesToSplit_east (s : LayoutState) (fr fc n rs cs k : Int)
    (hrs : rs = (s.tiles (s.tile_map fr.toNat fc.toNat)).row_span)
    (hcs : cs = (s.tiles (s.tile_map fr.toNat fc.toNat)).column_span)
    (hrs1 : 1 ≤ rs) (hcs1 : 1 ≤ cs) (hn : n ≤ 0) (hk : k = min (-n) (cs - 1)) :
    (getTilesToSplit s 1 0 fr fc n).1 = -k ∧
    ∀ p : Int × Int, p ∈ (getTilesToSplit s 1 0 fr fc n).2 ↔
      fr ≤ p.1 ∧ p.1 < fr + rs ∧ fc + cs - k ≤ p.2 ∧ p.2 < fc + cs := by
  have key : getTilesToSplit s 1 0 fr fc n =
      (let rsi := (s.tiles (s.tile_map fr.toNat fc.toNat)).row_span
       let csi := (s.tiles (s.tile_map fr.toNat fc.toNat)).column_span
       let tn := if -n * 1 < csi * 1 + rsi * 0 then n else (1 - csi) * 1 + (1 - rsi) * 0
       (tn, (List.range (-tn * 0 + rsi * 1).toNat).flatMap fun (row : Nat) =>
         (List.range (-tn * 1 + csi * 0).toNat).map fun (column : Nat) =>
           (fr + (row : Int) + (rsi - 2 * (row : Int) - 1) * 0,
            fc + (column : Int) + (csi - 2 * (column : Int) - 1) * 1))) := rfl
  rw [key]
  dsimp only
  rw [← hrs, ← hcs]
  have htn : (if -n * 1 < cs * 1 + rs * 0 then n else (1 - cs) * 1 + (1 - rs) * 0) = -k := by
    split_ifs with h
    · omega
    · omega
  rw [htn]
  refine ⟨rfl, ?_⟩
  simp only [mul_one, mul_zero, add_zero, zero_add, neg_neg, neg_zero, zero_mul]
  intro p
  simp only [List.mem_flatMap, List.mem_map, List.mem_range]
  constructor
  · rintro ⟨row, hrow, column, hcol, rfl⟩
    refine ⟨by omega, by omega, by omega, by omega⟩
  · rintro ⟨h1, h2, h3, h4⟩
    refine ⟨(p.1 - fr).toNat, by omega, (fc + cs - 1 - p.2).toNat, by omega, ?_⟩
    rw [Prod.ext_iff]
    constructor
    · show fr + ((p.1 - fr).toNat : Int) = p.1
      omega
    · show fc + ((fc + cs - 1 - p.2).toNat : Int) + (cs - 2 * ((fc + cs - 1 - p.2).toNat : Int) - 1) = p.2
      omega

/-- `__getTilesToSplit` for direction west `(-1, 0)` on a shrink
request: remaining column span stays at least 1; the shed cells are
the westernmost strips. -/
theorem getTilesToSplit_west (s : LayoutState) (fr fc n rs cs k : Int)
    (hrs : rs = (s.tiles (s.tile_map fr.toNat fc.toNat)).row_span)
    (hcs : cs = (s.tiles (s.tile_map fr.toNat fc.toNat)).column_span)
    (hrs1 : 1 ≤ rs) (hcs1 : 1 ≤ cs) (hn : 0 ≤ n) (hk : k = min n (cs - 1)) :
    (getTilesToSplit s (-1) 0 fr fc n).1 = k ∧
    ∀ p : Int × Int, p ∈ (getTilesToSplit s (-1) 0 fr fc n).2 ↔
      fr ≤ p.1 ∧ p.1 < fr + rs ∧ fc ≤ p.2 ∧ p.2 < fc + k := by
  have key : getTilesToSplit s (-1) 0 fr fc n =
      (let rsi := (s.tiles (s.tile_map fr.toNat fc.toNat)).row_span
       let csi := (s.tiles (s.tile_map fr.toNat fc.toNat)).column_span
       let tn := if -n * -1 < csi * 1 + rsi * 0 then n else (1 - csi) * -1 + (1 - rsi) * 0
       (tn, (List.range (-tn * 0 + rsi * 1).toNat).flatMap fun (row : Nat) =>
         (List.range (-tn * -1 + csi * 0).toNat).map fun (column : Nat) =>
           (fr + (row : Int) + (rsi - 2 * (row : Int) - 1) * 0,
            fc + (column : Int) + (csi - 2 * (column : Int) - 1) * 0))) := rfl
  rw [key]
  dsimp only
  rw [← hrs, ← hcs]
  have htn : (if -n * -1 < cs * 1 + rs * 0 then n else (1 - cs) * -1 + (1 - rs) * 0) = k := by
    split_ifs with h
    · omega
    · omega
  rw [htn]
  refine ⟨rfl, ?_⟩
  simp only [mul_one, mul_zero, add_zero, zero_add, neg_neg, neg_zero, zero_mul, mul_neg_one]
  intro p
  simp only [List.mem_flatMap, List.mem_map, List.mem_range]
  constructor
  · rintro ⟨row, hrow, column, hcol, rfl⟩
    refine ⟨by omega, by omega, by omega, by omega⟩
  · rintro ⟨h1, h2, h3, h4⟩
    refine ⟨(p.1 - fr).toNat, by omega, (p.2 - fc).toNat, by omega, ?_⟩
    rw [Prod.ext_iff]
    constructor
    · show fr + ((p.1 - fr).toNat : Int) = p.1
      omega
    · show fc + ((p.2 - fc).toNat : Int) = p.2
      omega

/-- `__getTilesToSplit` for direction north `(0, -1)` on a shrink
request: remaining row span stays at least 1; the shed cells are the
northernmost strips. -/
theorem getTilesToSplit_north (s : LayoutState) (fr fc n rs cs k : Int)
    (hrs : rs = (s.tiles (s.tile_map fr.toNat fc.toNat)).row_span)
    (hcs : cs = (s.tiles (s.tile_map fr.toNat fc.toNat)).column_span)
    (hrs1 : 1 ≤ rs) (hcs1 : 1 ≤ cs) (hn : 0 ≤ n) (hk : k = min n (rs - 1)) :
    (getTilesToSplit s 0 (-1) fr fc n).1 = k ∧
    ∀ p : Int × Int, p ∈ (getTilesToSplit s 0 (-1) fr fc n).2 ↔
      fr ≤ p.1 ∧ p.1 < fr + k ∧ fc ≤ p.2 ∧ p.2 < fc + cs := by
  have key : getTilesToSplit s 0 (-1) fr fc n =
      (let rsi := (s.tiles (s.tile_map fr.toNat fc.toNat)).row_span
       let csi := (s.tiles (s.tile_map fr.toNat fc.toNat)).column_span
       let tn := if -n * -1 < csi * 0 + rsi * 1 then n else (1 - csi) * 0 + (1 - rsi) * -1
       (tn, (List.range (-tn * -1 + rsi * 0).toNat).flatMap fun (row : Nat) =>
         (List.range (-tn * 0 + csi * 1).toNat).map fun (column : Nat) =>
           (fr + (row : Int) + (rsi - 2 * (row : Int) - 1) * 0,
            fc + (column : Int) + (csi - 2 * (column : Int) - 1) * 0))) := rfl
  rw [key]
  dsimp only
  rw [← hrs, ← hcs]
  have htn : (if -n * -1 < cs * 0 + rs * 1 then n else (1 - cs) * 0 + (1 - rs) * -1) = k := by
    split_ifs with h
    · omega
    · omega
  rw [htn]
  refine ⟨rfl, ?_⟩
  simp only [mul_one, mul_zero, add_zero, zero_add, neg_neg, neg_zero, zero_mul, mul_neg_one]
  intro p
  simp only [List.mem_flatMap, List.mem_map, List.mem_range]
  constructor
  · rintro ⟨row, hrow, column, hcol, rfl⟩
    refine ⟨by omega, by omega, by omega, by omega⟩
  · rintro ⟨h1, h2, h3, h4⟩
    refine ⟨(p.1 - fr).toNat, by omega, (p.2 - fc).toNat, by omega, ?_⟩
    rw [Prod.ext_iff]
    constructor
    · show fr + ((p.1 - fr).toNat : Int) = p.1
      omega
    · show fc + ((p.2 - fc).toNat : Int) = p.2
      omega

/-- `__getTilesToSplit` for direction south `(0, 1)` on a shrink
request: remaining row span stays at least 1; the shed cells are the
southernmost strips. -/
theorem getTilesToSplit_south (s : LayoutState) (fr fc n rs cs k : Int)
    (hrs : rs = (s.tiles (s.tile_map fr.toNat fc.toNat)).row_span)
    (hcs : cs = (s.tiles (s.tile_map fr.toNat fc.toNat)).column_span)
    (hrs1 : 1 ≤ rs) (hcs1 : 1 ≤ cs) (hn : n ≤ 0) (hk : k = min (-n) (rs - 1)) :
    (getTilesToSplit s 0 1 fr fc n).1 = -k ∧
    ∀ p : Int × Int, p ∈ (getTilesToSplit s 0 1 fr fc n).2 ↔
      fr + rs - k ≤ p.1 ∧ p.1 < fr + rs ∧ fc ≤ p.2 ∧ p.2 < fc + cs := by
  have key : getTilesToSplit s 0 1 fr fc n =
      (let rsi := (s.tiles (s.tile_map fr.toNat fc.toNat)).row_span
       let csi := (s.tiles (s.tile_map fr.toNat fc.toNat)).column_span
       let tn := if -n * 1 < csi * 0 + rsi * 1 then n else (1 - csi) * 0 + (1 - rsi) * 1
       (tn, (List.range (-tn * 1 + rsi * 0).toNat).flatMap fun (row : Nat) =>
         (List.range (-tn * 0 + csi * 1).toNat).map fun (column : Nat) =>
           (fr + (row : Int) + (rsi - 2 * (row : Int) - 1) * 1,
            fc + (column : Int) + (csi - 2 * (column : Int) - 1) * 0))) := rfl
  rw [key]
  dsimp only
  rw [← hrs, ← hcs]
  have htn : (if -n * 1 < cs * 0 + rs * 1 then n else (1 - cs) * 0 + (1 - rs) * 1) = -k := by
    split_ifs with h
    · omega
    · omega
  rw [htn]
  refine ⟨rfl, ?_⟩
  simp only [mul_one, mul_zero, add_zero, zero_add, neg_neg, neg_zero, zero_mul]
  intro p
  simp only [List.mem_flatMap, List.mem_map, List.mem_range]
  constructor
  · rintro ⟨row, hrow, column, hcol, rfl⟩
    refine ⟨by omega, by omega, by omega, by omega⟩
  · rintro ⟨h1, h2, h3, h4⟩
    refine ⟨(fr + rs - 1 - p.1).toNat, by omega, (p.2 - fc).toNat, by omega, ?_⟩
    rw [Prod.ext_iff]
    constructor
    · show fr + ((fr + rs - 1 - p.1).toNat : Int) + (rs - 2 * ((fr + rs - 1 - p.1).toNat : Int) - 1) = p.1
      omega
    · show fc + ((p.2 - fc).toNat : Int) = p.2
      omega

/-- The spec-side free run: bounded by the clamped request, every
strip inside it is fully free, and when it stops short of the clamp
the next strip contains a filled cell. -/
theorem specFreeRun_facts (s : LayoutState) (strip : Nat → List (Int × Int)) (bound : Nat) :
    specFreeRun s strip bound ≤ bound ∧
    (∀ i, i < specFreeRun s strip bound → stripFree s (strip i) = true) ∧
    (specFreeRun s strip bound < bound →
      stripFree s (strip (specFreeRun s strip bound)) = false) := by
  unfold specFreeRun
  exact ⟨freeRun_le _ _, fun i hi => freeRun_free _ _ i hi, fun h => freeRun_stop _ _ h⟩

/-- Claim C2: for every growth resize request of `n` units in one of
the four directions, the granted amount (the first component of
`__getTilesToMerge`, signed by the direction) equals the number of
consecutive fully free strips beyond the tile's far edge in the travel
direction, counted up to the request clamped at the grid boundary
(`specClamp`), stopping at the first strip containing a filled cell:
the run is at most the clamp, all strips inside it are free, and if
the run is shorter than the clamp the next strip is blocked — so when
only `k` of the requested strips are free exactly `k` are granted. -/
theorem c2_growth_grant (s : LayoutState) (dx dy fr fc n : Int)
    (hdir : (dx, dy) = ((1 : Int), (0 : Int)) ∨ (dx, dy) = (-1, 0) ∨
      (dx, dy) = (0, 1) ∨ (dx, dy) = (0, -1))
    (hgrow : 0 < n * (dx + dy)) :
    ∀ rs cs : Int, rs = (s.tiles (s.tile_map fr.toNat fc.toNat)).row_span →
      cs = (s.tiles (s.tile_map fr.toNat fc.toNat)).column_span →
    ∀ m : Int, m = specClamp s dx dy fr fc rs cs n →
    ∀ g : Nat, g = specFreeRun s (specStrip dx dy fr fc rs cs) m.toNat →
      (getTilesToMerge s dx dy fr fc n).1 = (g : Int) * (dx + dy) ∧
      g ≤ m.toNat ∧
      (∀ i : Nat, i < g → stripFree s (specStrip dx dy fr fc rs cs i) = true) ∧
      (g < m.toNat → stripFree s (specStrip dx dy fr fc rs cs g) = false) := by
  intro rs cs hrs hcs m hm g hg
  subst hm
  subst hg
  obtain ⟨hle, hfree, hstop⟩ := specFreeRun_facts s (specStrip dx dy fr fc rs cs)
    (specClamp s dx dy fr fc rs cs n).toNat
  rcases hdir with h | h | h | h <;>
    (rw [Prod.mk.injEq] at h; obtain ⟨h1, h2⟩ := h; subst h1; subst h2)
  · obtain ⟨hfst, _⟩ := getTilesToMerge_east s fr fc n rs cs _ hrs hcs rfl
    rw [hfst]
    exact ⟨by ring, hle, hfree, hstop⟩
  · obtain ⟨hfst, _⟩ := getTilesToMerge_west s fr fc n rs cs _ hrs hcs rfl
    rw [hfst]
    exact ⟨by ring, hle, hfree, hstop⟩
  · obtain ⟨hfst, _⟩ := getTilesToMerge_south s fr fc n rs cs _ hrs hcs rfl
    rw [hfst]
    exact ⟨by ring, hle, hfree, hstop⟩
  · obtain ⟨hfst, _⟩ := getTilesToMerge_north s fr fc n rs cs _ hrs hcs rfl
    rw [hfst]
    exact ⟨by ring, hle, hfree, hstop⟩

/-- Witness for C2: on a fresh 2×2 grid, growing the unit tile at
`(0, 0)` east by 5 is clamped to 1 strip and that strip is free, so
exactly 1 unit is granted. -/
theorem c2_growth_grant_witness :
    (getTilesToMerge (initState 2 2) 1 0 0 0 5).1 = ((1 : Nat) : Int) * (1 + 0) ∧
    (1 : Nat) ≤ (specClamp (initState 2 2) 1 0 0 0 1 1 5).toNat ∧
    (∀ i : Nat, i < 1 → stripFree (initState 2 2) (specStrip 1 0 0 0 1 1 i) = true) ∧
    ((1 : Nat) < (specClamp (initState 2 2) 1 0 0 0 1 1 5).toNat →
      stripFree (initState 2 2) (specStrip 1 0 0 0 1 1 ((1 : Nat))) = false) :=
  c2_growth_grant (initState 2 2) 1 0 0 0 5 (Or.inl rfl) (by decide)
    1 1 (by decide) (by decide) (specClamp (initState 2 2) 1 0 0 0 1 1 5) rfl 1 (by decide)

/-- `splitTiles` leaves the registry lists untouched. -/
theorem splitTiles_widget (s : LayoutState) (tid : Nat) (fr fc rs cs : Int)
    (cells : List (Int × Int)) :
    (splitTiles s tid fr fc rs cs cells).widget_w = s.widget_w ∧
    (splitTiles s tid fr fc rs cs cells).widget_t = s.widget_t := by
  obtain ⟨_, _, hw, ht, _⟩ := splitCells_misc cells s
  exact ⟨hw, ht⟩

/-- A shrink request through `resizeTile` either finds nothing to shed
(`tiles_to_merge` empty: the state is returned unchanged, no event) or
sheds the `__getTilesToSplit` cells through `__splitTiles` — the
latter only completes when the anchor tile is registered (otherwise
`list.index` raises). -/
theorem resizeTile_shrink_cases (s : LayoutState) (dx dy fr fc n : Int)
    (s' : LayoutState) (ev : Option ResizeEvent)
    (hinc : ¬ 0 < n * (dx + dy))
    (hx : resizeTile s dx dy fr fc n = some (s', ev)) :
    ((getTilesToSplit s dx dy fr fc n).2 = [] ∧ s' = s ∧ ev = none) ∨
    ((getTilesToSplit s dx dy fr fc n).2 ≠ [] ∧
      s.tile_map fr.toNat fc.toNat ∈ s.widget_t ∧
      s' = splitTiles s (s.tile_map fr.toNat fc.toNat)
        (fr + (getTilesToSplit s dx dy fr fc n).1 * bi (dy = -1))
        (fc + (getTilesToSplit s dx dy fr fc n).1 * bi (dx = -1))
        ((s.tiles (s.tile_map fr.toNat fc.toNat)).row_span +
          (getTilesToSplit s dx dy fr fc n).1 * dy)
        ((s.tiles (s.tile_map fr.toNat fc.toNat)).column_span +
          (getTilesToSplit s dx dy fr fc n).1 * dx)
        (getTilesToSplit s dx dy fr fc n).2) := by
  unfold resizeTile at hx
  simp only [] at hx
  rw [if_neg hinc] at hx
  rw [if_neg hinc] at hx
  by_cases hemp : (getTilesToSplit s dx dy fr fc n).2.isEmpty
  · rw [if_pos hemp] at hx
    rw [Option.some.injEq, Prod.mk.injEq] at hx
    exact Or.inl ⟨List.isEmpty_iff.mp hemp, hx.1.symm, hx.2.symm⟩
  · rw [if_neg hemp] at hx
    rw [(splitTiles_widget s (s.tile_map fr.toNat fc.toNat) _ _ _ _ _).2] at hx
    by_cases hmem : s.tile_map fr.toNat fc.toNat ∈ s.widget_t
    · rw [if_pos hmem] at hx
      rw [Option.some.injEq, Prod.mk.injEq] at hx
      refine Or.inr ⟨fun he => hemp (List.isEmpty_iff.mpr he), hmem, hx.1.symm⟩
    · rw [if_neg hmem] at hx
      simp at hx

/-- A shrink request that finds nothing to shed is a silent no-op. -/
theorem resizeTile_shrink_noop (s : LayoutState) (dx dy fr fc n : Int)
    (hinc : ¬ 0 < n * (dx + dy))
    (hcells : (getTilesToSplit s dx dy fr fc n).2 = []) :
    resizeTile s dx dy fr fc n = some (s, none) := by
  unfold resizeTile
  simp only []
  rw [if_neg hinc, hcells]
  rfl

/-- A growth request through `resizeTile` either absorbs nothing (the
state is returned unchanged, no event) or merges the
`__getTilesToMerge` cells into the anchor tile — the latter only
completes when the anchor tile is registered. -/
theorem resizeTile_grow_cases (s : LayoutState) (dx dy fr fc n : Int)
    (s' : LayoutState) (ev : Option ResizeEvent)
    (hinc : 0 < n * (dx + dy))
    (hx : resizeTile s dx dy fr fc n = some (s', ev)) :
    ((getTilesToMerge s dx dy fr fc n).2 = [] ∧ s' = s ∧ ev = none) ∨
    ((getTilesToMerge s dx dy fr fc n).2 ≠ [] ∧
      s.tile_map fr.toNat fc.toNat ∈ s.widget_t ∧
      s' = mergeTiles s (s.tile_map fr.toNat fc.toNat)
        (fr + (getTilesToMerge s dx dy fr fc n).1 * bi (dy = -1))
        (fc + (getTilesToMerge s dx dy fr fc n).1 * bi (dx = -1))
        ((s.tiles (s.tile_map fr.toNat fc.toNat)).row_span +
          (getTilesToMerge s dx dy fr fc n).1 * dy)
        ((s.tiles (s.tile_map fr.toNat fc.toNat)).column_span +
          (getTilesToMerge s dx dy fr fc n).1 * dx)
        (getTilesToMerge s dx dy fr fc n).2) := by
  unfold resizeTile at hx
  simp only [] at hx
  rw [if_pos hinc] at hx
  rw [if_pos hinc] at hx
  by_cases hemp : (getTilesToMerge s dx dy fr fc n).2.isEmpty
  · rw [if_pos hemp] at hx
    rw [Option.some.injEq, Prod.mk.injEq] at hx
    exact Or.inl ⟨List.isEmpty_iff.mp hemp, hx.1.symm, hx.2.symm⟩
  · rw [if_neg hemp] at hx
    have hwt : (mergeTiles s (s.tile_map fr.toNat fc.toNat)
        (fr + (getTilesToMerge s dx dy fr fc n).1 * bi (dy = -1))
        (fc + (getTilesToMerge s dx dy fr fc n).1 * bi (dx = -1))
        ((s.tiles (s.tile_map fr.toNat fc.toNat)).row_span +
          (getTilesToMerge s dx dy fr fc n).1 * dy)
        ((s.tiles (s.tile_map fr.toNat fc.toNat)).column_span +
          (getTilesToMerge s dx dy fr fc n).1 * dx)
        (getTilesToMerge s dx dy fr fc n).2).widget_t = s.widget_t := rfl
    rw [hwt] at hx
    by_cases hmem : s.tile_map fr.toNat fc.toNat ∈ s.widget_t
    · rw [if_pos hmem] at hx
      rw [Option.some.injEq, Prod.mk.injEq] at hx
      refine Or.inr ⟨fun he => hemp (List.isEmpty_iff.mpr he), hmem, hx.1.symm⟩
    · rw [if_neg hmem] at hx
      simp at hx

/-- Claim C6: for every shrink resize request the granted amount is
clamped so the tile's remaining span along the requested axis never
drops below 1, and a shrink request on a tile whose span along that
axis is already 1 grants nothing: `resizeTile` returns the state
unchanged and emits no resize event (a silent no-op, not an error). -/
theorem c6_shrink_clamped_at_one (s : LayoutState) (dx dy fr fc n : Int)
    (hinv : Inv s)
    (hdir : (dx, dy) = ((1 : Int), (0 : Int)) ∨ (dx, dy) = (-1, 0) ∨
      (dx, dy) = (0, 1) ∨ (dx, dy) = (0, -1))
    (hr0 : 0 ≤ fr) (hr1 : fr < (s.row_number : Int))
    (hc0 : 0 ≤ fc) (hc1 : fc < (s.column_number : Int))
    (hshrink : n * (dx + dy) ≤ 0) :
    (∀ s' ev, resizeTile s dx dy fr fc n = some (s', ev) →
      1 ≤ (s'.tiles (s.tile_map fr.toNat fc.toNat)).row_span ∧
      1 ≤ (s'.tiles (s.tile_map fr.toNat fc.toNat)).column_span) ∧
    (((dx ≠ 0 ∧ (s.tiles (s.tile_map fr.toNat fc.toNat)).column_span = 1) ∨
      (dy ≠ 0 ∧ (s.tiles (s.tile_map fr.toNat fc.toNat)).row_span = 1)) →
      resizeTile s dx dy fr fc n = some (s, none)) := by
  have hrN : fr.toNat < s.row_number := by omega
  have hcN : fc.toNat < s.column_number := by omega
  obtain ⟨hpart, _⟩ := hinv
  obtain ⟨hcov, _, _⟩ := hpart fr.toNat hrN fc.toNat hcN
  simp only [owner, Covers] at hcov
  have hrs1 : 1 ≤ (s.tiles (s.tile_map fr.toNat fc.toNat)).row_span := by omega
  have hcs1 : 1 ≤ (s.tiles (s.tile_map fr.toNat fc.toNat)).column_span := by omega
  have hinc : ¬ 0 < n * (dx + dy) := by omega
  constructor
  · intro s' ev hx
    rcases resizeTile_shrink_cases s dx dy fr fc n s' ev hinc hx with
      ⟨_, rfl, _⟩ | ⟨hne, hmem, rfl⟩
    · exact ⟨hrs1, hcs1⟩
    · simp only [splitTiles, if_true]
      rcases hdir with h | h | h | h <;>
        (rw [Prod.mk.injEq] at h; obtain ⟨h1, h2⟩ := h; subst h1; subst h2)
      · obtain ⟨hfst, _⟩ := getTilesToSplit_east s fr fc n _ _
          (min (-n) ((s.tiles (s.tile_map fr.toNat fc.toNat)).column_span - 1))
          rfl rfl hrs1 hcs1 (by omega) rfl
        rw [hfst]
        constructor
        · show (1 : Int) ≤ _ + _ * (0 : Int)
          omega
        · show (1 : Int) ≤ _ + _ * (1 : Int)
          omega
      · obtain ⟨hfst, _⟩ := getTilesToSplit_west s fr fc n _ _
          (min n ((s.tiles (s.tile_map fr.toNat fc.toNat)).column_span - 1))
          rfl rfl hrs1 hcs1 (by omega) rfl
        rw [hfst]
        constructor
        · show (1 : Int) ≤ _ + _ * (0 : Int)
          omega
        · show (1 : Int) ≤ _ + _ * (-1 : Int)
          omega
      · obtain ⟨hfst, _⟩ := getTilesToSplit_south s fr fc n _ _
          (min (-n) ((s.tiles (s.tile_map fr.toNat fc.toNat)).row_span - 1))
          rfl rfl hrs1 hcs1 (by omega) rfl
        rw [hfst]
        constructor
        · show (1 : Int) ≤ _ + _ * (1 : Int)
          omega
        · show (1 : Int) ≤ _ + _ * (0 : Int)
          omega
      · obtain ⟨hfst, _⟩ := getTilesToSplit_north s fr fc n _ _
          (min n ((s.tiles (s.tile_map fr.toNat fc.toNat)).row_span - 1))
          rfl rfl hrs1 hcs1 (by omega) rfl
        rw [hfst]
        constructor
        · show (1 : Int) ≤ _ + _ * (-1 : Int)
          omega
        · show (1 : Int) ≤ _ + _ * (0 : Int)
          omega
  · intro hone
    apply resizeTile_shrink_noop s dx dy fr fc n hinc
    rw [List.eq_nil_iff_forall_not_mem]
    intro p hp
    rcases hdir with h | h | h | h <;>
      (rw [Prod.mk.injEq] at h; obtain ⟨h1, h2⟩ := h; subst h1; subst h2)
    · rcases hone with ⟨_, hax⟩ | ⟨hdy, _⟩
      · obtain ⟨_, hmem⟩ := getTilesToSplit_east s fr fc n _ _
          (min (-n) ((s.tiles (s.tile_map fr.toNat fc.toNat)).column_span - 1))
          rfl rfl hrs1 hcs1 (by omega) rfl
        have hb := (hmem p).mp hp
        omega
      · exact hdy rfl
    · rcases hone with ⟨_, hax⟩ | ⟨hdy, _⟩
      · obtain ⟨_, hmem⟩ := getTilesToSplit_west s fr fc n _ _
          (min n ((s.tiles (s.tile_map fr.toNat fc.toNat)).column_span - 1))
          rfl rfl hrs1 hcs1 (by omega) rfl
        have hb := (hmem p).mp hp
        omega
      · exact hdy rfl
    · rcases hone with ⟨hdx, _⟩ | ⟨_, hax⟩
      · exact hdx rfl
      · obtain ⟨_, hmem⟩ := getTilesToSplit_south s fr fc n _ _
          (min (-n) ((s.tiles (s.tile_map fr.toNat fc.toNat)).row_span - 1))
          rfl rfl hrs1 hcs1 (by omega) rfl
        have hb := (hmem p).mp hp
        omega
    · rcases hone with ⟨hdx, _⟩ | ⟨_, hax⟩
      · exact hdx rfl
      · obtain ⟨_, hmem⟩ := getTilesToSplit_north s fr fc n _ _
          (min n ((s.tiles (s.tile_map fr.toNat fc.toNat)).row_span - 1))
          rfl rfl hrs1 hcs1 (by omega) rfl
        have hb := (hmem p).mp hp
        omega

/-- Witness for C6: on a fresh 2×2 grid (all spans are already 1),
shrinking the tile at `(0, 0)` eastward by one unit is a silent no-op
and leaves both spans at 1. -/
theorem c6_shrink_clamped_at_one_witness :
    (∀ s' ev, resizeTile (initState 2 2) 1 0 0 0 (-1) = some (s', ev) →
      1 ≤ (s'.tiles ((initState 2 2).tile_map (Int.toNat 0) (Int.toNat 0))).row_span ∧
      1 ≤ (s'.tiles ((initState 2 2).tile_map (Int.toNat 0) (Int.toNat 0))).column_span) ∧
    ((((1 : Int) ≠ 0 ∧
        ((initState 2 2).tiles ((initState 2 2).tile_map (Int.toNat 0) (Int.toNat 0))).column_span = 1) ∨
      ((0 : Int) ≠ 0 ∧
        ((initState 2 2).tiles ((initState 2 2).tile_map (Int.toNat 0) (Int.toNat 0))).row_span = 1)) →
      resizeTile (initState 2 2) 1 0 0 0 (-1) = some (initState 2 2, none)) :=
  c6_shrink_clamped_at_one (initState 2 2) 1 0 0 0 (-1) (by decide) (Or.inl rfl)
    (by decide) (by decide) (by decide) (by decide) (by decide)

/-- Counterexample to C8 as stated: on a fresh 2×2 grid the tile at
`(0, 0)` is unfilled; growing it east by one unit finds a free strip,
mutates the grid, and then fails (`ValueError`) looking the tile up in
`widget_tile_couple` — the call does not complete without error. -/
theorem c8_counterexample : resizeTile (initState 2 2) 1 0 0 0 1 = none := rfl

/-- Amended C8: a resize request addressed to an unfilled tile is
accepted by the resolver (fill status is never checked on the resize
path), but it completes without error only when the grantable amount
is zero, in which case it is a silent no-op returning the state
unchanged and emitting nothing; with a nonzero grant the registry
lookup of the bound item fails, so the request never completes with an
observable effect. -/
theorem c8_amended_unfilled_resize_noop_or_error (s : LayoutState)
    (dx dy fr fc n : Int)
    (hreg : ∀ i ∈ s.widget_t, (s.tiles i).filled = true)
    (hunf : (s.tiles (s.tile_map fr.toNat fc.toNat)).filled = false) :
    ∀ x, resizeTile s dx dy fr fc n = some x → x = (s, none) := by
  intro x hx
  obtain ⟨s', ev⟩ := x
  by_cases hinc : 0 < n * (dx + dy)
  · rcases resizeTile_grow_cases s dx dy fr fc n s' ev hinc hx with
      ⟨_, rfl, rfl⟩ | ⟨_, hmem, _⟩
    · rfl
    · have h := hreg _ hmem
      rw [hunf] at h
      exact absurd h (by decide)
  · rcases resizeTile_shrink_cases s dx dy fr fc n s' ev hinc hx with
      ⟨_, rfl, rfl⟩ | ⟨_, hmem, _⟩
    · rfl
    · have h := hreg _ hmem
      rw [hunf] at h
      exact absurd h (by decide)

/-- Witness for the amended C8: on a fresh 2×2 grid (empty registry,
unfilled anchor) any completed eastward resize of the tile at `(0, 0)`
is the unchanged state with no event. -/
theorem c8_amended_unfilled_resize_noop_or_error_witness :
    (∀ i ∈ (initState 2 2).widget_t, ((initState 2 2).tiles i).filled = true) ∧
    ((initState 2 2).tiles
      ((initState 2 2).tile_map (Int.toNat 0) (Int.toNat 0))).filled = false ∧
    ∀ x, resizeTile (initState 2 2) 1 0 0 0 2 = some x → x = (initState 2 2, none) :=
  ⟨by decide, by decide,
    c8_amended_unfilled_resize_noop_or_error (initState 2 2) 1 0 0 0 2
      (by decide) (by decide)⟩

/-- Counterexample to C9 as stated: in `shrinkDemo` the tile anchored
at `(0, 0)` spans rows 0–1; shrinking with direction north by one unit
sheds the northernmost cell `(0, 0)` — not the southernmost cell
`(1, 0)` that the claim ("sheds the tile's southern-most strips
first") predicts. -/
theorem c9_counterexample :
    ((0 : Int), (0 : Int)) ∈ (getTilesToSplit shrinkDemo 0 (-1) 0 0 1).2 ∧
    ((1 : Int), (0 : Int)) ∉ (getTilesToSplit shrinkDemo 0 (-1) 0 0 1).2 := by
  decide

/-- Amended C9: for every shrink resize request the cells shed are the
strips adjacent to the direction's own (moving) edge — shrinking with
direction north sheds the tile's northern-most strips first — while
the far edge on the side opposite the direction stays fixed under the
origin/span update that `resizeTile` applies; symmetrically for the
other three directions. -/
theorem c9_amended_shrink_sheds_near_strips (s : LayoutState) (dx dy fr fc n rs cs : Int)
    (hrs : rs = (s.tiles (s.tile_map fr.toNat fc.toNat)).row_span)
    (hcs : cs = (s.tiles (s.tile_map fr.toNat fc.toNat)).column_span)
    (hrs1 : 1 ≤ rs) (hcs1 : 1 ≤ cs)
    (hshrink : n * (dx + dy) ≤ 0) :
    ((dx, dy) = ((1 : Int), (0 : Int)) → ∀ k, k = min (-n) (cs - 1) →
      (getTilesToSplit s dx dy fr fc n).1 = -k ∧
      ∀ p : Int × Int, p ∈ (getTilesToSplit s dx dy fr fc n).2 ↔
        fr ≤ p.1 ∧ p.1 < fr + rs ∧ fc + cs - k ≤ p.2 ∧ p.2 < fc + cs) ∧
    ((dx, dy) = (-1, 0) → ∀ k, k = min n (cs - 1) →
      (getTilesToSplit s dx dy fr fc n).1 = k ∧
      ∀ p : Int × Int, p ∈ (getTilesToSplit s dx dy fr fc n).2 ↔
        fr ≤ p.1 ∧ p.1 < fr + rs ∧ fc ≤ p.2 ∧ p.2 < fc + k) ∧
    ((dx, dy) = (0, 1) → ∀ k, k = min (-n) (rs - 1) →
      (getTilesToSplit s dx dy fr fc n).1 = -k ∧
      ∀ p : Int × Int, p ∈ (getTilesToSplit s dx dy fr fc n).2 ↔
        fr + rs - k ≤ p.1 ∧ p.1 < fr + rs ∧ fc ≤ p.2 ∧ p.2 < fc + cs) ∧
    ((dx, dy) = (0, -1) → ∀ k, k = min n (rs - 1) →
      (getTilesToSplit s dx dy fr fc n).1 = k ∧
      ∀ p : Int × Int, p ∈ (getTilesToSplit s dx dy fr fc n).2 ↔
        fr ≤ p.1 ∧ p.1 < fr + k ∧ fc ≤ p.2 ∧ p.2 < fc + cs) ∧
    (∀ tn, tn = (getTilesToSplit s dx dy fr fc n).1 →
      (dx = 1 → fc + tn * bi (dx = -1) = fc) ∧
      (dx = -1 → (fc + tn * bi (dx = -1)) + (cs + tn * dx) = fc + cs) ∧
      (dy = 1 → fr + tn * bi (dy = -1) = fr) ∧
      (dy = -1 → (fr + tn * bi (dy = -1)) + (rs + tn * dy) = fr + rs)) := by
  refine ⟨?_, ?_, ?_, ?_, ?_⟩
  · intro h k hk
    rw [Prod.mk.injEq] at h
    obtain ⟨h1, h2⟩ := h
    subst h1
    subst h2
    exact getTilesToSplit_east s fr fc n rs cs k hrs hcs hrs1 hcs1 (by omega) hk
  · intro h k hk
    rw [Prod.mk.injEq] at h
    obtain ⟨h1, h2⟩ := h
    subst h1
    subst h2
    exact getTilesToSplit_west s fr fc n rs cs k hrs hcs hrs1 hcs1 (by omega) hk
  · intro h k hk
    rw [Prod.mk.injEq] at h
    obtain ⟨h1, h2⟩ := h
    subst h1
    subst h2
    exact getTilesToSplit_south s fr fc n rs cs k hrs hcs hrs1 hcs1 (by omega) hk
  · intro h k hk
    rw [Prod.mk.injEq] at h
    obtain ⟨h1, h2⟩ := h
    subst h1
    subst h2
    exact getTilesToSplit_north s fr fc n rs cs k hrs hcs hrs1 hcs1 (by omega) hk
  · intro tn htn
    refine ⟨?_, ?_, ?_, ?_⟩
    · intro hdx
      subst hdx
      show fc + tn * (0 : Int) = fc
      ring
    · intro hdx
      subst hdx
      show (fc + tn * (1 : Int)) + (cs + tn * (-1 : Int)) = fc + cs
      ring
    · intro hdy
      subst hdy
      show fr + tn * (0 : Int) = fr
      ring
    · intro hdy
      subst hdy
      show (fr + tn * (1 : Int)) + (rs + tn * (-1 : Int)) = fr + rs
      ring

/-- Witness for the amended C9: in `shrinkDemo` (2×1 tile at `(0, 0)`)
the north-direction block applies concretely: shrinking north by one
grants 1 and sheds exactly the northern cell row. -/
theorem c9_amended_shrink_sheds_near_strips_witness :
    (getTilesToSplit shrinkDemo 0 (-1) 0 0 1).1 = 1 ∧
    ∀ p : Int × Int, p ∈ (getTilesToSplit shrinkDemo 0 (-1) 0 0 1).2 ↔
      0 ≤ p.1 ∧ p.1 < 0 + 1 ∧ 0 ≤ p.2 ∧ p.2 < 0 + 1 := by
  have h := (c9_amended_shrink_sheds_near_strips shrinkDemo 0 (-1) 0 0 1 2 1
    (by decide) (by decide) (by decide) (by decide) (by decide)).2.2.2.1 rfl 1 (by decide)
  exact h

theorem eraseIdx_append_length {α : Type} (l : List α) (a : α) :
    (l ++ [a]).eraseIdx l.length = l := by
  induction l with
  | nil => rfl
  | cons x xs ih =>
    show x :: (xs ++ [a]).eraseIdx xs.length = x :: xs
    rw [ih]

theorem getD_append_length {α : Type} (l : List α) (a d : α) :
    (l ++ [a]).getD l.length d = a := by
  induction l with
  | nil => rfl
  | cons x xs ih =>
    show (xs ++ [a]).getD xs.length d = a
    exact ih

/-- When neither span exceeds 1 the rectangle has at most one cell,
so `tiles_to_merge[1:]` is empty. -/
theorem rectCells_drop_one_nil {fr fc rs cs : Int} (h : ¬(1 < rs ∨ 1 < cs)) :
    (rectCells fr fc rs cs).drop 1 = [] := by
  apply List.drop_eq_nil_of_le
  push_neg at h
  obtain ⟨h1, h2⟩ := h
  unfold rectCells
  rcases Nat.lt_or_ge rs.toNat 1 with hr | hr
  · have h0 : rs.toNat = 0 := by omega
    rw [h0]
    simp
  · have h0 : rs.toNat = 1 := by omega
    rw [h0]
    have hc : cs.toNat ≤ 1 := by omega
    show ((List.range 1).flatMap _).length ≤ 1
    rw [show List.range 1 = [0] from rfl]
    simp only [List.flatMap_cons, List.flatMap_nil, List.append_nil, List.length_map,
      List.length_range]
    exact hc

/-- Structure of a successful `addWidget`: the asserts passed, the
registry gained the widget/anchor pair, the anchor tile was resized
(when the span exceeds one cell) and marked filled, and the cell map
was repointed on the merged cells only. -/
theorem addWidget_ok_spec (s : LayoutState) (w : Nat) (fr fc rs cs : Int) (s' : LayoutState)
    (hok : addWidget s w fr fc rs cs = .ok s') :
    w ∉ s.widget_w ∧ isAreaEmpty s fr fc rs cs = true ∧
    s'.row_number = s.row_number ∧ s'.column_number = s.column_number ∧
    s'.next_id = s.next_id ∧
    s'.widget_w = s.widget_w ++ [w] ∧
    s'.widget_t = s.widget_t ++ [s.tile_map fr.toNat fc.toNat] ∧
    (∀ i, i ≠ s.tile_map fr.toNat fc.toNat → s'.tiles i = s.tiles i) ∧
    ((1 < rs ∨ 1 < cs) →
      s'.tiles (s.tile_map fr.toNat fc.toNat) = ⟨fr, fc, rs, cs, true⟩) ∧
    (¬(1 < rs ∨ 1 < cs) →
      s'.tiles (s.tile_map fr.toNat fc.toNat) =
        { s.tiles (s.tile_map fr.toNat fc.toNat) with filled := true }) ∧
    (∀ r c : Nat,
      (((r : Int), (c : Int)) ∈ (rectCells fr fc rs cs).drop 1 →
        s'.tile_map r c = s.tile_map fr.toNat fc.toNat) ∧
      (((r : Int), (c : Int)) ∉ (rectCells fr fc rs cs).drop 1 →
        s'.tile_map r c = s.tile_map r c)) := by
  unfold addWidget at hok
  by_cases hw : w ∈ s.widget_w
  · simp [hw] at hok
  by_cases hempty : isAreaEmpty s fr fc rs cs = true
  · rw [if_neg hw, hempty] at hok
    simp only [Bool.not_true, Bool.false_eq_true, if_false] at hok
    rw [Except.ok.injEq] at hok
    subst hok
    refine ⟨hw, hempty, ?_⟩
    by_cases hspan : 1 < rs ∨ 1 < cs
    · rw [if_pos hspan]
      refine ⟨by simp [mergeTiles], by simp [mergeTiles], by simp [mergeTiles],
        by simp [mergeTiles], by simp [mergeTiles], ?_, ?_, ?_, ?_⟩
      · intro i hi
        simp [mergeTiles, hi]
      · intro _
        simp [mergeTiles]
      · intro h
        exact absurd hspan h
      · intro r c
        constructor
        · intro hmem
          show (if _ then _ else _) = _
          rw [if_pos hmem]
        · intro hmem
          show (if _ then _ else _) = _
          rw [if_neg hmem]
    · rw [if_neg hspan]
      refine ⟨rfl, rfl, rfl, rfl, rfl, ?_, ?_, ?_, ?_⟩
      · intro i hi
        simp [hi]
      · intro h
        exact absurd h hspan
      · intro _
        simp
      · intro r c
        refine ⟨?_, fun _ => rfl⟩
        intro hmem
        rw [rectCells_drop_one_nil hspan] at hmem
        exact absurd hmem (List.not_mem_nil _)
  · rw [if_neg hw] at hok
    rw [Bool.not_eq_true] at hempty
    rw [hempty] at hok
    simp at hok

/-- Structure of a successful `removeWidget`: the widget was bound,
the `hardSplitTiles` assert passed, the covered cells were unit-split
and the widget/tile pair was popped. -/
theorem removeWidget_ok_spec (s : LayoutState) (w : Nat) (s' : LayoutState)
    (hok : removeWidget s w = .ok s') :
    w ∈ s.widget_w ∧
    ∀ t : Tile, t = s.tiles (s.widget_t.getD (List.indexOf w s.widget_w) 0) →
    ∀ cells : List (Int × Int),
      cells = rectCells t.from_row t.from_column t.row_span t.column_span →
      (t.from_row, t.from_column) ∈ cells ∧
      s'.row_number = s.row_number ∧ s'.column_number = s.column_number ∧
      s'.next_id = s.next_id + cells.length ∧
      s'.widget_w = s.widget_w.eraseIdx (List.indexOf w s.widget_w) ∧
      s'.widget_t = s.widget_t.eraseIdx (List.indexOf w s.widget_w) ∧
      s'.tile_map = (splitCells s cells).tile_map ∧
      s'.tiles = (splitCells s cells).tiles := by
  unfold removeWidget at hok
  by_cases hw : w ∈ s.widget_w
  swap
  · simp [hw] at hok
  rw [if_pos hw] at hok
  simp only [] at hok
  refine ⟨hw, ?_⟩
  intro t ht cells hcells
  rw [← ht] at hok
  rw [← hcells] at hok
  by_cases hassert : ((t.from_row, t.from_column) : Int × Int) ∈ cells
  swap
  · rw [hardSplitTiles, if_neg hassert] at hok
    simp at hok
  rw [hardSplitTiles, if_pos hassert] at hok
  simp only [Except.ok.injEq] at hok
  subst hok
  obtain ⟨hm1, hm2, hm3, hm4, hm5⟩ := splitCells_misc cells s
  exact ⟨hassert, hm1, hm2, by rw [hm5], by rw [hm3], by rw [hm4], rfl, rfl⟩

/-- Counterexample to C7 as stated: widget 10 fills cell `(0, 0)` of a
2×2 grid.  The zero-area rectangle `(0, 0, 0, 1)` is then admissible
for placement (`isAreaEmpty` is true, cf. C10), and placing widget 11
over it binds 11 to widget 10's tile without merging anything.
Removing widget 11 hard-splits that tile, so cell `(0, 0)` — a cell
outside the (empty) placed rectangle — changes owner from a filled
tile to a fresh unfilled one: the state before the place is not
restored. -/
theorem c7_counterexample :
    ((addWidget (initState 2 2) 10 0 0 1 1).toOption.bind fun sA =>
      (addWidget sA 11 0 0 0 1).toOption.bind fun sB =>
        (removeWidget sB 11).toOption.map fun s2 =>
          (isAreaEmpty sA 0 0 0 1, (sA.tiles (sA.tile_map 0 0)).filled,
            (s2.tiles (s2.tile_map 0 0)).filled))
      = some (true, true, false) := by
  decide

/-- Amended C7: for every item and every rectangle of positive spans
admissible for placement, `addWidget` followed by `removeWidget` of
the same item restores the grid to a state indistinguishable from the
one before the place: every cell of the rectangle is owned by an
unfilled 1×1 unit tile sitting at that cell, every other in-range
cell keeps both its tile reference and that tile's record, and the
item is unbound with the registry exactly restored.  (The positive
span restriction is forced by the counterexample: zero-area
placements are admissible yet bind the item to a foreign tile.) -/
theorem c7_amended_place_remove_round_trip (s : LayoutState) (w : Nat) (fr fc rs cs : Int)
    (s1 s2 : LayoutState) (hinv : Inv s) (hrs1 : 1 ≤ rs) (hcs1 : 1 ≤ cs)
    (hadd : addWidget s w fr fc rs cs = .ok s1)
    (hrem : removeWidget s1 w = .ok s2) :
    (∀ r c : Int, fr ≤ r → r < fr + rs → fc ≤ c → c < fc + cs →
      s2.tiles (s2.tile_map r.toNat c.toNat) = ⟨r, c, 1, 1, false⟩) ∧
    (∀ r c : Nat, r < s.row_number → c < s.column_number →
      ¬(fr ≤ (r : Int) ∧ (r : Int) < fr + rs ∧ fc ≤ (c : Int) ∧ (c : Int) < fc + cs) →
      s2.tile_map r c = s.tile_map r c ∧
      s2.tiles (s2.tile_map r c) = s.tiles (s.tile_map r c)) ∧
    w ∉ s2.widget_w ∧
    s2.widget_w = s.widget_w ∧
    s2.widget_t = s.widget_t := by
  obtain ⟨hpart, hids, hunf, hlen, hndw, hndt, hreg⟩ := hinv
  obtain ⟨hnw, hempty, hrow1, hcol1, hnid1, hww, hwt, htne, htpos, htneg, htm⟩ :=
    addWidget_ok_spec s w fr fc rs cs s1 hadd
  obtain ⟨hfr0, hfc0, hfrR, hfcC, hfree⟩ := (isAreaEmpty_iff s fr fc rs cs).mp hempty
  have hfrN : fr.toNat < s.row_number := by omega
  have hfcN : fc.toNat < s.column_number := by omega
  have hUnf : (s.tiles (s.tile_map fr.toNat fc.toNat)).filled = false := by
    have h := hfree fr fc le_rfl (by omega) le_rfl (by omega)
    exact h
  have hanchor : s1.tiles (s.tile_map fr.toNat fc.toNat) = ⟨fr, fc, rs, cs, true⟩ := by
    by_cases hspan : 1 < rs ∨ 1 < cs
    · exact htpos hspan
    · rw [htneg hspan]
      have hu := hunf fr.toNat hfrN fc.toNat hfcN hUnf
      simp only [owner] at hu
      rw [hu]
      show (⟨((fr.toNat : Nat) : Int), ((fc.toNat : Nat) : Int), 1, 1, true⟩ : Tile) =
        ⟨fr, fc, rs, cs, true⟩
      rw [Tile.mk.injEq]
      refine ⟨by omega, by omega, by omega, by omega, rfl⟩
  obtain ⟨hw1, hrest⟩ := removeWidget_ok_spec s1 w s2 hrem
  have hidx : List.indexOf w s1.widget_w = s.widget_w.length := by
    rw [hww, List.indexOf_append_of_not_mem hnw]
    simp
  have htid : s1.widget_t.getD (List.indexOf w s1.widget_w) 0 =
      s.tile_map fr.toNat fc.toNat := by
    rw [hidx, hwt, hlen]
    exact getD_append_length _ _ _
  have hrest2 := hrest (⟨fr, fc, rs, cs, true⟩ : Tile) (by rw [htid, hanchor])
    (rectCells fr fc rs cs) rfl
  obtain ⟨hassert, hrow2, hcol2, hnid2, hww2, hwt2, htm2, hts2⟩ := hrest2
  have hww2' : s2.widget_w = s.widget_w := by
    rw [hww2, hidx, hww, eraseIdx_append_length]
  have hwt2' : s2.widget_t = s.widget_t := by
    rw [hwt2, hidx, hwt, hlen, eraseIdx_append_length]
  refine ⟨?_, ?_, by rw [hww2']; exact hnw, hww2', hwt2'⟩
  · intro r c h1 h2 h3 h4
    have hcast : (((r.toNat : Nat) : Int), ((c.toNat : Nat) : Int)) = (r, c) := by
      rw [Prod.mk.injEq]
      omega
    have hmem : (((r.toNat : Nat) : Int), ((c.toNat : Nat) : Int)) ∈ rectCells fr fc rs cs := by
      rw [hcast]
      exact mem_rectCells.mpr ⟨h1, h2, h3, h4⟩
    obtain ⟨_, _, hc⟩ := splitCells_tile_map_mem (rectCells fr fc rs cs) s1 r.toNat c.toNat hmem
    rw [htm2, hts2, hc]
    rw [Prod.mk.injEq] at hcast
    rw [hcast.1, hcast.2]
  · intro r c hr hc hn
    have hnotmem : (((r : Nat) : Int), ((c : Nat) : Int)) ∉ rectCells fr fc rs cs := by
      intro hmem
      exact hn (mem_rectCells.mp hmem)
    have hmap1 : s1.tile_map r c = s.tile_map r c := by
      refine (htm r c).2 ?_
      intro hmem
      exact hnotmem (drop_one_subset_rectCells hmem)
    have hmap2 : s2.tile_map r c = s.tile_map r c := by
      rw [htm2, splitCells_tile_map_not_mem _ _ _ _ hnotmem, hmap1]
    refine ⟨hmap2, ?_⟩
    have hjne : s.tile_map r c ≠ s.tile_map fr.toNat fc.toNat := by
      intro he
      have hu2 : (owner s r c).filled = false := by
        simp only [owner]
        rw [he]
        exact hUnf
      have h1 := hunf r hr c hc hu2
      have h2 := hunf fr.toNat hfrN fc.toNat hfcN hUnf
      simp only [owner] at h1 h2
      rw [he] at h1
      rw [h1] at h2
      rw [Tile.mk.injEq] at h2
      obtain ⟨e1, e2, _⟩ := h2
      apply hn
      refine ⟨by omega, by omega, by omega, by omega⟩
    have hjlt : s.tile_map r c < s.next_id := hids r hr c hc
    rw [hmap2, hts2]
    rw [splitCells_tiles_old _ _ _ (by rw [hnid1]; exact hjlt)]
    rw [htne _ hjne]

/-- Witness for the amended C7: placing widget 9 over the full left
column of a 2×2 grid and removing it restores every cell and empties
the registry. -/
theorem c7_amended_place_remove_round_trip_witness :
    (∀ r c : Int, 0 ≤ r → r < 0 + 2 → 0 ≤ c → c < 0 + 1 →
      c7DemoRemove.tiles (c7DemoRemove.tile_map r.toNat c.toNat) = ⟨r, c, 1, 1, false⟩) ∧
    (∀ r c : Nat, r < (initState 2 2).row_number → c < (initState 2 2).column_number →
      ¬(0 ≤ (r : Int) ∧ (r : Int) < 0 + 2 ∧ 0 ≤ (c : Int) ∧ (c : Int) < 0 + 1) →
      c7DemoRemove.tile_map r c = (initState 2 2).tile_map r c ∧
      c7DemoRemove.tiles (c7DemoRemove.tile_map r c) =
        (initState 2 2).tiles ((initState 2 2).tile_map r c)) ∧
    9 ∉ c7DemoRemove.widget_w ∧
    c7DemoRemove.widget_w = (initState 2 2).widget_w ∧
    c7DemoRemove.widget_t = (initState 2 2).widget_t :=
  c7_amended_place_remove_round_trip (initState 2 2) 9 0 0 2 1 c7DemoAdd c7DemoRemove
    (by decide) (by decide) (by decide) rfl rfl

/-- Splitting an owner-closed set of in-range cells into fresh unit
tiles preserves the partition property, the liveness of referenced
ids, the unfilled-unit property, and every registry fact whose tile
keeps its cells.  Owner-closed: any in-range cell sharing its owner
with a listed cell is itself listed, so only whole tiles disappear. -/
theorem inv_splitCells (s : LayoutState) (cells : List (Int × Int))
    (hinv : Inv s)
    (hin : ∀ p ∈ cells, 0 ≤ p.1 ∧ p.1 < (s.row_number : Int) ∧
      0 ≤ p.2 ∧ p.2 < (s.column_number : Int))
    (hclosed : ∀ p ∈ cells, ∀ r c : Nat, r < s.row_number → c < s.column_number →
      s.tile_map r c = s.tile_map p.1.toNat p.2.toNat → ((r : Int), (c : Int)) ∈ cells) :
    Partition (splitCells s cells) ∧
    (∀ r, r < s.row_number → ∀ c, c < s.column_number →
      (splitCells s cells).tile_map r c < (splitCells s cells).next_id) ∧
    (∀ r, r < s.row_number → ∀ c, c < s.column_number →
      (owner (splitCells s cells) r c).filled = false →
      owner (splitCells s cells) r c = ⟨(r : Int), (c : Int), 1, 1, false⟩) ∧
    (∀ tid ∈ s.widget_t,
      (((s.tiles tid).from_row, (s.tiles tid).from_column) : Int × Int) ∉ cells →
      tid < (splitCells s cells).next_id ∧
      ((splitCells s cells).tiles tid).filled = true ∧
      InBoundsTile (splitCells s cells) ((splitCells s cells).tiles tid) ∧
      1 ≤ ((splitCells s cells).tiles tid).row_span ∧
      1 ≤ ((splitCells s cells).tiles tid).column_span ∧
      (splitCells s cells).tile_map ((splitCells s cells).tiles tid).from_row.toNat
        ((splitCells s cells).tiles tid).from_column.toNat = tid) := by
  obtain ⟨hpart, hids, hunf, hlen, hndw, hndt, hreg⟩ := hinv
  obtain ⟨hm1, hm2, hm3, hm4, hm5⟩ := splitCells_misc cells s
  have howner_old : ∀ r c : Nat, r < s.row_number → c < s.column_number →
      ((r : Int), (c : Int)) ∉ cells →
      (splitCells s cells).tile_map r c = s.tile_map r c ∧
      (splitCells s cells).tiles ((splitCells s cells).tile_map r c) =
        s.tiles (s.tile_map r c) := by
    intro r c hr hc hnm
    have h1 := splitCells_tile_map_not_mem cells s r c hnm
    refine ⟨h1, ?_⟩
    rw [h1]
    exact splitCells_tiles_old cells s _ (hids r hr c hc)
  refine ⟨?_, ?_, ?_, ?_⟩
  · -- Partition
    intro r hr c hc
    rw [hm1] at hr
    rw [hm2] at hc
    by_cases hmem : ((r : Int), (c : Int)) ∈ cells
    · obtain ⟨hge, hlt, hrec⟩ := splitCells_tile_map_mem cells s r c hmem
      have howner : owner (splitCells s cells) r c = ⟨(r : Int), (c : Int), 1, 1, false⟩ := hrec
      refine ⟨?_, ?_, ?_⟩
      · rw [howner]
        simp only [Covers]
        omega
      · rw [howner]
        simp only [InBoundsTile]
        rw [hm1, hm2]
        omega
      · intro r' hr' c' hc' hcov
        rw [hm1] at hr'
        rw [hm2] at hc'
        by_cases hmem' : ((r' : Int), (c' : Int)) ∈ cells
        · obtain ⟨_, _, hrec'⟩ := splitCells_tile_map_mem cells s r' c' hmem'
          have howner' : owner (splitCells s cells) r' c' =
              ⟨(r' : Int), (c' : Int), 1, 1, false⟩ := hrec'
          rw [howner'] at hcov
          simp only [Covers] at hcov
          have he : r = r' ∧ c = c' := by omega
          rw [he.1, he.2]
        · obtain ⟨hmap', htl'⟩ := howner_old r' c' hr' hc' hmem'
          have howner' : owner (splitCells s cells) r' c' = s.tiles (s.tile_map r' c') := htl'
          rw [howner'] at hcov
          obtain ⟨_, _, huniq⟩ := hpart r hr c hc
          have heq := huniq r' hr' c' hc' hcov
          have : s.tile_map r' c' = s.tile_map ((r : Int), (c : Int)).1.toNat
              ((r : Int), (c : Int)).2.toNat := by
            simp only [Int.toNat_natCast]
            exact heq.symm
          exact absurd (hclosed _ hmem r' c' hr' hc' this) hmem'
    · obtain ⟨hmap, htl⟩ := howner_old r c hr hc hmem
      have howner : owner (splitCells s cells) r c = s.tiles (s.tile_map r c) := htl
      obtain ⟨hcov0, hbnd0, huniq0⟩ := hpart r hr c hc
      refine ⟨?_, ?_, ?_⟩
      · rw [howner]
        exact hcov0
      · rw [howner]
        obtain ⟨b1, b2, b3, b4⟩ := hbnd0
        refine ⟨b1, b2, ?_, ?_⟩
        · show _ ≤ ((splitCells s cells).row_number : Int)
          rw [hm1]
          exact b3
        · show _ ≤ ((splitCells s cells).column_number : Int)
          rw [hm2]
          exact b4
      · intro r' hr' c' hc' hcov
        rw [hm1] at hr'
        rw [hm2] at hc'
        by_cases hmem' : ((r' : Int), (c' : Int)) ∈ cells
        · obtain ⟨_, _, hrec'⟩ := splitCells_tile_map_mem cells s r' c' hmem'
          have howner' : owner (splitCells s cells) r' c' =
              ⟨(r' : Int), (c' : Int), 1, 1, false⟩ := hrec'
          rw [howner'] at hcov
          simp only [Covers] at hcov
          have he : r = r' ∧ c = c' := by omega
          rw [he.1, he.2]
        · obtain ⟨hmap', htl'⟩ := howner_old r' c' hr' hc' hmem'
          have howner' : owner (splitCells s cells) r' c' = s.tiles (s.tile_map r' c') := htl'
          rw [howner'] at hcov
          have heq := huniq0 r' hr' c' hc' hcov
          rw [hmap, hmap']
          exact heq
  · -- ids
    intro r hr c hc
    by_cases hmem : ((r : Int), (c : Int)) ∈ cells
    · exact (splitCells_tile_map_mem cells s r c hmem).2.1
    · rw [(howner_old r c hr hc hmem).1, hm5]
      have := hids r hr c hc
      omega
  · -- unfilled-unit
    intro r hr c hc hfil
    by_cases hmem : ((r : Int), (c : Int)) ∈ cells
    · exact (splitCells_tile_map_mem cells s r c hmem).2.2
    · have howner : owner (splitCells s cells) r c = s.tiles (s.tile_map r c) :=
        (howner_old r c hr hc hmem).2
      rw [howner] at hfil ⊢
      exact hunf r hr c hc hfil
  · -- registry
    intro tid htid hnm
    obtain ⟨hlt, hfil, hbnd, hrs, hcs, horig⟩ := hreg tid htid
    have htl : (splitCells s cells).tiles tid = s.tiles tid :=
      splitCells_tiles_old cells s tid hlt
    obtain ⟨b1, b2, b3, b4⟩ := hbnd
    have horN : (s.tiles tid).from_row.toNat < s.row_number := by omega
    have hocN : (s.tiles tid).from_column.toNat < s.column_number := by omega
    have hnm' : (((s.tiles tid).from_row.toNat : Int),
        ((s.tiles tid).from_column.toNat : Int)) ∉ cells := by
      have : (((s.tiles tid).from_row.toNat : Int),
          ((s.tiles tid).from_column.toNat : Int)) =
          ((s.tiles tid).from_row, (s.tiles tid).from_column) := by
        rw [Prod.mk.injEq]
        omega
      rw [this]
      exact hnm
    refine ⟨by rw [hm5]; omega, by rw [htl]; exact hfil, ?_, by rw [htl]; exact hrs,
      by rw [htl]; exact hcs, ?_⟩
    · rw [htl]
      refine ⟨b1, b2, ?_, ?_⟩
      · show _ ≤ ((splitCells s cells).row_number : Int)
        rw [hm1]
        exact b3
      · show _ ≤ ((splitCells s cells).column_number : Int)
        rw [hm2]
        exact b4
    · rw [htl]
      rw [splitCells_tile_map_not_mem cells s _ _ hnm']
      exact horig

/-- Absorbing into tile `tid` a set of cells that extends its rectangle
to a larger in-bounds rectangle preserves the partition property,
provided every absorbed cell is currently unfilled (hence a unit tile)
and the absorbed cells are exactly the new rectangle minus the old
one.  The cell map afterwards points the whole new rectangle at `tid`
and is unchanged elsewhere; referenced ids stay live; and when `tid`
is filled the unfilled-unit property survives as well. -/
theorem inv_mergeTiles (s : LayoutState) (tid : Nat) (fr2 fc2 rs2 cs2 : Int)
    (cells : List (Int × Int))
    (hpart : Partition s)
    (hids : ∀ r, r < s.row_number → ∀ c, c < s.column_number → s.tile_map r c < s.next_id)
    (hunf : ∀ r, r < s.row_number → ∀ c, c < s.column_number →
      (owner s r c).filled = false → owner s r c = ⟨(r : Int), (c : Int), 1, 1, false⟩)
    (htid_lt : tid < s.next_id)
    (horigin : s.tile_map (s.tiles tid).from_row.toNat (s.tiles tid).from_column.toNat = tid)
    (hor_bounds : InBoundsTile s (s.tiles tid))
    (hor_spans : 1 ≤ (s.tiles tid).row_span ∧ 1 ≤ (s.tiles tid).column_span)
    (hsub : fr2 ≤ (s.tiles tid).from_row ∧ fc2 ≤ (s.tiles tid).from_column ∧
      (s.tiles tid).from_row + (s.tiles tid).row_span ≤ fr2 + rs2 ∧
      (s.tiles tid).from_column + (s.tiles tid).column_span ≤ fc2 + cs2)
    (hnew_bounds : 0 ≤ fr2 ∧ 0 ≤ fc2 ∧ fr2 + rs2 ≤ (s.row_number : Int) ∧
      fc2 + cs2 ≤ (s.column_number : Int))
    (hcells_sub : ∀ x y : Int, (x, y) ∈ cells →
      (fr2 ≤ x ∧ x < fr2 + rs2 ∧ fc2 ≤ y ∧ y < fc2 + cs2))
    (hcells_cover : ∀ x y : Int,
      (fr2 ≤ x ∧ x < fr2 + rs2 ∧ fc2 ≤ y ∧ y < fc2 + cs2) →
      ¬((s.tiles tid).from_row ≤ x ∧
        x < (s.tiles tid).from_row + (s.tiles tid).row_span ∧
        (s.tiles tid).from_column ≤ y ∧
        y < (s.tiles tid).from_column + (s.tiles tid).column_span) →
      (x, y) ∈ cells)
    (hcells_unfilled : ∀ p ∈ cells, (s.tiles (s.tile_map p.1.toNat p.2.toNat)).filled = false) :
    (∀ r c : Nat,
      ((fr2 ≤ (r : Int) ∧ (r : Int) < fr2 + rs2 ∧ fc2 ≤ (c : Int) ∧ (c : Int) < fc2 + cs2) →
        (mergeTiles s tid fr2 fc2 rs2 cs2 cells).tile_map r c = tid) ∧
      (¬(fr2 ≤ (r : Int) ∧ (r : Int) < fr2 + rs2 ∧ fc2 ≤ (c : Int) ∧ (c : Int) < fc2 + cs2) →
        (mergeTiles s tid fr2 fc2 rs2 cs2 cells).tile_map r c = s.tile_map r c)) ∧
    Partition (mergeTiles s tid fr2 fc2 rs2 cs2 cells) ∧
    (∀ r, r < s.row_number → ∀ c, c < s.column_number →
      (mergeTiles s tid fr2 fc2 rs2 cs2 cells).tile_map r c < s.next_id) ∧
    ((s.tiles tid).filled = true →
      ∀ r, r < s.row_number → ∀ c, c < s.column_number →
        (owner (mergeTiles s tid fr2 fc2 rs2 cs2 cells) r c).filled = false →
        owner (mergeTiles s tid fr2 fc2 rs2 cs2 cells) r c =
          ⟨(r : Int), (c : Int), 1, 1, false⟩) := by
  obtain ⟨hob1, hob2, hob3, hob4⟩ := hor_bounds
  obtain ⟨hos1, hos2⟩ := hor_spans
  obtain ⟨hsu1, hsu2, hsu3, hsu4⟩ := hsub
  obtain ⟨hnb1, hnb2, hnb3, hnb4⟩ := hnew_bounds
  have horN : (s.tiles tid).from_row.toNat < s.row_number := by omega
  have hocN : (s.tiles tid).from_column.toNat < s.column_number := by omega
  have hmapdef : ∀ r c : Nat,
      (mergeTiles s tid fr2 fc2 rs2 cs2 cells).tile_map r c =
        if ((r : Int), (c : Int)) ∈ cells then tid else s.tile_map r c := fun _ _ => rfl
  have htiles_tid : (mergeTiles s tid fr2 fc2 rs2 cs2 cells).tiles tid =
      ⟨fr2, fc2, rs2, cs2, (s.tiles tid).filled⟩ := by
    simp [mergeTiles]
  have htiles_ne : ∀ i, i ≠ tid →
      (mergeTiles s tid fr2 fc2 rs2 cs2 cells).tiles i = s.tiles i := by
    intro i hi
    simp [mergeTiles, hi]
  -- cells of the old rectangle reference tid
  have hold_map : ∀ r c : Nat,
      ((s.tiles tid).from_row ≤ (r : Int) ∧
        (r : Int) < (s.tiles tid).from_row + (s.tiles tid).row_span ∧
        (s.tiles tid).from_column ≤ (c : Int) ∧
        (c : Int) < (s.tiles tid).from_column + (s.tiles tid).column_span) →
      s.tile_map r c = tid := by
    rintro r c ⟨e1, e2, e3, e4⟩
    have hr : r < s.row_number := by omega
    have hc : c < s.column_number := by omega
    obtain ⟨_, _, huniq⟩ := hpart r hr c hc
    have hcov : Covers (owner s (s.tiles tid).from_row.toNat (s.tiles tid).from_column.toNat)
        r c := by
      simp only [owner, horigin, Covers]
      exact ⟨e1, e2, e3, e4⟩
    have := huniq _ horN _ hocN hcov
    rw [this, horigin]
  -- a cell referencing tid lies in the old rectangle
  have hmap_old : ∀ r c : Nat, r < s.row_number → c < s.column_number →
      s.tile_map r c = tid →
      ((s.tiles tid).from_row ≤ (r : Int) ∧
        (r : Int) < (s.tiles tid).from_row + (s.tiles tid).row_span ∧
        (s.tiles tid).from_column ≤ (c : Int) ∧
        (c : Int) < (s.tiles tid).from_column + (s.tiles tid).column_span) := by
    intro r c hr hc he
    obtain ⟨hcov, _, _⟩ := hpart r hr c hc
    simp only [owner, he, Covers] at hcov
    exact hcov
  -- full characterisation of the new map on in-range cells
  have hmap_new : ∀ r c : Nat, r < s.row_number → c < s.column_number →
      (mergeTiles s tid fr2 fc2 rs2 cs2 cells).tile_map r c =
        (if fr2 ≤ (r : Int) ∧ (r : Int) < fr2 + rs2 ∧ fc2 ≤ (c : Int) ∧ (c : Int) < fc2 + cs2
          then tid else s.tile_map r c) := by
    intro r c hr hc
    rw [hmapdef]
    by_cases hnew : fr2 ≤ (r : Int) ∧ (r : Int) < fr2 + rs2 ∧ fc2 ≤ (c : Int) ∧
        (c : Int) < fc2 + cs2
    · rw [if_pos hnew]
      by_cases hmem : ((r : Int), (c : Int)) ∈ cells
      · rw [if_pos hmem]
      · rw [if_neg hmem]
        have hold : ((s.tiles tid).from_row ≤ (r : Int) ∧
            (r : Int) < (s.tiles tid).from_row + (s.tiles tid).row_span ∧
            (s.tiles tid).from_column ≤ (c : Int) ∧
            (c : Int) < (s.tiles tid).from_column + (s.tiles tid).column_span) := by
          by_contra hnold
          exact hmem (hcells_cover _ _ hnew hnold)
        exact hold_map r c hold
    · rw [if_neg hnew]
      have hmem : ((r : Int), (c : Int)) ∉ cells := by
        intro hmem
        exact hnew (hcells_sub _ _ hmem)
      rw [if_neg hmem]
  have hmap_pair : ∀ r c : Nat,
      ((fr2 ≤ (r : Int) ∧ (r : Int) < fr2 + rs2 ∧ fc2 ≤ (c : Int) ∧ (c : Int) < fc2 + cs2) →
        (mergeTiles s tid fr2 fc2 rs2 cs2 cells).tile_map r c = tid) ∧
      (¬(fr2 ≤ (r : Int) ∧ (r : Int) < fr2 + rs2 ∧ fc2 ≤ (c : Int) ∧ (c : Int) < fc2 + cs2) →
        (mergeTiles s tid fr2 fc2 rs2 cs2 cells).tile_map r c = s.tile_map r c) := by
    intro r c
    constructor
    · intro hnew
      have hr : r < s.row_number := by omega
      have hc : c < s.column_number := by omega
      rw [hmap_new r c hr hc, if_pos hnew]
    · intro hnew
      rw [hmapdef]
      have hmem : ((r : Int), (c : Int)) ∉ cells := by
        intro hmem
        exact hnew (hcells_sub _ _ hmem)
      rw [if_neg hmem]
  -- a cell outside the new rectangle does not reference tid
  have hne_tid : ∀ r c : Nat, r < s.row_number → c < s.column_number →
      ¬(fr2 ≤ (r : Int) ∧ (r : Int) < fr2 + rs2 ∧ fc2 ≤ (c : Int) ∧ (c : Int) < fc2 + cs2) →
      s.tile_map r c ≠ tid := by
    intro r c hr hc hnew he
    have hold := hmap_old r c hr hc he
    exact hnew ⟨by omega, by omega, by omega, by omega⟩
  refine ⟨hmap_pair, ?_, ?_, ?_⟩
  · -- Partition
    intro r hr c hc
    show _ ∧ _ ∧ _
    have hrn : r < s.row_number := hr
    have hcn : c < s.column_number := hc
    by_cases hnew : fr2 ≤ (r : Int) ∧ (r : Int) < fr2 + rs2 ∧ fc2 ≤ (c : Int) ∧
        (c : Int) < fc2 + cs2
    · have hmapv := (hmap_pair r c).1 hnew
      have howner : owner (mergeTiles s tid fr2 fc2 rs2 cs2 cells) r c =
          ⟨fr2, fc2, rs2, cs2, (s.tiles tid).filled⟩ := by
        simp only [owner, hmapv, htiles_tid]
      refine ⟨?_, ?_, ?_⟩
      · rw [howner]
        simp only [Covers]
        omega
      · rw [howner]
        simp only [InBoundsTile]
        exact ⟨hnb1, hnb2, hnb3, hnb4⟩
      · intro r' hr' c' hc' hcov
        have hrn' : r' < s.row_number := hr'
        have hcn' : c' < s.column_number := hc'
        by_cases hnew' : fr2 ≤ (r' : Int) ∧ (r' : Int) < fr2 + rs2 ∧ fc2 ≤ (c' : Int) ∧
            (c' : Int) < fc2 + cs2
        · rw [hmapv, (hmap_pair r' c').1 hnew']
        · have hmapv' := (hmap_pair r' c').2 hnew'
          have hne' := hne_tid r' c' hrn' hcn' hnew'
          have howner' : owner (mergeTiles s tid fr2 fc2 rs2 cs2 cells) r' c' =
              s.tiles (s.tile_map r' c') := by
            simp only [owner, hmapv']
            exact htiles_ne _ hne'
          rw [howner'] at hcov
          obtain ⟨_, _, huniq⟩ := hpart r hrn c hcn
          have heq := huniq r' hrn' c' hcn' hcov
          by_cases hold : (s.tiles tid).from_row ≤ (r : Int) ∧
              (r : Int) < (s.tiles tid).from_row + (s.tiles tid).row_span ∧
              (s.tiles tid).from_column ≤ (c : Int) ∧
              (c : Int) < (s.tiles tid).from_column + (s.tiles tid).column_span
          · exact absurd (heq.symm.trans (hold_map r c hold)) hne'
          · have hmem : ((r : Int), (c : Int)) ∈ cells := hcells_cover _ _ hnew hold
            have hcf := hcells_unfilled _ hmem
            simp only [Int.toNat_natCast] at hcf
            have hu := hunf r hrn c hcn hcf
            simp only [owner] at hu
            obtain ⟨hcov0', _, _⟩ := hpart r' hrn' c' hcn'
            simp only [owner] at hcov0'
            rw [← heq, hu] at hcov0'
            simp only [Covers] at hcov0'
            have he : r' = r ∧ c' = c := by omega
            rw [he.1, he.2] at hnew'
            exact absurd hnew hnew'
    · have hmapv := (hmap_pair r c).2 hnew
      have hne := hne_tid r c hrn hcn hnew
      have howner : owner (mergeTiles s tid fr2 fc2 rs2 cs2 cells) r c =
          s.tiles (s.tile_map r c) := by
        simp only [owner, hmapv]
        exact htiles_ne _ hne
      obtain ⟨hcov0, hbnd0, huniq0⟩ := hpart r hrn c hcn
      refine ⟨?_, ?_, ?_⟩
      · rw [howner]
        exact hcov0
      · rw [howner]
        exact hbnd0
      · intro r' hr' c' hc' hcov
        have hrn' : r' < s.row_number := hr'
        have hcn' : c' < s.column_number := hc'
        by_cases hnew' : fr2 ≤ (r' : Int) ∧ (r' : Int) < fr2 + rs2 ∧ fc2 ≤ (c' : Int) ∧
            (c' : Int) < fc2 + cs2
        · have howner' : owner (mergeTiles s tid fr2 fc2 rs2 cs2 cells) r' c' =
              ⟨fr2, fc2, rs2, cs2, (s.tiles tid).filled⟩ := by
            simp only [owner, (hmap_pair r' c').1 hnew', htiles_tid]
          rw [howner'] at hcov
          simp only [Covers] at hcov
          exact absurd ⟨by omega, by omega, by omega, by omega⟩ hnew
        · have hmapv' := (hmap_pair r' c').2 hnew'
          have hne' := hne_tid r' c' hrn' hcn' hnew'
          have howner' : owner (mergeTiles s tid fr2 fc2 rs2 cs2 cells) r' c' =
              s.tiles (s.tile_map r' c') := by
            simp only [owner, hmapv']
            exact htiles_ne _ hne'
          rw [howner'] at hcov
          rw [hmapv, hmapv']
          exact huniq0 r' hrn' c' hcn' hcov
  · -- ids
    intro r hr c hc
    by_cases hnew : fr2 ≤ (r : Int) ∧ (r : Int) < fr2 + rs2 ∧ fc2 ≤ (c : Int) ∧
        (c : Int) < fc2 + cs2
    · rw [(hmap_pair r c).1 hnew]
      exact htid_lt
    · rw [(hmap_pair r c).2 hnew]
      exact hids r hr c hc
  · -- conditional unfilled-unit
    intro hfil r hr c hc hunf'
    by_cases hnew : fr2 ≤ (r : Int) ∧ (r : Int) < fr2 + rs2 ∧ fc2 ≤ (c : Int) ∧
        (c : Int) < fc2 + cs2
    · have howner : owner (mergeTiles s tid fr2 fc2 rs2 cs2 cells) r c =
          ⟨fr2, fc2, rs2, cs2, (s.tiles tid).filled⟩ := by
        simp only [owner, (hmap_pair r c).1 hnew, htiles_tid]
      rw [howner] at hunf'
      rw [hfil] at hunf'
      exact absurd hunf' (by decide)
    · have hne := hne_tid r c hr hc hnew
      have howner : owner (mergeTiles s tid fr2 fc2 rs2 cs2 cells) r c =
          s.tiles (s.tile_map r c) := by
        simp only [owner, (hmap_pair r c).2 hnew]
        exact htiles_ne _ hne
      rw [howner] at hunf' ⊢
      exact hunf r hr c hc hunf'

/-- The freshly constructed grid satisfies the full invariant: the
row-major unit tiling of `__createTileMap` is a partition, every
referenced id is below `next_id = R * C`, every tile is an unfilled
unit at its own cell, and the registry is empty. -/
theorem inv_initState (R C : Nat) : Inv (initState R C) := by
  have howner : ∀ r c : Nat, r < R → c < C →
      owner (initState R C) r c = ⟨(r : Int), (c : Int), 1, 1, false⟩ := by
    intro r c hr hc
    have hC : 0 < C := by omega
    have hdiv : (r * C + c) / C = r := by
      rw [Nat.mul_comm, Nat.mul_add_div hC, Nat.div_eq_of_lt hc]
      omega
    have hmod : (r * C + c) % C = c := by
      rw [Nat.mul_comm, Nat.mul_add_mod, Nat.mod_eq_of_lt hc]
    show (⟨(((r * C + c) / C : Nat) : Int), (((r * C + c) % C : Nat) : Int), 1, 1, false⟩ :
      Tile) = _
    rw [hdiv, hmod]
  refine ⟨?_, ?_, ?_, rfl, List.nodup_nil, List.nodup_nil, ?_⟩
  · intro r hr c hc
    have hr' : r < R := hr
    have hc' : c < C := hc
    refine ⟨?_, ?_, ?_⟩
    · rw [howner r c hr' hc']
      simp only [Covers]
      omega
    · rw [howner r c hr' hc']
      simp only [InBoundsTile]
      have hR : (initState R C).row_number = R := rfl
      have hCc : (initState R C).column_number = C := rfl
      rw [hR, hCc]
      refine ⟨by omega, by omega, by omega, by omega⟩
    · intro r' hr' c' hc' hcov
      rw [howner r' c' hr' hc'] at hcov
      simp only [Covers] at hcov
      have he : r = r' ∧ c = c' := by omega
      rw [he.1, he.2]
  · intro r hr c hc
    show r * C + c < R * C
    have hr' : r < R := hr
    have hc' : c < C := hc
    calc r * C + c < (r + 1) * C := by rw [Nat.succ_mul]; omega
    _ ≤ R * C := Nat.mul_le_mul_right C (by omega)
  · intro r hr c hc _
    exact howner r c hr hc
  · intro tid htid
    exact absurd htid (List.not_mem_nil _)

/-- The partition property only depends on the grid dimensions, the
cell map and the tile store, so it transports along states that agree
on those fields. -/
theorem partition_congr (a b : LayoutState)
    (hrn : b.row_number = a.row_number) (hcn : b.column_number = a.column_number)
    (htl : b.tiles = a.tiles) (hmp : b.tile_map = a.tile_map)
    (hp : Partition a) : Partition b := by
  intro r hr c hc
  rw [hrn] at hr
  rw [hcn] at hc
  obtain ⟨h1, h2, h3⟩ := hp r hr c hc
  refine ⟨?_, ?_, ?_⟩
  · simp only [owner, htl, hmp]
    exact h1
  · simp only [owner, InBoundsTile, htl, hmp, hrn, hcn]
    simp only [owner, InBoundsTile] at h2
    exact h2
  · intro r' hr' c' hc' hcov
    rw [hrn] at hr'
    rw [hcn] at hc'
    simp only [owner, htl, hmp] at hcov ⊢
    exact h3 r' hr' c' hc' hcov

/-- Any cell inside the rectangle of a tile referenced at its own
origin references that tile (partition uniqueness applied at the
origin cell). -/
theorem tile_map_eq_of_mem_rect (s : LayoutState) (tid : Nat)
    (hpart : Partition s)
    (horigin : s.tile_map (s.tiles tid).from_row.toNat (s.tiles tid).from_column.toNat = tid)
    (hor_bounds : InBoundsTile s (s.tiles tid))
    (r c : Nat)
    (h : (s.tiles tid).from_row ≤ (r : Int) ∧
      (r : Int) < (s.tiles tid).from_row + (s.tiles tid).row_span ∧
      (s.tiles tid).from_column ≤ (c : Int) ∧
      (c : Int) < (s.tiles tid).from_column + (s.tiles tid).column_span) :
    s.tile_map r c = tid := by
  obtain ⟨e1, e2, e3, e4⟩ := h
  obtain ⟨b1, b2, b3, b4⟩ := hor_bounds
  have horN : (s.tiles tid).from_row.toNat < s.row_number := by omega
  have hocN : (s.tiles tid).from_column.toNat < s.column_number := by omega
  have hr : r < s.row_number := by omega
  have hc : c < s.column_number := by omega
  obtain ⟨_, _, huniq⟩ := hpart r hr c hc
  have hcov : Covers (owner s (s.tiles tid).from_row.toNat (s.tiles tid).from_column.toNat)
      r c := by
    simp only [owner, horigin, Covers]
    exact ⟨e1, e2, e3, e4⟩
  have := huniq _ horN _ hocN hcov
  rw [this, horigin]

/-- Conversely, a cell referencing a tile lies inside that tile's
rectangle (the covering half of the partition property). -/
theorem mem_rect_of_tile_map_eq (s : LayoutState) (tid : Nat) (hpart : Partition s)
    (r c : Nat) (hr : r < s.row_number) (hc : c < s.column_number)
    (he : s.tile_map r c = tid) :
    (s.tiles tid).from_row ≤ (r : Int) ∧
    (r : Int) < (s.tiles tid).from_row + (s.tiles tid).row_span ∧
    (s.tiles tid).from_column ≤ (c : Int) ∧
    (c : Int) < (s.tiles tid).from_column + (s.tiles tid).column_span := by
  obtain ⟨hcov, _, _⟩ := hpart r hr c hc
  simp only [owner, he, Covers] at hcov
  exact hcov

/-- Every cell returned by `__getTilesToMerge` belongs to a fully free
strip, so its owning tile is unfilled. -/
theorem getTilesToMerge_snd_unfilled (s : LayoutState) (dx dy fr fc n : Int) :
    ∀ p ∈ (getTilesToMerge s dx dy fr fc n).2,
      (s.tiles (s.tile_map p.1.toNat p.2.toNat)).filled = false := by
  intro p hp
  unfold getTilesToMerge at hp
  simp only [] at hp
  obtain ⟨l, hl, hpl⟩ := List.mem_flatten.mp hp
  have hfree := List.mem_takeWhile_imp hl
  unfold stripFree at hfree
  rw [List.all_eq_true] at hfree
  have hb := hfree p hpl
  rw [Bool.not_eq_eq_eq_not, Bool.not_true] at hb
  exact hb

/-- Growing a registered tile through `__mergeTiles` preserves the
full invariant: the new rectangle extends the old one, stays in
bounds, and the absorbed cells (everything in the new rectangle but
not the old one) are all unfilled. -/
theorem inv_grow_apply (s : LayoutState) (tid : Nat) (fr2 fc2 rs2 cs2 : Int)
    (cells : List (Int × Int))
    (hinv : Inv s)
    (htid_mem : tid ∈ s.widget_t)
    (hsub : fr2 ≤ (s.tiles tid).from_row ∧ fc2 ≤ (s.tiles tid).from_column ∧
      (s.tiles tid).from_row + (s.tiles tid).row_span ≤ fr2 + rs2 ∧
      (s.tiles tid).from_column + (s.tiles tid).column_span ≤ fc2 + cs2)
    (hnew_bounds : 0 ≤ fr2 ∧ 0 ≤ fc2 ∧ fr2 + rs2 ≤ (s.row_number : Int) ∧
      fc2 + cs2 ≤ (s.column_number : Int))
    (hcells_sub : ∀ x y : Int, (x, y) ∈ cells →
      (fr2 ≤ x ∧ x < fr2 + rs2 ∧ fc2 ≤ y ∧ y < fc2 + cs2))
    (hcells_cover : ∀ x y : Int,
      (fr2 ≤ x ∧ x < fr2 + rs2 ∧ fc2 ≤ y ∧ y < fc2 + cs2) →
      ¬((s.tiles tid).from_row ≤ x ∧
        x < (s.tiles tid).from_row + (s.tiles tid).row_span ∧
        (s.tiles tid).from_column ≤ y ∧
        y < (s.tiles tid).from_column + (s.tiles tid).column_span) →
      (x, y) ∈ cells)
    (hcells_unfilled : ∀ p ∈ cells, (s.tiles (s.tile_map p.1.toNat p.2.toNat)).filled = false) :
    Inv (mergeTiles s tid fr2 fc2 rs2 cs2 cells) := by
  obtain ⟨hpart, hids, hunf, hlen, hndw, hndt, hreg⟩ := hinv
  obtain ⟨htid_lt, hfil, hor_bounds, hors, hocs, horig⟩ := hreg tid htid_mem
  obtain ⟨hmap_pair, hP, hIds, hUnf⟩ := inv_mergeTiles s tid fr2 fc2 rs2 cs2 cells hpart hids hunf
    htid_lt horig hor_bounds ⟨hors, hocs⟩ hsub hnew_bounds hcells_sub hcells_cover hcells_unfilled
  have htiles_tid : (mergeTiles s tid fr2 fc2 rs2 cs2 cells).tiles tid =
      ⟨fr2, fc2, rs2, cs2, (s.tiles tid).filled⟩ := by
    simp [mergeTiles]
  have htiles_ne : ∀ i, i ≠ tid →
      (mergeTiles s tid fr2 fc2 rs2 cs2 cells).tiles i = s.tiles i := by
    intro i hi
    simp [mergeTiles, hi]
  obtain ⟨hnb1, hnb2, hnb3, hnb4⟩ := hnew_bounds
  obtain ⟨hq1, hq2, hq3, hq4⟩ := hsub
  refine ⟨hP, hIds, hUnf hfil, hlen, hndw, hndt, ?_⟩
  intro tid' htid'
  have htid'0 : tid' ∈ s.widget_t := htid'
  by_cases he : tid' = tid
  · subst he
    refine ⟨htid_lt, ?_, ?_, ?_, ?_, ?_⟩
    · rw [htiles_tid]
      exact hfil
    · rw [htiles_tid]
      simp only [InBoundsTile]
      exact ⟨hnb1, hnb2, hnb3, hnb4⟩
    · rw [htiles_tid]
      show 1 ≤ rs2
      omega
    · rw [htiles_tid]
      show 1 ≤ cs2
      omega
    · rw [htiles_tid]
      show (mergeTiles s tid' fr2 fc2 rs2 cs2 cells).tile_map fr2.toNat fc2.toNat = tid'
      apply (hmap_pair fr2.toNat fc2.toNat).1
      refine ⟨by omega, by omega, by omega, by omega⟩
  · obtain ⟨hlt', hfil', hbnd', hrs', hcs', horig'⟩ := hreg tid' htid'0
    have ht' := htiles_ne tid' he
    obtain ⟨c1, c2, c3, c4⟩ := hbnd'
    refine ⟨hlt', ?_, ?_, ?_, ?_, ?_⟩
    · rw [ht']
      exact hfil'
    · rw [ht']
      simp only [InBoundsTile]
      exact ⟨c1, c2, c3, c4⟩
    · rw [ht']
      exact hrs'
    · rw [ht']
      exact hcs'
    · rw [ht']
      have hnotnew : ¬(fr2 ≤ ((s.tiles tid').from_row.toNat : Int) ∧
          ((s.tiles tid').from_row.toNat : Int) < fr2 + rs2 ∧
          fc2 ≤ ((s.tiles tid').from_column.toNat : Int) ∧
          ((s.tiles tid').from_column.toNat : Int) < fc2 + cs2) := by
        rintro ⟨d1, d2, d3, d4⟩
        by_cases hold : (s.tiles tid).from_row ≤ ((s.tiles tid').from_row.toNat : Int) ∧
            ((s.tiles tid').from_row.toNat : Int) <
              (s.tiles tid).from_row + (s.tiles tid).row_span ∧
            (s.tiles tid).from_column ≤ ((s.tiles tid').from_column.toNat : Int) ∧
            ((s.tiles tid').from_column.toNat : Int) <
              (s.tiles tid).from_column + (s.tiles tid).column_span
        · have := tile_map_eq_of_mem_rect s tid hpart horig hor_bounds _ _ hold
          rw [horig'] at this
          exact he this
        · have hmem := hcells_cover _ _ ⟨d1, d2, d3, d4⟩ hold
          have hcf := hcells_unfilled _ hmem
          simp only [Int.toNat_natCast] at hcf
          rw [horig'] at hcf
          rw [hfil'] at hcf
          exact absurd hcf (by decide)
      rw [(hmap_pair _ _).2 hnotnew]
      exact horig'

/-- A successful placement preserves the full invariant: the target
rectangle was entirely unfilled unit tiles, and afterwards it is owned
by the single filled anchor tile while everything else is untouched. -/
theorem inv_addWidget (s : LayoutState) (w : Nat) (fr fc rs cs : Int) (s' : LayoutState)
    (hinv : Inv s) (hrs1 : 1 ≤ rs) (hcs1 : 1 ≤ cs)
    (hok : addWidget s w fr fc rs cs = .ok s') : Inv s' := by
  obtain ⟨hpart, hids, hunf, hlen, hndw, hndt, hreg⟩ := hinv
  obtain ⟨hw, hempty, hrow, hcol, hnext, hww, hwt, htne, htspan, htnospan, hmap⟩ :=
    addWidget_ok_spec s w fr fc rs cs s' hok
  obtain ⟨hb1, hb2, hb3, hb4, hfree⟩ := (isAreaEmpty_iff s fr fc rs cs).mp hempty
  have hfrN : ((fr.toNat : Nat) : Int) = fr := by omega
  have hfcN : ((fc.toNat : Nat) : Int) = fc := by omega
  have hanchor_unf : (s.tiles (s.tile_map fr.toNat fc.toNat)).filled = false :=
    hfree fr fc (le_refl _) (by omega) (le_refl _) (by omega)
  have hfrlt : fr.toNat < s.row_number := by omega
  have hfclt : fc.toNat < s.column_number := by omega
  have hanchor : s.tiles (s.tile_map fr.toNat fc.toNat) = ⟨fr, fc, 1, 1, false⟩ := by
    have := hunf fr.toNat hfrlt fc.toNat hfclt
    simp only [owner] at this
    have h2 := this hanchor_unf
    rw [h2, hfrN, hfcN]
  -- the anchor tile after the operation
  have htile_tid : s'.tiles (s.tile_map fr.toNat fc.toNat) = ⟨fr, fc, rs, cs, true⟩ := by
    by_cases hspan : 1 < rs ∨ 1 < cs
    · exact htspan hspan
    · have h1 : rs = 1 := by omega
      have h2 : cs = 1 := by omega
      subst h1
      subst h2
      rw [htnospan hspan, hanchor]
  -- full characterisation of the new cell map on in-range cells
  have hmap' : ∀ r c : Nat, r < s.row_number → c < s.column_number →
      s'.tile_map r c =
        (if fr ≤ (r : Int) ∧ (r : Int) < fr + rs ∧ fc ≤ (c : Int) ∧ (c : Int) < fc + cs
          then s.tile_map fr.toNat fc.toNat else s.tile_map r c) := by
    intro r c _ _
    by_cases hrect : fr ≤ (r : Int) ∧ (r : Int) < fr + rs ∧ fc ≤ (c : Int) ∧ (c : Int) < fc + cs
    · rw [if_pos hrect]
      by_cases hne : ((r : Int), (c : Int)) = ((fr, fc) : Int × Int)
      · by_cases hmem : ((r : Int), (c : Int)) ∈ (rectCells fr fc rs cs).drop 1
        · exact (hmap r c).1 hmem
        · rw [(hmap r c).2 hmem]
          rw [Prod.mk.injEq] at hne
          obtain ⟨e1, e2⟩ := hne
          have er : r = fr.toNat := by omega
          have ec : c = fc.toNat := by omega
          rw [er, ec]
      · apply (hmap r c).1
        apply mem_drop_one_rectCells _ hne
        rw [mem_rectCells]
        exact hrect
    · rw [if_neg hrect]
      apply (hmap r c).2
      intro hmem
      have := mem_rectCells.mp (drop_one_subset_rectCells hmem)
      exact hrect this
  -- a cell outside the rectangle never references the anchor tile
  have hne_tid : ∀ r c : Nat, r < s.row_number → c < s.column_number →
      ¬(fr ≤ (r : Int) ∧ (r : Int) < fr + rs ∧ fc ≤ (c : Int) ∧ (c : Int) < fc + cs) →
      s.tile_map r c ≠ s.tile_map fr.toNat fc.toNat := by
    intro r c hr hc hrect he
    obtain ⟨hcov, _, _⟩ := hpart r hr c hc
    simp only [owner, he, hanchor, Covers] at hcov
    exact hrect ⟨by omega, by omega, by omega, by omega⟩
  -- cells inside the rectangle are unfilled unit tiles at their own cell
  have hrect_unit : ∀ r c : Nat,
      (fr ≤ (r : Int) ∧ (r : Int) < fr + rs ∧ fc ≤ (c : Int) ∧ (c : Int) < fc + cs) →
      s.tiles (s.tile_map r c) = ⟨(r : Int), (c : Int), 1, 1, false⟩ := by
    rintro r c ⟨e1, e2, e3, e4⟩
    have hr : r < s.row_number := by omega
    have hc : c < s.column_number := by omega
    have hcf := hfree (r : Int) (c : Int) e1 e2 e3 e4
    simp only [Int.toNat_natCast] at hcf
    have := hunf r hr c hc
    simp only [owner] at this
    exact this hcf
  have howner' : ∀ r c : Nat, r < s.row_number → c < s.column_number →
      s'.tiles (s'.tile_map r c) =
        (if fr ≤ (r : Int) ∧ (r : Int) < fr + rs ∧ fc ≤ (c : Int) ∧ (c : Int) < fc + cs
          then (⟨fr, fc, rs, cs, true⟩ : Tile) else s.tiles (s.tile_map r c)) := by
    intro r c hr hc
    rw [hmap' r c hr hc]
    by_cases hrect : fr ≤ (r : Int) ∧ (r : Int) < fr + rs ∧ fc ≤ (c : Int) ∧ (c : Int) < fc + cs
    · rw [if_pos hrect, if_pos hrect]
      exact htile_tid
    · rw [if_neg hrect, if_neg hrect]
      exact htne _ (hne_tid r c hr hc hrect)
  refine ⟨?_, ?_, ?_, ?_, ?_, ?_, ?_⟩
  · -- Partition
    intro r hr c hc
    have hrn : r < s.row_number := by rw [← hrow]; exact hr
    have hcn : c < s.column_number := by rw [← hcol]; exact hc
    have hown := howner' r c hrn hcn
    by_cases hrect : fr ≤ (r : Int) ∧ (r : Int) < fr + rs ∧ fc ≤ (c : Int) ∧ (c : Int) < fc + cs
    · rw [if_pos hrect] at hown
      refine ⟨?_, ?_, ?_⟩
      · show Covers (s'.tiles (s'.tile_map r c)) r c
        rw [hown]
        simp only [Covers]
        omega
      · show InBoundsTile s' (s'.tiles (s'.tile_map r c))
        rw [hown]
        simp only [InBoundsTile, hrow, hcol]
        refine ⟨by omega, by omega, by omega, by omega⟩
      · intro r' hr' c' hc' hcov
        have hrn' : r' < s.row_number := by rw [← hrow]; exact hr'
        have hcn' : c' < s.column_number := by rw [← hcol]; exact hc'
        have hown' := howner' r' c' hrn' hcn'
        by_cases hrect' : fr ≤ (r' : Int) ∧ (r' : Int) < fr + rs ∧ fc ≤ (c' : Int) ∧
            (c' : Int) < fc + cs
        · rw [hmap' r c hrn hcn, hmap' r' c' hrn' hcn', if_pos hrect, if_pos hrect']
        · rw [if_neg hrect'] at hown'
          simp only [owner] at hcov
          rw [hown'] at hcov
          obtain ⟨_, _, huniq⟩ := hpart r hrn c hcn
          have heq := huniq r' hrn' c' hcn' hcov
          have hu := hrect_unit r c hrect
          rw [heq] at hu
          obtain ⟨hcov0', _, _⟩ := hpart r' hrn' c' hcn'
          simp only [owner] at hcov0'
          rw [hu] at hcov0'
          simp only [Covers] at hcov0'
          have he : r' = r ∧ c' = c := by omega
          rw [he.1, he.2] at hrect'
          exact absurd hrect hrect'
    · rw [if_neg hrect] at hown
      obtain ⟨hcov0, hbnd0, huniq0⟩ := hpart r hrn c hcn
      simp only [owner] at hcov0 hbnd0
      refine ⟨?_, ?_, ?_⟩
      · show Covers (s'.tiles (s'.tile_map r c)) r c
        rw [hown]
        exact hcov0
      · show InBoundsTile s' (s'.tiles (s'.tile_map r c))
        rw [hown]
        simp only [InBoundsTile, hrow, hcol] at hbnd0 ⊢
        exact hbnd0
      · intro r' hr' c' hc' hcov
        have hrn' : r' < s.row_number := by rw [← hrow]; exact hr'
        have hcn' : c' < s.column_number := by rw [← hcol]; exact hc'
        have hown' := howner' r' c' hrn' hcn'
        by_cases hrect' : fr ≤ (r' : Int) ∧ (r' : Int) < fr + rs ∧ fc ≤ (c' : Int) ∧
            (c' : Int) < fc + cs
        · rw [if_pos hrect'] at hown'
          simp only [owner] at hcov
          rw [hown'] at hcov
          simp only [Covers] at hcov
          exact absurd ⟨by omega, by omega, by omega, by omega⟩ hrect
        · rw [if_neg hrect'] at hown'
          simp only [owner] at hcov
          rw [hown'] at hcov
          rw [hmap' r c hrn hcn, hmap' r' c' hrn' hcn', if_neg hrect, if_neg hrect']
          exact huniq0 r' hrn' c' hcn' hcov
  · -- ids
    intro r hr c hc
    have hrn : r < s.row_number := by rw [← hrow]; exact hr
    have hcn : c < s.column_number := by rw [← hcol]; exact hc
    rw [hmap' r c hrn hcn, hnext]
    by_cases hrect : fr ≤ (r : Int) ∧ (r : Int) < fr + rs ∧ fc ≤ (c : Int) ∧ (c : Int) < fc + cs
    · rw [if_pos hrect]
      exact hids fr.toNat hfrlt fc.toNat hfclt
    · rw [if_neg hrect]
      exact hids r hrn c hcn
  · -- unfilled-unit
    intro r hr c hc hfil
    have hrn : r < s.row_number := by rw [← hrow]; exact hr
    have hcn : c < s.column_number := by rw [← hcol]; exact hc
    have hown := howner' r c hrn hcn
    simp only [owner] at hfil ⊢
    rw [hown] at hfil ⊢
    by_cases hrect : fr ≤ (r : Int) ∧ (r : Int) < fr + rs ∧ fc ≤ (c : Int) ∧ (c : Int) < fc + cs
    · rw [if_pos hrect] at hfil
      simp at hfil
    · rw [if_neg hrect] at hfil ⊢
      have := hunf r hrn c hcn
      simp only [owner] at this
      exact this hfil
  · rw [hww, hwt]
    simp only [List.length_append, List.length_cons, List.length_nil]
    omega
  · rw [hww]
    simp [List.nodup_append, hndw, hw]
  · rw [hwt]
    have htid_notin : s.tile_map fr.toNat fc.toNat ∉ s.widget_t := by
      intro hmem
      obtain ⟨_, hfil', _⟩ := hreg _ hmem
      rw [hanchor_unf] at hfil'
      exact absurd hfil' (by decide)
    simp [List.nodup_append, hndt, htid_notin]
  · -- registry
    intro tid' htid'
    rw [hwt] at htid'
    rcases List.mem_append.mp htid' with hold | hnew
    · -- previously registered widgets keep their facts
      obtain ⟨hlt', hfil', hbnd', hrs', hcs', horig'⟩ := hreg tid' hold
      have hne' : tid' ≠ s.tile_map fr.toNat fc.toNat := by
        intro he
        rw [he] at hfil'
        rw [hanchor_unf] at hfil'
        exact absurd hfil' (by decide)
      have ht' := htne tid' hne'
      obtain ⟨c1, c2, c3, c4⟩ := hbnd'
      have horN : (s.tiles tid').from_row.toNat < s.row_number := by omega
      have hocN : (s.tiles tid').from_column.toNat < s.column_number := by omega
      refine ⟨by rw [hnext]; exact hlt', by rw [ht']; exact hfil', ?_, by rw [ht']; exact hrs',
        by rw [ht']; exact hcs', ?_⟩
      · rw [ht']
        simp only [InBoundsTile, hrow, hcol]
        exact ⟨c1, c2, c3, c4⟩
      · rw [ht']
        have hnotrect : ¬(fr ≤ ((s.tiles tid').from_row.toNat : Int) ∧
            ((s.tiles tid').from_row.toNat : Int) < fr + rs ∧
            fc ≤ ((s.tiles tid').from_column.toNat : Int) ∧
            ((s.tiles tid').from_column.toNat : Int) < fc + cs) := by
          rintro ⟨d1, d2, d3, d4⟩
          have hu := hrect_unit _ _ ⟨d1, d2, d3, d4⟩
          rw [horig'] at hu
          rw [hu] at hfil'
          simp at hfil'
        rw [hmap' _ _ horN hocN, if_neg hnotrect]
        exact horig'
    · -- the new pair
      have he : tid' = s.tile_map fr.toNat fc.toNat := by
        rcases List.mem_cons.mp hnew with h | h
        · exact h
        · exact absurd h (List.not_mem_nil _)
      subst he
      refine ⟨by rw [hnext]; exact hids fr.toNat hfrlt fc.toNat hfclt,
        by rw [htile_tid], ?_, ?_, ?_, ?_⟩
      · rw [htile_tid]
        simp only [InBoundsTile, hrow, hcol]
        refine ⟨by omega, by omega, by omega, by omega⟩
      · rw [htile_tid]
        show 1 ≤ rs
        exact hrs1
      · rw [htile_tid]
        show 1 ≤ cs
        exact hcs1
      · rw [htile_tid]
        show s'.tile_map fr.toNat fc.toNat = s.tile_map fr.toNat fc.toNat
        rw [hmap' _ _ hfrlt hfclt]
        have hrect : fr ≤ ((fr.toNat : Nat) : Int) ∧ ((fr.toNat : Nat) : Int) < fr + rs ∧
            fc ≤ ((fc.toNat : Nat) : Int) ∧ ((fc.toNat : Nat) : Int) < fc + cs := by
          refine ⟨by omega, by omega, by omega, by omega⟩
        rw [if_pos hrect]

/-- Shrinking a registered tile through `__splitTiles` preserves the
full invariant: the new rectangle is a sub-rectangle of positive spans
of the old one, and the shed cells (everything in the old rectangle
but not the new one) all receive fresh unfilled unit tiles. -/
theorem inv_shrink_apply (s : LayoutState) (tid : Nat) (fr2 fc2 rs2 cs2 : Int)
    (cells : List (Int × Int))
    (hinv : Inv s)
    (htid_mem : tid ∈ s.widget_t)
    (hnew_sub : (s.tiles tid).from_row ≤ fr2 ∧ (s.tiles tid).from_column ≤ fc2 ∧
      fr2 + rs2 ≤ (s.tiles tid).from_row + (s.tiles tid).row_span ∧
      fc2 + cs2 ≤ (s.tiles tid).from_column + (s.tiles tid).column_span)
    (hspans : 1 ≤ rs2 ∧ 1 ≤ cs2)
    (hcells_iff : ∀ x y : Int, ((x, y) ∈ cells ↔
      (((s.tiles tid).from_row ≤ x ∧ x < (s.tiles tid).from_row + (s.tiles tid).row_span ∧
        (s.tiles tid).from_column ≤ y ∧
        y < (s.tiles tid).from_column + (s.tiles tid).column_span) ∧
       ¬(fr2 ≤ x ∧ x < fr2 + rs2 ∧ fc2 ≤ y ∧ y < fc2 + cs2)))) :
    Inv (splitTiles s tid fr2 fc2 rs2 cs2 cells) := by
  obtain ⟨hpart, hids, hunf, hlen, hndw, hndt, hreg⟩ := hinv
  obtain ⟨htid_lt, hfil, hor_bounds, hors, hocs, horig⟩ := hreg tid htid_mem
  obtain ⟨b1, b2, b3, b4⟩ := hor_bounds
  obtain ⟨hn1, hn2, hn3, hn4⟩ := hnew_sub
  obtain ⟨hsp1, hsp2⟩ := hspans
  obtain ⟨hm1, hm2, hm3, hm4, hm5⟩ := splitCells_misc cells s
  have hMtid : (splitTiles s tid fr2 fc2 rs2 cs2 cells).tiles tid =
      ⟨fr2, fc2, rs2, cs2, (s.tiles tid).filled⟩ := by
    simp [splitTiles, splitCells_tiles_old cells s tid htid_lt]
  have hMne : ∀ i, i ≠ tid →
      (splitTiles s tid fr2 fc2 rs2 cs2 cells).tiles i = (splitCells s cells).tiles i := by
    intro i hi
    simp [splitTiles, hi]
  have hMrow : (splitTiles s tid fr2 fc2 rs2 cs2 cells).row_number = s.row_number := hm1
  have hMcol : (splitTiles s tid fr2 fc2 rs2 cs2 cells).column_number = s.column_number := hm2
  have hMnext : (splitTiles s tid fr2 fc2 rs2 cs2 cells).next_id =
      s.next_id + cells.length := hm5
  have hMww : (splitTiles s tid fr2 fc2 rs2 cs2 cells).widget_w = s.widget_w := hm3
  have hMwt : (splitTiles s tid fr2 fc2 rs2 cs2 cells).widget_t = s.widget_t := hm4
  have hkeep : ∀ r c : Nat, ((r : Int), (c : Int)) ∉ cells →
      (splitTiles s tid fr2 fc2 rs2 cs2 cells).tile_map r c = s.tile_map r c := by
    intro r c h
    exact splitCells_tile_map_not_mem cells s r c h
  have hfresh : ∀ r c : Nat, ((r : Int), (c : Int)) ∈ cells →
      (splitTiles s tid fr2 fc2 rs2 cs2 cells).tiles
        ((splitTiles s tid fr2 fc2 rs2 cs2 cells).tile_map r c) =
        ⟨(r : Int), (c : Int), 1, 1, false⟩ := by
    intro r c hmem
    obtain ⟨hge, hlt, hrec⟩ := splitCells_tile_map_mem cells s r c hmem
    have hne : (splitCells s cells).tile_map r c ≠ tid := by omega
    show (splitTiles s tid fr2 fc2 rs2 cs2 cells).tiles ((splitCells s cells).tile_map r c) = _
    rw [hMne _ hne]
    exact hrec
  have hfreshlt : ∀ r c : Nat, ((r : Int), (c : Int)) ∈ cells →
      (splitTiles s tid fr2 fc2 rs2 cs2 cells).tile_map r c <
        (splitTiles s tid fr2 fc2 rs2 cs2 cells).next_id := by
    intro r c hmem
    exact (splitCells_tile_map_mem cells s r c hmem).2.1
  have hold_map := tile_map_eq_of_mem_rect s tid hpart horig ⟨b1, b2, b3, b4⟩
  have hown_tid : ∀ r c : Nat, ((r : Int), (c : Int)) ∉ cells → s.tile_map r c = tid →
      (splitTiles s tid fr2 fc2 rs2 cs2 cells).tiles
        ((splitTiles s tid fr2 fc2 rs2 cs2 cells).tile_map r c) =
        ⟨fr2, fc2, rs2, cs2, (s.tiles tid).filled⟩ := by
    intro r c hmem htidc
    rw [hkeep r c hmem, htidc, hMtid]
  have hown_old : ∀ r c : Nat, r < s.row_number → c < s.column_number →
      ((r : Int), (c : Int)) ∉ cells → s.tile_map r c ≠ tid →
      (splitTiles s tid fr2 fc2 rs2 cs2 cells).tiles
        ((splitTiles s tid fr2 fc2 rs2 cs2 cells).tile_map r c) =
        s.tiles (s.tile_map r c) := by
    intro r c hr hc hmem htidc
    rw [hkeep r c hmem, hMne _ htidc]
    exact splitCells_tiles_old cells s _ (hids r hr c hc)
  have hnew_of_tid : ∀ r c : Nat, r < s.row_number → c < s.column_number →
      ((r : Int), (c : Int)) ∉ cells → s.tile_map r c = tid →
      (fr2 ≤ (r : Int) ∧ (r : Int) < fr2 + rs2 ∧ fc2 ≤ (c : Int) ∧ (c : Int) < fc2 + cs2) := by
    intro r c hr hc hmem htidc
    have hold := mem_rect_of_tile_map_eq s tid hpart r c hr hc htidc
    by_contra hnnew
    exact hmem ((hcells_iff _ _).mpr ⟨hold, hnnew⟩)
  refine ⟨?_, ?_, ?_, ?_, ?_, ?_, ?_⟩
  · -- Partition
    intro r hr c hc
    rw [hMrow] at hr
    rw [hMcol] at hc
    by_cases hmem : ((r : Int), (c : Int)) ∈ cells
    · refine ⟨?_, ?_, ?_⟩
      · simp only [owner]
        rw [hfresh r c hmem]
        simp only [Covers]
        omega
      · simp only [owner]
        rw [hfresh r c hmem]
        simp only [InBoundsTile]
        rw [hMrow, hMcol]
        refine ⟨by omega, by omega, by omega, by omega⟩
      · intro r' hr' c' hc' hcov
        rw [hMrow] at hr'
        rw [hMcol] at hc'
        by_cases hmem' : ((r' : Int), (c' : Int)) ∈ cells
        · simp only [owner] at hcov
          rw [hfresh r' c' hmem'] at hcov
          simp only [Covers] at hcov
          have he : r = r' ∧ c = c' := by omega
          rw [he.1, he.2]
        · by_cases htid' : s.tile_map r' c' = tid
          · simp only [owner] at hcov
            rw [hown_tid r' c' hmem' htid'] at hcov
            simp only [Covers] at hcov
            have hno := (hcells_iff (r : Int) (c : Int)).mp hmem
            exact absurd ⟨by omega, by omega, by omega, by omega⟩ hno.2
          · simp only [owner] at hcov
            rw [hown_old r' c' hr' hc' hmem' htid'] at hcov
            obtain ⟨_, _, huniq⟩ := hpart r hr c hc
            have heq := huniq r' hr' c' hc' hcov
            have hmapc : s.tile_map r c = tid :=
              hold_map r c ((hcells_iff (r : Int) (c : Int)).mp hmem).1
            rw [hmapc] at heq
            exact absurd heq.symm htid'
    · by_cases htidc : s.tile_map r c = tid
      · have hnew := hnew_of_tid r c hr hc hmem htidc
        refine ⟨?_, ?_, ?_⟩
        · simp only [owner]
          rw [hown_tid r c hmem htidc]
          simp only [Covers]
          omega
        · simp only [owner]
          rw [hown_tid r c hmem htidc]
          simp only [InBoundsTile]
          rw [hMrow, hMcol]
          refine ⟨by omega, by omega, by omega, by omega⟩
        · intro r' hr' c' hc' hcov
          rw [hMrow] at hr'
          rw [hMcol] at hc'
          by_cases hmem' : ((r' : Int), (c' : Int)) ∈ cells
          · simp only [owner] at hcov
            rw [hfresh r' c' hmem'] at hcov
            simp only [Covers] at hcov
            have he : r = r' ∧ c = c' := by omega
            rw [he.1] at hmem
            rw [he.2] at hmem
            exact absurd hmem' hmem
          · by_cases htid' : s.tile_map r' c' = tid
            · rw [hkeep r c hmem, hkeep r' c' hmem', htidc, htid']
            · simp only [owner] at hcov
              rw [hown_old r' c' hr' hc' hmem' htid'] at hcov
              obtain ⟨_, _, huniq⟩ := hpart r hr c hc
              have heq := huniq r' hr' c' hc' hcov
              rw [htidc] at heq
              exact absurd heq.symm htid'
      · refine ⟨?_, ?_, ?_⟩
        · simp only [owner]
          rw [hown_old r c hr hc hmem htidc]
          obtain ⟨hcov0, _, _⟩ := hpart r hr c hc
          simp only [owner] at hcov0
          exact hcov0
        · simp only [owner]
          rw [hown_old r c hr hc hmem htidc]
          obtain ⟨_, hbnd0, _⟩ := hpart r hr c hc
          simp only [owner] at hbnd0
          simp only [InBoundsTile] at hbnd0 ⊢
          rw [hMrow, hMcol]
          exact hbnd0
        · intro r' hr' c' hc' hcov
          rw [hMrow] at hr'
          rw [hMcol] at hc'
          by_cases hmem' : ((r' : Int), (c' : Int)) ∈ cells
          · simp only [owner] at hcov
            rw [hfresh r' c' hmem'] at hcov
            simp only [Covers] at hcov
            have he : r = r' ∧ c = c' := by omega
            rw [he.1] at hmem
            rw [he.2] at hmem
            exact absurd hmem' hmem
          · by_cases htid' : s.tile_map r' c' = tid
            · simp only [owner] at hcov
              rw [hown_tid r' c' hmem' htid'] at hcov
              simp only [Covers] at hcov
              have hold : (s.tiles tid).from_row ≤ (r : Int) ∧
                  (r : Int) < (s.tiles tid).from_row + (s.tiles tid).row_span ∧
                  (s.tiles tid).from_column ≤ (c : Int) ∧
                  (c : Int) < (s.tiles tid).from_column + (s.tiles tid).column_span := by
                refine ⟨by omega, by omega, by omega, by omega⟩
              exact absurd (hold_map r c hold) htidc
            · simp only [owner] at hcov
              rw [hown_old r' c' hr' hc' hmem' htid'] at hcov
              obtain ⟨_, _, huniq0⟩ := hpart r hr c hc
              rw [hkeep r c hmem, hkeep r' c' hmem']
              exact huniq0 r' hr' c' hc' hcov
  · -- ids
    intro r hr c hc
    rw [hMrow] at hr
    rw [hMcol] at hc
    by_cases hmem : ((r : Int), (c : Int)) ∈ cells
    · exact hfreshlt r c hmem
    · rw [hkeep r c hmem, hMnext]
      have := hids r hr c hc
      omega
  · -- unfilled-unit
    intro r hr c hc hunf'
    rw [hMrow] at hr
    rw [hMcol] at hc
    by_cases hmem : ((r : Int), (c : Int)) ∈ cells
    · simp only [owner]
      exact hfresh r c hmem
    · by_cases htidc : s.tile_map r c = tid
      · simp only [owner] at hunf'
        rw [hown_tid r c hmem htidc] at hunf'
        have hcontra : (s.tiles tid).filled = false := hunf'
        rw [hfil] at hcontra
        exact absurd hcontra (by decide)
      · simp only [owner] at hunf' ⊢
        rw [hown_old r c hr hc hmem htidc] at hunf' ⊢
        have := hunf r hr c hc
        simp only [owner] at this
        exact this hunf'
  · rw [hMww, hMwt]
    exact hlen
  · rw [hMww]
    exact hndw
  · rw [hMwt]
    exact hndt
  · -- registry
    intro tid' htid'
    rw [hMwt] at htid'
    by_cases he : tid' = tid
    · subst he
      have hfr2N : ((fr2.toNat : Nat) : Int) = fr2 := by omega
      have hfc2N : ((fc2.toNat : Nat) : Int) = fc2 := by omega
      refine ⟨by rw [hMnext]; omega, ?_, ?_, ?_, ?_, ?_⟩
      · rw [hMtid]
        exact hfil
      · rw [hMtid]
        simp only [InBoundsTile]
        rw [hMrow, hMcol]
        refine ⟨by omega, by omega, by omega, by omega⟩
      · rw [hMtid]
        show 1 ≤ rs2
        exact hsp1
      · rw [hMtid]
        show 1 ≤ cs2
        exact hsp2
      · rw [hMtid]
        show (splitTiles s tid' fr2 fc2 rs2 cs2 cells).tile_map fr2.toNat fc2.toNat = tid'
        have hnotmem : ((fr2.toNat : Int), (fc2.toNat : Int)) ∉ cells := by
          intro hmem
          have := (hcells_iff _ _).mp hmem
          exact this.2 ⟨by omega, by omega, by omega, by omega⟩
        rw [hkeep _ _ hnotmem]
        apply hold_map
        refine ⟨by omega, by omega, by omega, by omega⟩
    · obtain ⟨hlt', hfil', hbnd', hrs', hcs', horig'⟩ := hreg tid' htid'
      obtain ⟨c1, c2, c3, c4⟩ := hbnd'
      have ht' : (splitTiles s tid fr2 fc2 rs2 cs2 cells).tiles tid' = s.tiles tid' := by
        rw [hMne _ he]
        exact splitCells_tiles_old cells s tid' hlt'
      have hnm' : (((s.tiles tid').from_row.toNat : Int),
          ((s.tiles tid').from_column.toNat : Int)) ∉ cells := by
        intro hmem
        have hold := ((hcells_iff _ _).mp hmem).1
        have hmapo := hold_map (s.tiles tid').from_row.toNat (s.tiles tid').from_column.toNat hold
        rw [horig'] at hmapo
        exact he hmapo
      refine ⟨by rw [hMnext]; omega, by rw [ht']; exact hfil', ?_, by rw [ht']; exact hrs',
        by rw [ht']; exact hcs', ?_⟩
      · rw [ht']
        simp only [InBoundsTile]
        rw [hMrow, hMcol]
        exact ⟨c1, c2, c3, c4⟩
      · rw [ht']
        rw [hkeep _ _ hnm']
        exact horig'

/-- A successful removal preserves the full invariant: the widget's
tile is owner-closed (its rectangle is exactly its cells), so
unit-splitting the rectangle restores a partition, and the registry
pair is popped consistently. -/
theorem inv_removeWidget (s : LayoutState) (w : Nat) (s' : LayoutState)
    (hinv : Inv s) (hok : removeWidget s w = .ok s') : Inv s' := by
  have hI := hinv
  obtain ⟨hpart, hids, hunf, hlen, hndw, hndt, hreg⟩ := hI
  obtain ⟨hw, hspec⟩ := removeWidget_ok_spec s w s' hok
  obtain ⟨hassert, hrow, hcol, hnext, hww, hwt, hmp, htl⟩ := hspec _ rfl _ rfl
  have hidx : List.indexOf w s.widget_w < s.widget_w.length := List.indexOf_lt_length.mpr hw
  have hidx_t : List.indexOf w s.widget_w < s.widget_t.length := by
    rw [← hlen]
    exact hidx
  have htid_mem : s.widget_t.getD (List.indexOf w s.widget_w) 0 ∈ s.widget_t := by
    rw [List.getD_eq_getElem _ _ hidx_t]
    exact List.getElem_mem _
  obtain ⟨htid_lt, hfil, hbnd, hrso, hcso, horig⟩ := hreg _ htid_mem
  obtain ⟨b1, b2, b3, b4⟩ := hbnd
  have hold_map := tile_map_eq_of_mem_rect s (s.widget_t.getD (List.indexOf w s.widget_w) 0)
    hpart horig ⟨b1, b2, b3, b4⟩
  have hin : ∀ p ∈ rectCells
      (s.tiles (s.widget_t.getD (List.indexOf w s.widget_w) 0)).from_row
      (s.tiles (s.widget_t.getD (List.indexOf w s.widget_w) 0)).from_column
      (s.tiles (s.widget_t.getD (List.indexOf w s.widget_w) 0)).row_span
      (s.tiles (s.widget_t.getD (List.indexOf w s.widget_w) 0)).column_span,
      0 ≤ p.1 ∧ p.1 < (s.row_number : Int) ∧ 0 ≤ p.2 ∧ p.2 < (s.column_number : Int) := by
    intro p hp
    obtain ⟨e1, e2, e3, e4⟩ := mem_rectCells.mp hp
    refine ⟨by omega, by omega, by omega, by omega⟩
  have hclosed : ∀ p ∈ rectCells
      (s.tiles (s.widget_t.getD (List.indexOf w s.widget_w) 0)).from_row
      (s.tiles (s.widget_t.getD (List.indexOf w s.widget_w) 0)).from_column
      (s.tiles (s.widget_t.getD (List.indexOf w s.widget_w) 0)).row_span
      (s.tiles (s.widget_t.getD (List.indexOf w s.widget_w) 0)).column_span,
      ∀ r c : Nat, r < s.row_number → c < s.column_number →
      s.tile_map r c = s.tile_map p.1.toNat p.2.toNat →
      ((r : Int), (c : Int)) ∈ rectCells
        (s.tiles (s.widget_t.getD (List.indexOf w s.widget_w) 0)).from_row
        (s.tiles (s.widget_t.getD (List.indexOf w s.widget_w) 0)).from_column
        (s.tiles (s.widget_t.getD (List.indexOf w s.widget_w) 0)).row_span
        (s.tiles (s.widget_t.getD (List.indexOf w s.widget_w) 0)).column_span := by
    intro p hp r c hr hc he
    obtain ⟨e1, e2, e3, e4⟩ := mem_rectCells.mp hp
    have hpmap : s.tile_map p.1.toNat p.2.toNat =
        s.widget_t.getD (List.indexOf w s.widget_w) 0 := by
      apply hold_map
      refine ⟨by omega, by omega, by omega, by omega⟩
    rw [hpmap] at he
    have := mem_rect_of_tile_map_eq s _ hpart r c hr hc he
    rw [mem_rectCells]
    exact this
  obtain ⟨hP, hIds, hUnf, hReg⟩ := inv_splitCells s _ hinv hin hclosed
  obtain ⟨hm1, hm2, hm3, hm4, hm5⟩ := splitCells_misc
    (rectCells (s.tiles (s.widget_t.getD (List.indexOf w s.widget_w) 0)).from_row
      (s.tiles (s.widget_t.getD (List.indexOf w s.widget_w) 0)).from_column
      (s.tiles (s.widget_t.getD (List.indexOf w s.widget_w) 0)).row_span
      (s.tiles (s.widget_t.getD (List.indexOf w s.widget_w) 0)).column_span) s
  refine ⟨?_, ?_, ?_, ?_, ?_, ?_, ?_⟩
  · -- Partition
    apply partition_congr _ s' (by rw [hrow, ← hm1]) (by rw [hcol, ← hm2]) htl hmp
    exact hP
  · -- ids
    intro r hr c hc
    rw [hrow] at hr
    rw [hcol] at hc
    rw [hmp, hnext]
    have := hIds r hr c hc
    rw [hm5] at this
    exact this
  · -- unfilled-unit
    intro r hr c hc hf
    rw [hrow] at hr
    rw [hcol] at hc
    simp only [owner, htl, hmp] at hf ⊢
    have := hUnf r hr c hc
    simp only [owner] at this
    exact this hf
  · rw [hww, hwt, List.length_eraseIdx_of_lt hidx, List.length_eraseIdx_of_lt hidx_t, hlen]
  · rw [hww]
    exact List.Nodup.eraseIdx _ hndw
  · rw [hwt]
    exact List.Nodup.eraseIdx _ hndt
  · -- registry
    intro tid' htid'
    rw [hwt] at htid'
    have htid'_mem : tid' ∈ s.widget_t :=
      (List.eraseIdx_sublist _ _).subset htid'
    obtain ⟨i, hi, hine, hget⟩ := List.mem_eraseIdx_iff_getElem.mp htid'
    have hne : tid' ≠ s.widget_t.getD (List.indexOf w s.widget_w) 0 := by
      intro he
      apply hine
      apply (List.Nodup.getElem_inj_iff hndt).mp
      rw [hget, he, List.getD_eq_getElem _ _ hidx_t]
    obtain ⟨c1, c2, c3, c4⟩ : InBoundsTile s (s.tiles tid') := (hreg tid' htid'_mem).2.2.1
    have hnotin : (((s.tiles tid').from_row, (s.tiles tid').from_column) : Int × Int) ∉
        rectCells (s.tiles (s.widget_t.getD (List.indexOf w s.widget_w) 0)).from_row
          (s.tiles (s.widget_t.getD (List.indexOf w s.widget_w) 0)).from_column
          (s.tiles (s.widget_t.getD (List.indexOf w s.widget_w) 0)).row_span
          (s.tiles (s.widget_t.getD (List.indexOf w s.widget_w) 0)).column_span := by
      intro hmemo
      obtain ⟨e1, e2, e3, e4⟩ := mem_rectCells.mp hmemo
      have horig' := (hreg tid' htid'_mem).2.2.2.2.2
      have hmapo : s.tile_map (s.tiles tid').from_row.toNat (s.tiles tid').from_column.toNat =
          s.widget_t.getD (List.indexOf w s.widget_w) 0 := by
        apply hold_map
        refine ⟨by omega, by omega, by omega, by omega⟩
      rw [horig'] at hmapo
      exact hne hmapo
    obtain ⟨f1, f2, f3, f4, f5, f6⟩ := hReg tid' htid'_mem hnotin
    have htl' : s'.tiles tid' = (splitCells s
        (rectCells (s.tiles (s.widget_t.getD (List.indexOf w s.widget_w) 0)).from_row
          (s.tiles (s.widget_t.getD (List.indexOf w s.widget_w) 0)).from_column
          (s.tiles (s.widget_t.getD (List.indexOf w s.widget_w) 0)).row_span
          (s.tiles (s.widget_t.getD (List.indexOf w s.widget_w) 0)).column_span)).tiles tid' := by
      rw [htl]
    refine ⟨?_, ?_, ?_, ?_, ?_, ?_⟩
    · rw [hnext]
      rw [hm5] at f1
      exact f1
    · rw [htl']
      exact f2
    · obtain ⟨d1, d2, d3, d4⟩ := f3
      rw [htl']
      refine ⟨d1, d2, ?_, ?_⟩
      · show _ ≤ (s'.row_number : Int)
        rw [hrow, ← hm1]
        exact d3
      · show _ ≤ (s'.column_number : Int)
        rw [hcol, ← hm2]
        exact d4
    · rw [htl']
      exact f4
    · rw [htl']
      exact f5
    · rw [htl', hmp]
      exact f6

/-- A valid direct `hardSplitTiles` call preserves the full invariant:
the listed cells are unfilled unit tiles, so re-splitting them is
owner-closed. -/
theorem inv_hardSplitTiles (s : LayoutState) (fr fc : Int) (cells : List (Int × Int))
    (res : Nat × LayoutState) (hinv : Inv s) (hvalid : ValidHardSplit s cells)
    (hok : hardSplitTiles s fr fc cells = some res) : Inv res.2 := by
  have hI := hinv
  obtain ⟨hpart, hids, hunf, hlen, hndw, hndt, hreg⟩ := hI
  unfold hardSplitTiles at hok
  by_cases hmem : ((fr, fc) : Int × Int) ∈ cells
  swap
  · rw [if_neg hmem] at hok
    exact absurd hok (by simp)
  rw [if_pos hmem] at hok
  simp only [Option.some.injEq] at hok
  subst hok
  show Inv (splitCells s cells)
  have hin : ∀ p ∈ cells, 0 ≤ p.1 ∧ p.1 < (s.row_number : Int) ∧
      0 ≤ p.2 ∧ p.2 < (s.column_number : Int) := by
    intro p hp
    obtain ⟨g1, g2, g3, g4, _⟩ := hvalid p hp
    exact ⟨g1, g2, g3, g4⟩
  have hclosed : ∀ p ∈ cells, ∀ r c : Nat, r < s.row_number → c < s.column_number →
      s.tile_map r c = s.tile_map p.1.toNat p.2.toNat → ((r : Int), (c : Int)) ∈ cells := by
    intro p hp r c hr hc he
    obtain ⟨g1, g2, g3, g4, g5⟩ := hvalid p hp
    have hpr : p.1.toNat < s.row_number := by omega
    have hpc : p.2.toNat < s.column_number := by omega
    have hu := hunf p.1.toNat hpr p.2.toNat hpc
    simp only [owner] at hu
    have hurec := hu g5
    obtain ⟨hcov, _, _⟩ := hpart r hr c hc
    simp only [owner, he, hurec, Covers] at hcov
    have he1 : (r : Int) = p.1 := by omega
    have he2 : (c : Int) = p.2 := by omega
    rw [he1, he2, Prod.mk.eta]
    exact hp
  obtain ⟨hP, hIds, hUnf, hReg⟩ := inv_splitCells s cells hinv hin hclosed
  obtain ⟨hm1, hm2, hm3, hm4, hm5⟩ := splitCells_misc cells s
  refine ⟨hP, ?_, ?_, ?_, ?_, ?_, ?_⟩
  · intro r hr c hc
    rw [hm1] at hr
    rw [hm2] at hc
    exact hIds r hr c hc
  · intro r hr c hc
    rw [hm1] at hr
    rw [hm2] at hc
    exact hUnf r hr c hc
  · rw [hm3, hm4]
    exact hlen
  · rw [hm3]
    exact hndw
  · rw [hm4]
    exact hndt
  · intro tid htid
    rw [hm4] at htid
    have hnotin : (((s.tiles tid).from_row, (s.tiles tid).from_column) : Int × Int) ∉ cells := by
      intro hmemo
      obtain ⟨_, hfil', _⟩ := hreg tid htid
      obtain ⟨_, _, _, _, g5⟩ := hvalid _ hmemo
      have horig' := (hreg tid htid).2.2.2.2.2
      have g5' : (s.tiles (s.tile_map (s.tiles tid).from_row.toNat
          (s.tiles tid).from_column.toNat)).filled = false := g5
      rw [horig'] at g5'
      rw [hfil'] at g5'
      exact absurd g5' (by decide)
    exact hReg tid htid hnotin

/-- A completed valid resize preserves the full invariant: a growth
request absorbs a free rectangle beyond the moving edge into the
anchor tile, a shrink request sheds a sub-rectangle adjacent to the
moving edge into fresh unit tiles, and in both cases the result is
again a partition with consistent bookkeeping. -/
theorem inv_resizeTile (s : LayoutState) (dx dy fr fc n : Int) (s' : LayoutState)
    (ev : Option ResizeEvent) (hinv : Inv s) (hvr : ValidResize s dx dy fr fc)
    (hx : resizeTile s dx dy fr fc n = some (s', ev)) : Inv s' := by
  obtain ⟨hdir, hfr0, hfrR, hfc0, hfcC, hofr, hofc⟩ := hvr
  have hI := hinv
  obtain ⟨hpart, hids, hunf, hlen, hndw, hndt, hregf⟩ := hI
  by_cases hinc : 0 < n * (dx + dy)
  · rcases resizeTile_grow_cases s dx dy fr fc n s' ev hinc hx with ⟨_, rfl, _⟩ | ⟨hne2, hmem, rfl⟩
    · exact hinv
    · obtain ⟨htid_lt, hfil, hbnd, hors, hocs, horig⟩ := hregf _ hmem
      obtain ⟨b1, b2, b3, b4⟩ := hbnd
      rcases hdir with h | h | h | h
      · -- grow east (1, 0)
        rw [Prod.mk.injEq] at h
        obtain ⟨h1, h2⟩ := h
        subst h1
        subst h2
        obtain ⟨g, hgdef⟩ : ∃ g : Nat, g = specFreeRun s
            (specStrip 1 0 fr fc (s.tiles (s.tile_map fr.toNat fc.toNat)).row_span
              (s.tiles (s.tile_map fr.toNat fc.toNat)).column_span)
            (specClamp s 1 0 fr fc (s.tiles (s.tile_map fr.toNat fc.toNat)).row_span
              (s.tiles (s.tile_map fr.toNat fc.toNat)).column_span n).toNat := ⟨_, rfl⟩
        obtain ⟨hfst, hsnd⟩ := getTilesToMerge_east s fr fc n _ _ g rfl rfl hgdef
        have hsnd' : ∀ x y : Int, ((x, y) ∈ (getTilesToMerge s 1 0 fr fc n).2 ↔
            (fr ≤ x ∧ x < fr + (s.tiles (s.tile_map fr.toNat fc.toNat)).row_span ∧
             fc + (s.tiles (s.tile_map fr.toNat fc.toNat)).column_span ≤ y ∧
             y < fc + (s.tiles (s.tile_map fr.toNat fc.toNat)).column_span + (g : Int))) :=
          fun x y => hsnd (x, y)
        have hgle : (g : Int) ≤ (s.column_number : Int) - fc -
            (s.tiles (s.tile_map fr.toNat fc.toNat)).column_span := by
          have hle : g ≤ (specClamp s 1 0 fr fc
              (s.tiles (s.tile_map fr.toNat fc.toNat)).row_span
              (s.tiles (s.tile_map fr.toNat fc.toNat)).column_span n).toNat := by
            rw [hgdef]
            exact (specFreeRun_facts s _ _).1
          have hcl : specClamp s 1 0 fr fc
              (s.tiles (s.tile_map fr.toNat fc.toNat)).row_span
              (s.tiles (s.tile_map fr.toNat fc.toNat)).column_span n =
              min n ((s.column_number : Int) - fc -
                (s.tiles (s.tile_map fr.toNat fc.toNat)).column_span) := rfl
          rw [hcl] at hle
          omega
        have hb0 : bi ((0 : Int) = -1) = 0 := rfl
        have hb1 : bi ((1 : Int) = -1) = 0 := rfl
        rw [hb0, hb1, hfst]
        have e1 : fr + (g : Int) * 0 = fr := by ring
        have e2 : fc + (g : Int) * 0 = fc := by ring
        have e3 : (s.tiles (s.tile_map fr.toNat fc.toNat)).row_span + (g : Int) * 0 =
            (s.tiles (s.tile_map fr.toNat fc.toNat)).row_span := by ring
        have e4 : (s.tiles (s.tile_map fr.toNat fc.toNat)).column_span + (g : Int) * 1 =
            (s.tiles (s.tile_map fr.toNat fc.toNat)).column_span + (g : Int) := by ring
        rw [e1, e2, e3, e4]
        refine inv_grow_apply s (s.tile_map fr.toNat fc.toNat) fr fc _ _ _ hinv hmem
          ⟨by omega, by omega, by omega, by omega⟩
          ⟨by omega, by omega, by omega, by omega⟩ ?_ ?_
          (getTilesToMerge_snd_unfilled s 1 0 fr fc n)
        · intro x y hxy
          obtain ⟨k1, k2, k3, k4⟩ := (hsnd' x y).mp hxy
          refine ⟨by omega, by omega, by omega, by omega⟩
        · intro x y hnewr hnold
          exact (hsnd' x y).mpr ⟨by omega, by omega, by omega, by omega⟩
      · -- grow west (-1, 0)
        rw [Prod.mk.injEq] at h
        obtain ⟨h1, h2⟩ := h
        subst h1
        subst h2
        obtain ⟨g, hgdef⟩ : ∃ g : Nat, g = specFreeRun s
            (specStrip (-1) 0 fr fc (s.tiles (s.tile_map fr.toNat fc.toNat)).row_span
              (s.tiles (s.tile_map fr.toNat fc.toNat)).column_span)
            (specClamp s (-1) 0 fr fc (s.tiles (s.tile_map fr.toNat fc.toNat)).row_span
              (s.tiles (s.tile_map fr.toNat fc.toNat)).column_span n).toNat := ⟨_, rfl⟩
        obtain ⟨hfst, hsnd⟩ := getTilesToMerge_west s fr fc n _ _ g rfl rfl hgdef
        have hsnd' : ∀ x y : Int, ((x, y) ∈ (getTilesToMerge s (-1) 0 fr fc n).2 ↔
            (fr ≤ x ∧ x < fr + (s.tiles (s.tile_map fr.toNat fc.toNat)).row_span ∧
             fc - (g : Int) ≤ y ∧ y < fc)) :=
          fun x y => hsnd (x, y)
        have hgle : (g : Int) ≤ fc := by
          have hle : g ≤ (specClamp s (-1) 0 fr fc
              (s.tiles (s.tile_map fr.toNat fc.toNat)).row_span
              (s.tiles (s.tile_map fr.toNat fc.toNat)).column_span n).toNat := by
            rw [hgdef]
            exact (specFreeRun_facts s _ _).1
          have hcl : specClamp s (-1) 0 fr fc
              (s.tiles (s.tile_map fr.toNat fc.toNat)).row_span
              (s.tiles (s.tile_map fr.toNat fc.toNat)).column_span n = min (-n) fc := rfl
          rw [hcl] at hle
          omega
        have hb0 : bi ((0 : Int) = -1) = 0 := rfl
        have hbm : bi ((-1 : Int) = -1) = 1 := rfl
        rw [hb0, hbm, hfst]
        have e1 : fr + -(g : Int) * 0 = fr := by ring
        have e2 : fc + -(g : Int) * 1 = fc - (g : Int) := by ring
        have e3 : (s.tiles (s.tile_map fr.toNat fc.toNat)).row_span + -(g : Int) * 0 =
            (s.tiles (s.tile_map fr.toNat fc.toNat)).row_span := by ring
        have e4 : (s.tiles (s.tile_map fr.toNat fc.toNat)).column_span + -(g : Int) * -1 =
            (s.tiles (s.tile_map fr.toNat fc.toNat)).column_span + (g : Int) := by ring
        rw [e1, e2, e3, e4]
        refine inv_grow_apply s (s.tile_map fr.toNat fc.toNat) fr (fc - (g : Int)) _ _ _
          hinv hmem
          ⟨by omega, by omega, by omega, by omega⟩
          ⟨by omega, by omega, by omega, by omega⟩ ?_ ?_
          (getTilesToMerge_snd_unfilled s (-1) 0 fr fc n)
        · intro x y hxy
          obtain ⟨k1, k2, k3, k4⟩ := (hsnd' x y).mp hxy
          refine ⟨by omega, by omega, by omega, by omega⟩
        · intro x y hnewr hnold
          exact (hsnd' x y).mpr ⟨by omega, by omega, by omega, by omega⟩
      · -- grow south (0, 1)
        rw [Prod.mk.injEq] at h
        obtain ⟨h1, h2⟩ := h
        subst h1
        subst h2
        obtain ⟨g, hgdef⟩ : ∃ g : Nat, g = specFreeRun s
            (specStrip 0 1 fr fc (s.tiles (s.tile_map fr.toNat fc.toNat)).row_span
              (s.tiles (s.tile_map fr.toNat fc.toNat)).column_span)
            (specClamp s 0 1 fr fc (s.tiles (s.tile_map fr.toNat fc.toNat)).row_span
              (s.tiles (s.tile_map fr.toNat fc.toNat)).column_span n).toNat := ⟨_, rfl⟩
        obtain ⟨hfst, hsnd⟩ := getTilesToMerge_south s fr fc n _ _ g rfl rfl hgdef
        have hsnd' : ∀ x y : Int, ((x, y) ∈ (getTilesToMerge s 0 1 fr fc n).2 ↔
            (fr + (s.tiles (s.tile_map fr.toNat fc.toNat)).row_span ≤ x ∧
             x < fr + (s.tiles (s.tile_map fr.toNat fc.toNat)).row_span + (g : Int) ∧
             fc ≤ y ∧ y < fc + (s.tiles (s.tile_map fr.toNat fc.toNat)).column_span)) :=
          fun x y => hsnd (x, y)
        have hgle : (g : Int) ≤ (s.row_number : Int) - fr -
            (s.tiles (s.tile_map fr.toNat fc.toNat)).row_span := by
          have hle : g ≤ (specClamp s 0 1 fr fc
              (s.tiles (s.tile_map fr.toNat fc.toNat)).row_span
              (s.tiles (s.tile_map fr.toNat fc.toNat)).column_span n).toNat := by
            rw [hgdef]
            exact (specFreeRun_facts s _ _).1
          have hcl : specClamp s 0 1 fr fc
              (s.tiles (s.tile_map fr.toNat fc.toNat)).row_span
              (s.tiles (s.tile_map fr.toNat fc.toNat)).column_span n =
              min n ((s.row_number : Int) - fr -
                (s.tiles (s.tile_map fr.toNat fc.toNat)).row_span) := rfl
          rw [hcl] at hle
          omega
        have hb0 : bi ((0 : Int) = -1) = 0 := rfl
        have hb1 : bi ((1 : Int) = -1) = 0 := rfl
        rw [hb1, hb0, hfst]
        have e1 : fr + (g : Int) * 0 = fr := by ring
        have e2 : fc + (g : Int) * 0 = fc := by ring
        have e3 : (s.tiles (s.tile_map fr.toNat fc.toNat)).row_span + (g : Int) * 1 =
            (s.tiles (s.tile_map fr.toNat fc.toNat)).row_span + (g : Int) := by ring
        have e4 : (s.tiles (s.tile_map fr.toNat fc.toNat)).column_span + (g : Int) * 0 =
            (s.tiles (s.tile_map fr.toNat fc.toNat)).column_span := by ring
        rw [e1, e2, e3, e4]
        refine inv_grow_apply s (s.tile_map fr.toNat fc.toNat) fr fc _ _ _ hinv hmem
          ⟨by omega, by omega, by omega, by omega⟩
          ⟨by omega, by omega, by omega, by omega⟩ ?_ ?_
          (getTilesToMerge_snd_unfilled s 0 1 fr fc n)
        · intro x y hxy
          obtain ⟨k1, k2, k3, k4⟩ := (hsnd' x y).mp hxy
          refine ⟨by omega, by omega, by omega, by omega⟩
        · intro x y hnewr hnold
          exact (hsnd' x y).mpr ⟨by omega, by omega, by omega, by omega⟩
      · -- grow north (0, -1)
        rw [Prod.mk.injEq] at h
        obtain ⟨h1, h2⟩ := h
        subst h1
        subst h2
        obtain ⟨g, hgdef⟩ : ∃ g : Nat, g = specFreeRun s
            (specStrip 0 (-1) fr fc (s.tiles (s.tile_map fr.toNat fc.toNat)).row_span
              (s.tiles (s.tile_map fr.toNat fc.toNat)).column_span)
            (specClamp s 0 (-1) fr fc (s.tiles (s.tile_map fr.toNat fc.toNat)).row_span
              (s.tiles (s.tile_map fr.toNat fc.toNat)).column_span n).toNat := ⟨_, rfl⟩
        obtain ⟨hfst, hsnd⟩ := getTilesToMerge_north s fr fc n _ _ g rfl rfl hgdef
        have hsnd' : ∀ x y : Int, ((x, y) ∈ (getTilesToMerge s 0 (-1) fr fc n).2 ↔
            (fr - (g : Int) ≤ x ∧ x < fr ∧ fc ≤ y ∧
             y < fc + (s.tiles (s.tile_map fr.toNat fc.toNat)).column_span)) :=
          fun x y => hsnd (x, y)
        have hgle : (g : Int) ≤ fr := by
          have hle : g ≤ (specClamp s 0 (-1) fr fc
              (s.tiles (s.tile_map fr.toNat fc.toNat)).row_span
              (s.tiles (s.tile_map fr.toNat fc.toNat)).column_span n).toNat := by
            rw [hgdef]
            exact (specFreeRun_facts s _ _).1
          have hcl : specClamp s 0 (-1) fr fc
              (s.tiles (s.tile_map fr.toNat fc.toNat)).row_span
              (s.tiles (s.tile_map fr.toNat fc.toNat)).column_span n = min (-n) fr := rfl
          rw [hcl] at hle
          omega
        have hbm : bi ((-1 : Int) = -1) = 1 := rfl
        have hb0 : bi ((0 : Int) = -1) = 0 := rfl
        rw [hbm, hb0, hfst]
        have e1 : fr + -(g : Int) * 1 = fr - (g : Int) := by ring
        have e2 : fc + -(g : Int) * 0 = fc := by ring
        have e3 : (s.tiles (s.tile_map fr.toNat fc.toNat)).row_span + -(g : Int) * -1 =
            (s.tiles (s.tile_map fr.toNat fc.toNat)).row_span + (g : Int) := by ring
        have e4 : (s.tiles (s.tile_map fr.toNat fc.toNat)).column_span + -(g : Int) * 0 =
            (s.tiles (s.tile_map fr.toNat fc.toNat)).column_span := by ring
        rw [e1, e2, e3, e4]
        refine inv_grow_apply s (s.tile_map fr.toNat fc.toNat) (fr - (g : Int)) fc _ _ _
          hinv hmem
          ⟨by omega, by omega, by omega, by omega⟩
          ⟨by omega, by omega, by omega, by omega⟩ ?_ ?_
          (getTilesToMerge_snd_unfilled s 0 (-1) fr fc n)
        · intro x y hxy
          obtain ⟨k1, k2, k3, k4⟩ := (hsnd' x y).mp hxy
          refine ⟨by omega, by omega, by omega, by omega⟩
        · intro x y hnewr hnold
          exact (hsnd' x y).mpr ⟨by omega, by omega, by omega, by omega⟩
  · rcases resizeTile_shrink_cases s dx dy fr fc n s' ev hinc hx with
      ⟨_, rfl, _⟩ | ⟨hne2, hmem, rfl⟩
    · exact hinv
    · obtain ⟨htid_lt, hfil, hbnd, hors, hocs, horig⟩ := hregf _ hmem
      obtain ⟨b1, b2, b3, b4⟩ := hbnd
      rcases hdir with h | h | h | h
      · -- shrink with direction east (1, 0)
        rw [Prod.mk.injEq] at h
        obtain ⟨h1, h2⟩ := h
        subst h1
        subst h2
        have h' : n * (1 + 0) = n := by ring
        rw [h'] at hinc
        have hn : n ≤ 0 := by omega
        obtain ⟨k, hkdef⟩ : ∃ k : Int, k = min (-n)
            ((s.tiles (s.tile_map fr.toNat fc.toNat)).column_span - 1) := ⟨_, rfl⟩
        obtain ⟨hfst, hsnd⟩ := getTilesToSplit_east s fr fc n _ _ k rfl rfl hors hocs hn hkdef
        have hsnd' : ∀ x y : Int, ((x, y) ∈ (getTilesToSplit s 1 0 fr fc n).2 ↔
            (fr ≤ x ∧ x < fr + (s.tiles (s.tile_map fr.toNat fc.toNat)).row_span ∧
             fc + (s.tiles (s.tile_map fr.toNat fc.toNat)).column_span - k ≤ y ∧
             y < fc + (s.tiles (s.tile_map fr.toNat fc.toNat)).column_span)) :=
          fun x y => hsnd (x, y)
        have hb0 : bi ((0 : Int) = -1) = 0 := rfl
        have hb1 : bi ((1 : Int) = -1) = 0 := rfl
        rw [hb0, hb1, hfst]
        have e1 : fr + -k * 0 = fr := by ring
        have e2 : fc + -k * 0 = fc := by ring
        have e3 : (s.tiles (s.tile_map fr.toNat fc.toNat)).row_span + -k * 0 =
            (s.tiles (s.tile_map fr.toNat fc.toNat)).row_span := by ring
        have e4 : (s.tiles (s.tile_map fr.toNat fc.toNat)).column_span + -k * 1 =
            (s.tiles (s.tile_map fr.toNat fc.toNat)).column_span - k := by ring
        rw [e1, e2, e3, e4]
        refine inv_shrink_apply s (s.tile_map fr.toNat fc.toNat) fr fc _ _ _ hinv hmem
          ⟨by omega, by omega, by omega, by omega⟩ ⟨by omega, by omega⟩ ?_
        intro x y
        constructor
        · intro hxy
          obtain ⟨k1, k2, k3, k4⟩ := (hsnd' x y).mp hxy
          refine ⟨⟨by omega, by omega, by omega, by omega⟩, ?_⟩
          intro hnew
          omega
        · rintro ⟨hold, hnnew⟩
          exact (hsnd' x y).mpr ⟨by omega, by omega, by omega, by omega⟩
      · -- shrink with direction west (-1, 0)
        rw [Prod.mk.injEq] at h
        obtain ⟨h1, h2⟩ := h
        subst h1
        subst h2
        have h' : n * (-1 + 0) = -n := by ring
        rw [h'] at hinc
        have hn : 0 ≤ n := by omega
        obtain ⟨k, hkdef⟩ : ∃ k : Int, k = min n
            ((s.tiles (s.tile_map fr.toNat fc.toNat)).column_span - 1) := ⟨_, rfl⟩
        obtain ⟨hfst, hsnd⟩ := getTilesToSplit_west s fr fc n _ _ k rfl rfl hors hocs hn hkdef
        have hsnd' : ∀ x y : Int, ((x, y) ∈ (getTilesToSplit s (-1) 0 fr fc n).2 ↔
            (fr ≤ x ∧ x < fr + (s.tiles (s.tile_map fr.toNat fc.toNat)).row_span ∧
             fc ≤ y ∧ y < fc + k)) :=
          fun x y => hsnd (x, y)
        have hb0 : bi ((0 : Int) = -1) = 0 := rfl
        have hbm : bi ((-1 : Int) = -1) = 1 := rfl
        rw [hb0, hbm, hfst]
        have e1 : fr + k * 0 = fr := by ring
        have e2 : fc + k * 1 = fc + k := by ring
        have e3 : (s.tiles (s.tile_map fr.toNat fc.toNat)).row_span + k * 0 =
            (s.tiles (s.tile_map fr.toNat fc.toNat)).row_span := by ring
        have e4 : (s.tiles (s.tile_map fr.toNat fc.toNat)).column_span + k * -1 =
            (s.tiles (s.tile_map fr.toNat fc.toNat)).column_span - k := by ring
        rw [e1, e2, e3, e4]
        refine inv_shrink_apply s (s.tile_map fr.toNat fc.toNat) fr (fc + k) _ _ _ hinv hmem
          ⟨by omega, by omega, by omega, by omega⟩ ⟨by omega, by omega⟩ ?_
        intro x y
        constructor
        · intro hxy
          obtain ⟨k1, k2, k3, k4⟩ := (hsnd' x y).mp hxy
          refine ⟨⟨by omega, by omega, by omega, by omega⟩, ?_⟩
          intro hnew
          omega
        · rintro ⟨hold, hnnew⟩
          exact (hsnd' x y).mpr ⟨by omega, by omega, by omega, by omega⟩
      · -- shrink with direction south (0, 1)
        rw [Prod.mk.injEq] at h
        obtain ⟨h1, h2⟩ := h
        subst h1
        subst h2
        have h' : n * (0 + 1) = n := by ring
        rw [h'] at hinc
        have hn : n ≤ 0 := by omega
        obtain ⟨k, hkdef⟩ : ∃ k : Int, k = min (-n)
            ((s.tiles (s.tile_map fr.toNat fc.toNat)).row_span - 1) := ⟨_, rfl⟩
        obtain ⟨hfst, hsnd⟩ := getTilesToSplit_south s fr fc n _ _ k rfl rfl hors hocs hn hkdef
        have hsnd' : ∀ x y : Int, ((x, y) ∈ (getTilesToSplit s 0 1 fr fc n).2 ↔
            (fr + (s.tiles (s.tile_map fr.toNat fc.toNat)).row_span - k ≤ x ∧
             x < fr + (s.tiles (s.tile_map fr.toNat fc.toNat)).row_span ∧
             fc ≤ y ∧ y < fc + (s.tiles (s.tile_map fr.toNat fc.toNat)).column_span)) :=
          fun x y => hsnd (x, y)
        have hb0 : bi ((0 : Int) = -1) = 0 := rfl
        have hb1 : bi ((1 : Int) = -1) = 0 := rfl
        rw [hb1, hb0, hfst]
        have e1 : fr + -k * 0 = fr := by ring
        have e2 : fc + -k * 0 = fc := by ring
        have e3 : (s.tiles (s.tile_map fr.toNat fc.toNat)).row_span + -k * 1 =
            (s.tiles (s.tile_map fr.toNat fc.toNat)).row_span - k := by ring
        have e4 : (s.tiles (s.tile_map fr.toNat fc.toNat)).column_span + -k * 0 =
            (s.tiles (s.tile_map fr.toNat fc.toNat)).column_span := by ring
        rw [e1, e2, e3, e4]
        refine inv_shrink_apply s (s.tile_map fr.toNat fc.toNat) fr fc _ _ _ hinv hmem
          ⟨by omega, by omega, by omega, by omega⟩ ⟨by omega, by omega⟩ ?_
        intro x y
        constructor
        · intro hxy
          obtain ⟨k1, k2, k3, k4⟩ := (hsnd' x y).mp hxy
          refine ⟨⟨by omega, by omega, by omega, by omega⟩, ?_⟩
          intro hnew
          omega
        · rintro ⟨hold, hnnew⟩
          exact (hsnd' x y).mpr ⟨by omega, by omega, by omega, by omega⟩
      · -- shrink with direction north (0, -1)
        rw [Prod.mk.injEq] at h
        obtain ⟨h1, h2⟩ := h
        subst h1
        subst h2
        have h' : n * (0 + -1) = -n := by ring
        rw [h'] at hinc
        have hn : 0 ≤ n := by omega
        obtain ⟨k, hkdef⟩ : ∃ k : Int, k = min n
            ((s.tiles (s.tile_map fr.toNat fc.toNat)).row_span - 1) := ⟨_, rfl⟩
        obtain ⟨hfst, hsnd⟩ := getTilesToSplit_north s fr fc n _ _ k rfl rfl hors hocs hn hkdef
        have hsnd' : ∀ x y : Int, ((x, y) ∈ (getTilesToSplit s 0 (-1) fr fc n).2 ↔
            (fr ≤ x ∧ x < fr + k ∧ fc ≤ y ∧
             y < fc + (s.tiles (s.tile_map fr.toNat fc.toNat)).column_span)) :=
          fun x y => hsnd (x, y)
        have hbm : bi ((-1 : Int) = -1) = 1 := rfl
        have hb0 : bi ((0 : Int) = -1) = 0 := rfl
        rw [hbm, hb0, hfst]
        have e1 : fr + k * 1 = fr + k := by ring
        have e2 : fc + k * 0 = fc := by ring
        have e3 : (s.tiles (s.tile_map fr.toNat fc.toNat)).row_span + k * -1 =
            (s.tiles (s.tile_map fr.toNat fc.toNat)).row_span - k := by ring
        have e4 : (s.tiles (s.tile_map fr.toNat fc.toNat)).column_span + k * 0 =
            (s.tiles (s.tile_map fr.toNat fc.toNat)).column_span := by ring
        rw [e1, e2, e3, e4]
        refine inv_shrink_apply s (s.tile_map fr.toNat fc.toNat) (fr + k) fc _ _ _ hinv hmem
          ⟨by omega, by omega, by omega, by omega⟩ ⟨by omega, by omega⟩ ?_
        intro x y
        constructor
        · intro hxy
          obtain ⟨k1, k2, k3, k4⟩ := (hsnd' x y).mp hxy
          refine ⟨⟨by omega, by omega, by omega, by omega⟩, ?_⟩
          intro hnew
          omega
        · rintro ⟨hold, hnnew⟩
          exact (hsnd' x y).mpr ⟨by omega, by omega, by omega, by omega⟩

/-- Every valid operation that completes preserves the full
invariant. -/
theorem inv_applyOp (s : LayoutState) (op : Op) (s' : LayoutState)
    (hinv : Inv s) (hok : applyOp s op = some s') : Inv s' := by
  cases op with
  | add w fr fc rs cs =>
    simp only [applyOp] at hok
    by_cases hpre : 1 ≤ rs ∧ 1 ≤ cs
    · rw [if_pos hpre] at hok
      cases haw : addWidget s w fr fc rs cs with
      | error e =>
        rw [haw] at hok
        exact absurd hok (by simp [Except.toOption])
      | ok s2 =>
        rw [haw] at hok
        have hok' : s2 = s' := by simpa [Except.toOption] using hok
        subst hok'
        exact inv_addWidget s w fr fc rs cs s2 hinv hpre.1 hpre.2 haw
    · rw [if_neg hpre] at hok
      exact absurd hok (by simp)
  | remove w =>
    simp only [applyOp] at hok
    cases hrw : removeWidget s w with
    | error e =>
      rw [hrw] at hok
      exact absurd hok (by simp [Except.toOption])
    | ok s2 =>
      rw [hrw] at hok
      have hok' : s2 = s' := by simpa [Except.toOption] using hok
      subst hok'
      exact inv_removeWidget s w s2 hinv hrw
  | resize dx dy fr fc tn =>
    simp only [applyOp] at hok
    by_cases hpre : ValidResize s dx dy fr fc
    · rw [if_pos hpre] at hok
      cases hrt : resizeTile s dx dy fr fc tn with
      | none =>
        rw [hrt] at hok
        exact absurd hok (by simp)
      | some p =>
        rw [hrt] at hok
        have hok' : p.1 = s' := by simpa using hok
        subst hok'
        exact inv_resizeTile s dx dy fr fc tn p.1 p.2 hinv hpre (by rw [hrt, Prod.mk.eta])
    · rw [if_neg hpre] at hok
      exact absurd hok (by simp)
  | hardSplit fr fc cells =>
    simp only [applyOp] at hok
    by_cases hpre : ValidHardSplit s cells
    · rw [if_pos hpre] at hok
      cases hhs : hardSplitTiles s fr fc cells with
      | none =>
        rw [hhs] at hok
        exact absurd hok (by simp)
      | some p =>
        rw [hhs] at hok
        have hok' : p.2 = s' := by simpa using hok
        subst hok'
        exact inv_hardSplitTiles s fr fc cells p hinv hpre hhs
    · rw [if_neg hpre] at hok
      exact absurd hok (by simp)

/-- The invariant is preserved along any completed sequence of valid
operations. -/
theorem inv_applyOps (ops : List Op) : ∀ s s' : LayoutState,
    Inv s → applyOps s ops = some s' → Inv s' := by
  induction ops with
  | nil =>
    intro s s' hinv hok
    simp only [applyOps, Option.some.injEq] at hok
    exact hok ▸ hinv
  | cons op rest ih =>
    intro s s' hinv hok
    simp only [applyOps] at hok
    cases hap : applyOp s op with
    | none =>
      rw [hap] at hok
      exact absurd hok (by simp)
    | some s2 =>
      rw [hap] at hok
      have hok' : applyOps s2 rest = some s' := hok
      exact ih s2 s' (inv_applyOp s op s2 hinv hap) hok'

/-- Claim C1: for every finite sequence of valid operations
(`addWidget`, `removeWidget`, `resizeTile`, `hardSplitTiles`) starting
from a freshly constructed grid, every cell `(row, column)` of
`tile_map` references exactly one tile whose rectangle covers that
cell, the rectangles of any two distinct referenced tiles are disjoint,
and the union of all referenced tile rectangles covers the grid exactly
once — this is the `Partition` property of every reachable state. -/
theorem c1_partition_invariant (rows columns : Nat) (s : LayoutState)
    (h : Reachable rows columns s) : Partition s := by
  obtain ⟨ops, hops⟩ := h
  exact (inv_applyOps ops (initState rows columns) s (inv_initState rows columns) hops).1

/-- Witness for C1: the state of `shrinkDemo` (a 2×2 grid after one
valid placement over the left column) is reachable, and the claim
instantiated there yields its partition property. -/
theorem c1_partition_invariant_witness :
    Reachable 2 2 shrinkDemo ∧ Partition shrinkDemo :=
  ⟨⟨[Op.add 5 0 0 2 1], rfl⟩,
   c1_partition_invariant 2 2 shrinkDemo ⟨[Op.add 5 0 0 2 1], rfl⟩⟩

end TileLayout
